import Mathlib

/-!
Verification of the resilient external-call orchestration layer of the
travel-itinerary service: retry with exponential backoff, circuit breaker,
timeout-bounded fetch, the LLM response-repair parser, the image-fetch
fallback chain and the itinerary-assembly pipeline.  Each definition is a
shallow embedding of the corresponding TypeScript source
(`src/app/utils/timeout.ts`, `src/app/utils/pexels.ts`,
`src/app/api/itinerary/route.ts`); asynchronous operations are modelled by
explicit outcome oracles, thrown exceptions by `Except`, and wall-clock
instants by natural numbers.
-/

namespace Retry

/-- Outcome of one invocation of a fallible asynchronous operation:
it either resolves with a value or rejects with an error. -/
inductive Outcome (E A : Type) where
  | ok (a : A)
  | fail (e : E)
  deriving Repr, DecidableEq

/-- Observable behaviour of one run of `retryWithBackoff`
(`src/app/utils/timeout.ts`, `retryWithBackoff`): the settled result
(`Except.error none` models the JavaScript `throw lastError!` when the loop
body never ran and `lastError` is still undefined), the number of times the
wrapped operation was invoked, and the list of backoff delays that were
inserted between attempts, in order. -/
structure RunResult (E A : Type) where
  result : Except (Option E) A
  attempts : Nat
  delays : List Nat

/-- Loop body of `retryWithBackoff`: `attempt` is the 1-based index of the
current attempt, `left` the number of attempts still allowed (so the source's
`attempt === maxAttempts` exit test is `left = 1`, reached with
`left - 1 = 0` after consuming the current attempt).  On failure with
attempts remaining it records the delay `baseDelay * 2 ^ (attempt - 1)`
(the source's `baseDelay * Math.pow(2, attempt - 1)`) and recurses. -/
def retryGo {E A : Type} (ops : Nat → Outcome E A) (baseDelay : Nat) :
    Nat → Nat → RunResult E A
  | _, 0 => ⟨Except.error none, 0, []⟩
  | attempt, left + 1 =>
    match ops attempt with
    | Outcome.ok a => ⟨Except.ok a, 1, []⟩
    | Outcome.fail e =>
      if left = 0 then ⟨Except.error (some e), 1, []⟩
      else
        let d := baseDelay * 2 ^ (attempt - 1)
        let r := retryGo ops baseDelay (attempt + 1) left
        ⟨r.result, r.attempts + 1, d :: r.delays⟩

/-- Model of `retryWithBackoff(operation, maxAttempts, baseDelay, name)`:
`ops k` is the outcome the wrapped operation would produce on its `k`-th
invocation (1-based). -/
def retryWithBackoff {E A : Type} (ops : Nat → Outcome E A)
    (maxAttempts baseDelay : Nat) : RunResult E A :=
  retryGo ops baseDelay 1 maxAttempts

theorem retryGo_allFail {E A : Type} (err : Nat → E) (b : Nat) :
    ∀ left attempt, 1 ≤ left → 1 ≤ attempt →
      (retryGo (E := E) (A := A) (fun k => Outcome.fail (err k)) b attempt left).result
          = Except.error (some (err (attempt + left - 1))) ∧
      (retryGo (E := E) (A := A) (fun k => Outcome.fail (err k)) b attempt left).attempts
          = left ∧
      (retryGo (E := E) (A := A) (fun k => Outcome.fail (err k)) b attempt left).delays
          = (List.range (left - 1)).map (fun i => b * 2 ^ (attempt - 1 + i)) := by
  intro left
  induction left with
  | zero => intro _ h; omega
  | succ l ih =>
    intro attempt _ hattempt
    cases l with
    | zero =>
      simp [retryGo]
    | succ m =>
      obtain ⟨hr, ha, hd⟩ := ih (attempt + 1) (by omega) (by omega)
      have hstep : retryGo (E := E) (A := A) (fun k => Outcome.fail (err k)) b attempt (m + 1 + 1) =
          ⟨(retryGo (E := E) (A := A) (fun k => Outcome.fail (err k)) b (attempt + 1) (m + 1)).result,
           (retryGo (E := E) (A := A) (fun k => Outcome.fail (err k)) b (attempt + 1) (m + 1)).attempts + 1,
           b * 2 ^ (attempt - 1) ::
             (retryGo (E := E) (A := A) (fun k => Outcome.fail (err k)) b (attempt + 1) (m + 1)).delays⟩ := by
        simp [retryGo]
      rw [hstep]
      refine ⟨?_, ?_, ?_⟩
      · rw [hr]
        have heq : attempt + 1 + (m + 1) - 1 = attempt + (m + 1 + 1) - 1 := by omega
        rw [heq]
      · simp only [ha]
      · rw [hd, show m + 1 + 1 - 1 = m + 1 from rfl, List.range_succ_eq_map,
           List.map_cons, List.map_map, Nat.add_zero]
        apply congrArg (List.cons (b * 2 ^ (attempt - 1)))
        apply List.map_congr_left
        intro i _
        simp only [Function.comp_apply]
        have h2 : attempt + 1 - 1 + i = attempt - 1 + Nat.succ i := by omega
        rw [h2]

theorem retryGo_firstSuccess {E A : Type} (ops : Nat → Outcome E A) (b : Nat) :
    ∀ left attempt k a, attempt ≤ k → k < attempt + left →
      (∀ j, attempt ≤ j → j < k → ∃ e, ops j = Outcome.fail e) →
      ops k = Outcome.ok a →
      (retryGo ops b attempt left).result = Except.ok a ∧
      (retryGo ops b attempt left).attempts = k - attempt + 1 := by
  intro left
  induction left with
  | zero => intro attempt k a h1 h2 _ _; omega
  | succ l ih =>
    intro attempt k a h1 h2 hfail hok
    by_cases hak : attempt = k
    · subst hak
      simp [retryGo, hok]
    · have hlt : attempt < k := by omega
      obtain ⟨e, he⟩ := hfail attempt (le_refl _) hlt
      have hl : l ≠ 0 := by omega
      have hrec := ih (attempt + 1) k a (by omega) (by omega)
        (fun j hj1 hj2 => hfail j (by omega) hj2) hok
      simp only [retryGo, he, if_neg hl]
      exact ⟨hrec.1, by rw [hrec.2]; omega⟩

/-- C6: for every configuration (`maxAttempts = N ≥ 1`, `baseDelay = b`) and
every operation failing on every invocation, `retryWithBackoff` invokes the
operation exactly `N` times, the delay inserted before attempt `k`
(`k ∈ 2..N`, i.e. list position `k - 2`) equals `b * 2 ^ (k - 2)`, and the
error finally raised is identically the error thrown by the last attempt
(no wrapper); on a successful attempt it returns that result without
further attempts. -/
theorem retryWithBackoff_contract {E A : Type} (err : Nat → E) (N b : Nat) (hN : 1 ≤ N) :
    ((Retry.retryWithBackoff (E := E) (A := A) (fun k => Retry.Outcome.fail (err k)) N b).attempts
        = N ∧
     (Retry.retryWithBackoff (E := E) (A := A) (fun k => Retry.Outcome.fail (err k)) N b).delays
        = (List.range (N - 1)).map (fun i => b * 2 ^ i) ∧
     (Retry.retryWithBackoff (E := E) (A := A) (fun k => Retry.Outcome.fail (err k)) N b).result
        = Except.error (some (err N))) ∧
    ∀ (ops : Nat → Retry.Outcome E A) (k : Nat) (a : A), 1 ≤ k → k ≤ N →
      (∀ j, 1 ≤ j → j < k → ∃ e, ops j = Retry.Outcome.fail e) →
      ops k = Retry.Outcome.ok a →
      (Retry.retryWithBackoff ops N b).result = Except.ok a ∧
      (Retry.retryWithBackoff ops N b).attempts = k := by
  obtain ⟨hr, ha, hd⟩ := Retry.retryGo_allFail err b N 1 hN (le_refl 1)
  simp only [Retry.retryWithBackoff]
  refine ⟨⟨ha, ?_, ?_⟩, ?_⟩
  · rw [hd]
    apply List.map_congr_left
    intro i _
    norm_num
  · rw [hr]
    have heq : 1 + N - 1 = N := by omega
    rw [heq]
  · intro ops k a hk1 hk2 hfail hok
    have h := Retry.retryGo_firstSuccess ops b N 1 k a hk1 (by omega) hfail hok
    exact ⟨h.1, by rw [h.2]; omega⟩

/-- Witness for `retryWithBackoff_contract` at a concrete configuration:
3 attempts, base delay 100, an always-failing operation, and an operation
succeeding on attempt 2. -/
theorem retryWithBackoff_contract_witness :
    (Retry.retryWithBackoff (E := String) (A := Nat)
        (fun k => Retry.Outcome.fail (toString k)) 3 100).attempts = 3 ∧
    (Retry.retryWithBackoff (E := String) (A := Nat)
        (fun k => Retry.Outcome.fail (toString k)) 3 100).delays = [100, 200] ∧
    (Retry.retryWithBackoff (E := String) (A := Nat)
        (fun k => Retry.Outcome.fail (toString k)) 3 100).result
      = Except.error (some "3") ∧
    (Retry.retryWithBackoff
        (fun k => if k = 2 then Retry.Outcome.ok 7 else Retry.Outcome.fail "x") 3 100).result
      = Except.ok 7 ∧
    (Retry.retryWithBackoff
        (fun k => if k = 2 then Retry.Outcome.ok 7 else Retry.Outcome.fail "x") 3 100).attempts
      = 2 := by
  have h := retryWithBackoff_contract (E := String) (A := Nat)
    (fun k => toString k) 3 100 (by decide)
  have h2 := h.2 (fun k => if k = 2 then Retry.Outcome.ok 7 else Retry.Outcome.fail "x") 2 7
    (by decide) (by decide)
    (fun j hj1 hj2 => ⟨"x", by
      have hj : j ≠ 2 := by omega
      simp [hj]⟩)
    (by decide)
  refine ⟨h.1.1, ?_, ?_, h2.1, h2.2⟩
  · rw [h.1.2.1]
    rfl
  · rw [h.1.2.2]
    rfl

end Retry

namespace Breaker

/-- State enum of `CircuitBreaker` (`src/app/utils/timeout.ts`). -/
inductive BState where
  | CLOSED
  | OPEN
  | HALF_OPEN
  deriving Repr, DecidableEq

/-- Fields of a `CircuitBreaker` instance: the mutable triple
(`failures`, `lastFailureTime`, `state`) plus the constructor-supplied
configuration (`failureThreshold`, `resetTimeout`).  Wall-clock instants
(`Date.now()`) are modelled as naturals supplied per call. -/
structure CircuitBreaker where
  failures : Nat
  lastFailureTime : Nat
  state : BState
  failureThreshold : Nat
  resetTimeout : Nat
  deriving Repr, DecidableEq

/-- A freshly constructed breaker: zero failures, zero last-failure time,
state CLOSED. -/
def mkBreaker (failureThreshold resetTimeout : Nat) : CircuitBreaker :=
  ⟨0, 0, BState.CLOSED, failureThreshold, resetTimeout⟩

/-- What the caller of `execute` observes. -/
inductive ExecResult (E A : Type) where
  | ok (a : A)
  | err (e : E)
  | breakerOpen
  deriving Repr, DecidableEq

/-- `CircuitBreaker.onSuccess`: reset the failure counter; leave HALF_OPEN
for CLOSED. -/
def onSuccess (b : CircuitBreaker) : CircuitBreaker :=
  let b' := { b with failures := 0 }
  if b'.state = BState.HALF_OPEN then { b' with state := BState.CLOSED } else b'

/-- `CircuitBreaker.onFailure`: bump the counter, record the failure time,
and trip to OPEN once the threshold is reached. -/
def onFailure (b : CircuitBreaker) (now : Nat) : CircuitBreaker :=
  let b' := { b with failures := b.failures + 1, lastFailureTime := now }
  if b'.failureThreshold ≤ b'.failures then { b' with state := BState.OPEN } else b'

/-- The `try { operation() ... } catch` part of `execute`: run the wrapped
operation (whose outcome this call would observe is `out`), fire the
matching hook, and return/rethrow.  The boolean records that the wrapped
operation was invoked. -/
def runOp {E A : Type} (b : CircuitBreaker) (now : Nat) (out : Retry.Outcome E A) :
    ExecResult E A × CircuitBreaker × Bool :=
  match out with
  | Retry.Outcome.ok a => (ExecResult.ok a, onSuccess b, true)
  | Retry.Outcome.fail e => (ExecResult.err e, onFailure b now, true)

/-- `CircuitBreaker.execute`: gate on the OPEN state (move to HALF_OPEN when
the reset timeout has elapsed since the last failure, reject otherwise),
then run the operation. -/
def execute {E A : Type} (b : CircuitBreaker) (now : Nat) (out : Retry.Outcome E A) :
    ExecResult E A × CircuitBreaker × Bool :=
  if b.state = BState.OPEN then
    if b.resetTimeout < now - b.lastFailureTime then
      runOp { b with state := BState.HALF_OPEN } now out
    else (ExecResult.breakerOpen, b, false)
  else runOp b now out

/-- State transition of one `execute` call, abstracted over the payload:
only success/failure of the wrapped operation matters for the breaker. -/
def stepB (b : CircuitBreaker) (now : Nat) (success : Bool) : CircuitBreaker :=
  (execute (E := Unit) (A := Unit) b now
    (if success then Retry.Outcome.ok () else Retry.Outcome.fail ())).2.1

/-- Breaker states reachable from a freshly constructed breaker by any
sequence of `execute` calls. -/
inductive Reachable (t r : Nat) : CircuitBreaker → Prop where
  | init : Reachable t r (mkBreaker t r)
  | step (b : CircuitBreaker) (now : Nat) (success : Bool) :
      Reachable t r b → Reachable t r (stepB b now success)

/-- The state transition of one call, written as nested conditionals: a call
against an OPEN breaker whose reset timeout has not elapsed changes nothing;
otherwise the OPEN state first becomes HALF_OPEN and then the matching hook
runs. -/
theorem stepB_eq (b : CircuitBreaker) (now : Nat) (success : Bool) :
    stepB b now success =
      if b.state = BState.OPEN ∧ ¬ b.resetTimeout < now - b.lastFailureTime then b
      else if success
        then onSuccess (if b.state = BState.OPEN then { b with state := BState.HALF_OPEN } else b)
        else onFailure (if b.state = BState.OPEN then { b with state := BState.HALF_OPEN } else b)
               now := by
  unfold stepB execute runOp
  by_cases h1 : b.state = BState.OPEN <;>
    by_cases h2 : b.resetTimeout < now - b.lastFailureTime <;>
      cases success <;> simp [h1, h2]

theorem reachable_config {t r : Nat} {b : CircuitBreaker} (h : Reachable t r b) :
    b.failureThreshold = t ∧ b.resetTimeout = r := by
  induction h with
  | init => exact ⟨rfl, rfl⟩
  | step b now success _ ih =>
    rw [stepB_eq]
    simp only [onSuccess, onFailure]
    split_ifs <;> simp_all

/-- Key invariant: in every reachable non-CLOSED state the failure counter
has reached the threshold (the OPEN → HALF_OPEN transition does not reset
the counter, so the half-open trial's failure hook always re-trips the
breaker). -/
theorem reachable_inv {t r : Nat} {b : CircuitBreaker} (h : Reachable t r b) :
    b.state ≠ BState.CLOSED → t ≤ b.failures := by
  induction h with
  | init => intro hc; exact absurd rfl hc
  | step b now success hb ih =>
    have hcfg := (reachable_config hb).1
    intro hc
    rw [stepB_eq] at hc ⊢
    by_cases h1 : b.state = BState.OPEN ∧ ¬ b.resetTimeout < now - b.lastFailureTime
    · rw [if_pos h1] at hc ⊢
      exact ih hc
    · rw [if_neg h1] at hc ⊢
      by_cases hs : success = true
      · rw [if_pos hs] at hc ⊢
        by_cases hopen : b.state = BState.OPEN
        · rw [if_pos hopen] at hc ⊢
          exact absurd rfl hc
        · rw [if_neg hopen] at hc ⊢
          rcases hstate : b.state with _ | _ | _
          · refine absurd ?_ hc
            simp [onSuccess, hstate]
          · exact absurd hstate hopen
          · refine absurd ?_ hc
            simp [onSuccess, hstate]
      · rw [if_neg hs] at hc ⊢
        by_cases hopen : b.state = BState.OPEN
        · rw [if_pos hopen] at hc ⊢
          have hf : t ≤ b.failures := ih (by rw [hopen]; exact fun hcon => by cases hcon)
          simp only [onFailure] at hc ⊢
          split_ifs at hc ⊢ <;> · show t ≤ b.failures + 1; omega
        · rw [if_neg hopen] at hc ⊢
          simp only [onFailure] at hc ⊢
          split_ifs at hc ⊢ with hthr
          · show t ≤ b.failures + 1
            omega
          · show t ≤ b.failures + 1
            have hc' : b.state ≠ BState.CLOSED := hc
            rcases hstate : b.state with _ | _ | _
            · exact absurd hstate hc'
            · exact absurd hstate hopen
            · have := ih (by rw [hstate]; exact fun hcon => by cases hcon)
              omega

/-- C7: the circuit breaker state machine, over every sequence of `execute`
calls: it moves OPEN → HALF_OPEN only when the reset timeout has elapsed
since the last recorded failure (otherwise the call is rejected unchanged);
the half-open trial's success moves it to CLOSED with the failure counter
reset to 0; the half-open trial's failure returns it to OPEN (for every
reachable breaker, via the invariant that non-CLOSED reachable states carry
at least `failureThreshold` failures); and a success while CLOSED resets the
failure counter to 0 without leaving CLOSED. -/
theorem circuitBreaker_stateMachine {E A : Type} :
    (∀ (b : CircuitBreaker) (now : Nat) (out : Retry.Outcome E A),
      b.state = BState.OPEN → ¬ b.resetTimeout < now - b.lastFailureTime →
      execute b now out = (ExecResult.breakerOpen, b, false)) ∧
    (∀ (b : CircuitBreaker) (now : Nat) (out : Retry.Outcome E A),
      b.state = BState.OPEN → b.resetTimeout < now - b.lastFailureTime →
      execute b now out = runOp { b with state := BState.HALF_OPEN } now out) ∧
    (∀ (b : CircuitBreaker) (now : Nat) (a : A),
      b.state = BState.HALF_OPEN →
      runOp (E := E) b now (Retry.Outcome.ok a) =
        (ExecResult.ok a, { b with failures := 0, state := BState.CLOSED }, true)) ∧
    (∀ (b : CircuitBreaker) (now : Nat) (e : E),
      b.state = BState.HALF_OPEN → b.failureThreshold ≤ b.failures →
      (runOp (A := A) b now (Retry.Outcome.fail e)).2.1.state = BState.OPEN) ∧
    (∀ (t r : Nat) (b : CircuitBreaker), Reachable t r b →
      b.state ≠ BState.CLOSED → t ≤ b.failures) ∧
    (∀ (b : CircuitBreaker) (now : Nat) (a : A),
      b.state = BState.CLOSED →
      execute (E := E) b now (Retry.Outcome.ok a) =
        (ExecResult.ok a, { b with failures := 0 }, true)) := by
  refine ⟨?_, ?_, ?_, ?_, ?_, ?_⟩
  · intro b now out hopen helapsed
    simp [execute, hopen, helapsed]
  · intro b now out hopen helapsed
    simp [execute, hopen, helapsed]
  · intro b now a hhalf
    simp [runOp, onSuccess, hhalf]
  · intro b now e hhalf hthr
    have h2 : b.failureThreshold ≤ b.failures + 1 := by omega
    simp [runOp, onFailure, h2]
  · intro t r b hreach
    exact reachable_inv hreach
  · intro b now a hclosed
    have hne : b.state ≠ BState.OPEN := by rw [hclosed]; exact fun hcon => by cases hcon
    simp [execute, hne, runOp, onSuccess, hclosed]

/-- Witness for `circuitBreaker_stateMachine` at concrete breakers (the
Perplexity configuration: threshold 3, reset timeout 60000). -/
theorem circuitBreaker_stateMachine_witness :
    execute (E := String) (A := Nat) ⟨3, 100, BState.OPEN, 3, 60000⟩ 200
        (Retry.Outcome.ok 5) = (ExecResult.breakerOpen, ⟨3, 100, BState.OPEN, 3, 60000⟩, false) ∧
    execute (E := String) (A := Nat) ⟨3, 100, BState.OPEN, 3, 60000⟩ 70000
        (Retry.Outcome.ok 5) =
      runOp ⟨3, 100, BState.HALF_OPEN, 3, 60000⟩ 70000 (Retry.Outcome.ok 5) ∧
    runOp (E := String) ⟨3, 100, BState.HALF_OPEN, 3, 60000⟩ 70000 (Retry.Outcome.ok 5) =
      (ExecResult.ok 5, ⟨0, 100, BState.CLOSED, 3, 60000⟩, true) ∧
    (runOp (A := Nat) ⟨3, 100, BState.HALF_OPEN, 3, 60000⟩ 70000
        (Retry.Outcome.fail "boom")).2.1.state = BState.OPEN ∧
    (3 : Nat) ≤ (stepB (stepB (stepB (mkBreaker 3 60000) 1 false) 2 false) 3 false).failures ∧
    execute (E := String) (A := Nat) ⟨2, 50, BState.CLOSED, 3, 60000⟩ 60
        (Retry.Outcome.ok 5) = (ExecResult.ok 5, ⟨0, 50, BState.CLOSED, 3, 60000⟩, true) := by
  have h := circuitBreaker_stateMachine (E := String) (A := Nat)
  have hreach : Reachable 3 60000 (stepB (stepB (stepB (mkBreaker 3 60000) 1 false) 2 false)
      3 false) :=
    Reachable.step _ 3 false (Reachable.step _ 2 false (Reachable.step _ 1 false Reachable.init))
  refine ⟨h.1 _ 200 _ rfl (by decide), h.2.1 _ 70000 _ rfl (by decide),
    h.2.2.1 _ 70000 _ rfl, h.2.2.2.1 _ 70000 _ rfl (by decide),
    h.2.2.2.2.1 3 60000 _ hreach (by decide), h.2.2.2.2.2 _ 60 _ rfl⟩

/-- Model of the instrumented invocation count of C8: a list of timed
failure calls applied in sequence. -/
def failSeq (b : CircuitBreaker) (times : List Nat) : CircuitBreaker :=
  times.foldl (fun b now => stepB b now false) b

theorem failSeq_closed_fill (t r : Nat) :
    ∀ (times : List Nat) (f lft : Nat), f < t → f + times.length ≤ t →
      (failSeq ⟨f, lft, BState.CLOSED, t, r⟩ times).failures = f + times.length ∧
      (failSeq ⟨f, lft, BState.CLOSED, t, r⟩ times).state =
        (if f + times.length < t then BState.CLOSED else BState.OPEN) ∧
      (failSeq ⟨f, lft, BState.CLOSED, t, r⟩ times).lastFailureTime = times.getLastD lft := by
  intro times
  induction times with
  | nil =>
    intro f lft hf _
    refine ⟨by simp [failSeq], ?_, by simp [failSeq]⟩
    simp only [failSeq, List.foldl_nil, List.length_nil, Nat.add_zero]
    rw [if_pos hf]
  | cons now rest ih =>
    intro f lft hf hlen
    have hstep : stepB ⟨f, lft, BState.CLOSED, t, r⟩ now false =
        ⟨f + 1, now, if t ≤ f + 1 then BState.OPEN else BState.CLOSED, t, r⟩ := by
      rw [stepB_eq]
      simp only [onFailure]
      split_ifs <;> simp_all
    have hfold : failSeq ⟨f, lft, BState.CLOSED, t, r⟩ (now :: rest) =
        failSeq (stepB ⟨f, lft, BState.CLOSED, t, r⟩ now false) rest := by
      simp [failSeq]
    have hlen' : f + (rest.length + 1) ≤ t := by
      simpa using hlen
    by_cases htrip : t ≤ f + 1
    · have hrest : rest = [] := by
        have h0 : rest.length = 0 := by omega
        exact List.length_eq_zero.mp h0
      subst hrest
      rw [hfold, hstep, if_pos htrip]
      simp only [failSeq, List.foldl_nil, List.length_cons, List.length_nil, Nat.zero_add]
      refine ⟨by trivial, ?_, by simp⟩
      rw [if_neg (show ¬ f + 1 < t by omega)]
    · rw [hfold, hstep, if_neg htrip]
      have h := ih (f + 1) now (by omega) (by omega)
      refine ⟨?_, ?_, ?_⟩
      · rw [h.1]
        simp only [List.length_cons]
        omega
      · rw [h.2.1]
        have harith : f + 1 + rest.length = f + (now :: rest).length := by
          simp only [List.length_cons]
          omega
        rw [harith]
      · rw [h.2.2, List.getLastD_cons]

/-- C8: after `failureThreshold` consecutive failures (from a fresh breaker)
the breaker state is OPEN, and while OPEN with the reset timeout not yet
elapsed, `execute` fails immediately with the breaker-open rejection,
without invoking the wrapped operation (invocation flag `false`) and
without changing any breaker state. -/
theorem circuitBreaker_opens_and_failsFast {E A : Type} :
    (∀ (t r : Nat) (times : List Nat), 1 ≤ t → times.length = t →
      (failSeq (mkBreaker t r) times).state = BState.OPEN) ∧
    (∀ (b : CircuitBreaker) (now : Nat) (out : Retry.Outcome E A),
      b.state = BState.OPEN → now - b.lastFailureTime ≤ b.resetTimeout →
      execute b now out = (ExecResult.breakerOpen, b, false)) := by
  constructor
  · intro t r times ht hlen
    have h := failSeq_closed_fill t r times 0 0 (by omega) (by omega)
    have h2 : (failSeq (mkBreaker t r) times).state =
        if 0 + times.length < t then BState.CLOSED else BState.OPEN := h.2.1
    rw [h2, hlen, if_neg (by omega)]
  · intro b now out hopen helapsed
    simp [execute, hopen, Nat.not_lt.mpr helapsed]

/-- Witness for `circuitBreaker_opens_and_failsFast`: three failures at
times 1,2,3 trip a threshold-3 breaker, and a call at time 100 (within the
60000 ms reset window) is rejected without invocation. -/
theorem circuitBreaker_opens_and_failsFast_witness :
    (failSeq (mkBreaker 3 60000) [1, 2, 3]).state = BState.OPEN ∧
    execute (E := String) (A := Nat) ⟨3, 3, BState.OPEN, 3, 60000⟩ 100
        (Retry.Outcome.ok 5) = (ExecResult.breakerOpen, ⟨3, 3, BState.OPEN, 3, 60000⟩, false) := by
  have h := circuitBreaker_opens_and_failsFast (E := String) (A := Nat)
  exact ⟨h.1 3 60000 [1, 2, 3] (by decide) (by decide),
    h.2 ⟨3, 3, BState.OPEN, 3, 60000⟩ 100 (Retry.Outcome.ok 5) rfl (by decide)⟩

end Breaker

namespace Timeout

/-- Timeout constants of `src/app/utils/timeout.ts` (`TIMEOUTS`). -/
def TIMEOUTS_GLOBAL : Nat := 30000

def TIMEOUTS_AI : Nat := 15000

def TIMEOUTS_IMAGES : Nat := 20000

def TIMEOUTS_PEXELS : Nat := 8000

def TIMEOUTS_FALLBACK : Nat := 5000

/-- JavaScript error values as observed by the orchestration layer's catch
clauses: the typed `TimeoutError` (carrying the operation name and the
configured deadline), the `AbortError` produced by an aborted `fetch`, and
arbitrary other errors identified by `name`/`message`. -/
inductive JsError where
  | timeoutError (operation : String) (timeout : Nat)
  | abortError
  | error (name message : String)
  deriving Repr, DecidableEq

/-- The `name` property tested by `fetchWithTimeout`'s catch clause
(`error.name === 'AbortError'`). -/
def JsError.name : JsError → String
  | JsError.timeoutError _ _ => "TimeoutError"
  | JsError.abortError => "AbortError"
  | JsError.error n _ => n

/-- How the race between the wrapped `fetch` and the deadline timer settles
for one call: either the fetch settles first (response or rejection), or
the timer fires first, aborting the fetch, which then rejects with
`AbortError`. -/
inductive RaceResult (A : Type) where
  | settledFirst (out : Except JsError A)
  | timerFirst

/-- Observable behaviour of one `fetchWithTimeout` call: the settled
result, whether `controller.abort()` fired, and whether `clearTimeout` was
called on the deadline timer. -/
structure FetchObs (A : Type) where
  result : Except JsError A
  abortFired : Bool
  timerCleared : Bool

/-- Model of `fetchWithTimeout` (`src/app/utils/timeout.ts`): when the
fetch settles first the timer is cleared and its outcome is returned,
except that an `AbortError` is translated to `TimeoutError`; when the
deadline timer fires first, the abort signal fires, the fetch rejects with
`AbortError`, and the catch clause clears the timer and rethrows the typed
`TimeoutError` carrying the operation name and the configured deadline. -/
def fetchWithTimeout {A : Type} (operation : String) (timeout : Nat)
    (race : RaceResult A) : FetchObs A :=
  match race with
  | RaceResult.settledFirst (Except.ok r) => ⟨Except.ok r, false, true⟩
  | RaceResult.settledFirst (Except.error e) =>
      ⟨if e.name == "AbortError"
        then Except.error (JsError.timeoutError operation timeout)
        else Except.error e, false, true⟩
  | RaceResult.timerFirst => ⟨Except.error (JsError.timeoutError operation timeout), true, true⟩

/-- C9: for every wrapped call, if the deadline elapses before the
operation settles, the wrapper fires the cancellation signal and fails with
the typed `TimeoutError` carrying the operation name and the configured
deadline; if the operation fails first for any reason other than the
deadline's abort, that failure is propagated unchanged; if it completes
first, its result is returned and the deadline timer is cancelled. -/
theorem fetchWithTimeout_contract {A : Type} (operation : String) (timeout : Nat) :
    (fetchWithTimeout (A := A) operation timeout RaceResult.timerFirst =
      ⟨Except.error (JsError.timeoutError operation timeout), true, true⟩) ∧
    (∀ e : JsError, e.name ≠ "AbortError" →
      fetchWithTimeout (A := A) operation timeout (RaceResult.settledFirst (Except.error e)) =
        ⟨Except.error e, false, true⟩) ∧
    (∀ r : A,
      fetchWithTimeout operation timeout (RaceResult.settledFirst (Except.ok r)) =
        ⟨Except.ok r, false, true⟩) := by
  refine ⟨rfl, ?_, fun r => rfl⟩
  intro e he
  simp only [fetchWithTimeout]
  rw [if_neg (by simp [he])]

/-- Witness for `fetchWithTimeout_contract`: the Pexels deadline (8000 ms)
with a concrete upstream `TypeError` being propagated unchanged. -/
theorem fetchWithTimeout_contract_witness :
    fetchWithTimeout (A := Nat) "pexels-search" 8000 RaceResult.timerFirst =
      ⟨Except.error (JsError.timeoutError "pexels-search" 8000), true, true⟩ ∧
    fetchWithTimeout (A := Nat) "pexels-search" 8000
        (RaceResult.settledFirst (Except.error (JsError.error "TypeError" "failed"))) =
      ⟨Except.error (JsError.error "TypeError" "failed"), false, true⟩ ∧
    fetchWithTimeout (A := Nat) "pexels-search" 8000
        (RaceResult.settledFirst (Except.ok 42)) = ⟨Except.ok 42, false, true⟩ := by
  have h := fetchWithTimeout_contract (A := Nat) "pexels-search" 8000
  exact ⟨h.1, h.2.1 (JsError.error "TypeError" "failed") (by decide), h.2.2 42⟩

end Timeout

namespace Orchestration

/-- Per-process circuit breakers of `src/app/utils/timeout.ts`
(`circuitBreakers`): Perplexity (threshold 3, reset 60000 ms) and Pexels
(threshold 5, reset 30000 ms). -/
def circuitBreakers_perplexity : Breaker.CircuitBreaker := Breaker.mkBreaker 3 60000

def circuitBreakers_pexels : Breaker.CircuitBreaker := Breaker.mkBreaker 5 30000

/-- Observables of one orchestrated upstream call
(`route.ts` POST, lines 375-403): the final settled result, the number of
retry attempts performed, the number of breaker success/failure hook
invocations (`onSuccess`/`onFailure` calls), and the breaker state left
behind. -/
structure OrchOut (A : Type) where
  result : Except (Option Timeout.JsError) A
  attempts : Nat
  hooks : Nat
  breaker : Breaker.CircuitBreaker

/-- The composition the source actually builds:
`retryWithBackoff(() => circuitBreaker.execute(() => fetchWithTimeout(...)))`
— retry outermost, circuit breaker in the middle, timeout-bounded call
innermost.  `races k` is the race outcome of attempt `k`'s inner
`fetchWithTimeout`, `times k` the clock value the breaker reads during
attempt `k`.  A breaker-open rejection surfaces as a generic `Error` whose
message names the breaker, and counts as a retry failure like any other. -/
def orchGo {A : Type} (races : Nat → Timeout.RaceResult A) (times : Nat → Nat)
    (operation name : String) (timeout baseDelay : Nat) :
    Nat → Nat → Breaker.CircuitBreaker → OrchOut A
  | _, 0, b => ⟨Except.error none, 0, 0, b⟩
  | attempt, left + 1, b =>
    let obs := Timeout.fetchWithTimeout operation timeout (races attempt)
    let out : Retry.Outcome Timeout.JsError A :=
      match obs.result with
      | Except.ok r => Retry.Outcome.ok r
      | Except.error e => Retry.Outcome.fail e
    let step := Breaker.execute b (times attempt) out
    let hook : Nat := if step.2.2 then 1 else 0
    let attemptOut : Retry.Outcome Timeout.JsError A :=
      match step.1 with
      | Breaker.ExecResult.ok a => Retry.Outcome.ok a
      | Breaker.ExecResult.err e => Retry.Outcome.fail e
      | Breaker.ExecResult.breakerOpen =>
          Retry.Outcome.fail (Timeout.JsError.error "Error"
            ("Circuit breaker " ++ name ++ " is OPEN - too many failures"))
    match attemptOut with
    | Retry.Outcome.ok a => ⟨Except.ok a, 1, hook, step.2.1⟩
    | Retry.Outcome.fail e =>
      if left = 0 then ⟨Except.error (some e), 1, hook, step.2.1⟩
      else
        let r := orchGo races times operation name timeout baseDelay (attempt + 1) left step.2.1
        ⟨r.result, r.attempts + 1, hook + r.hooks, r.breaker⟩

/-- The AI-upstream orchestrated call of `route.ts`:
`retryWithBackoff(() => circuitBreakers.perplexity.execute(() =>
fetchWithTimeout('https://api.perplexity.ai/...', { timeout: TIMEOUTS.AI,
operation: 'perplexity-api' })), 3, 2000, 'Perplexity API Call')`. -/
def perplexityCall {A : Type} (races : Nat → Timeout.RaceResult A) (times : Nat → Nat)
    (b : Breaker.CircuitBreaker) : OrchOut A :=
  orchGo races times "perplexity-api" "Perplexity-AI" Timeout.TIMEOUTS_AI 2000 1 3 b

theorem orchGo_allTimeout {A : Type} (times : Nat → Nat) (operation name : String)
    (timeout baseDelay t r : Nat) :
    ∀ (left attempt f lft : Nat), 1 ≤ left → f + left ≤ t →
      (orchGo (A := A) (fun _ => Timeout.RaceResult.timerFirst) times operation name
          timeout baseDelay attempt left ⟨f, lft, Breaker.BState.CLOSED, t, r⟩).hooks = left ∧
      (orchGo (A := A) (fun _ => Timeout.RaceResult.timerFirst) times operation name
          timeout baseDelay attempt left ⟨f, lft, Breaker.BState.CLOSED, t, r⟩).attempts = left ∧
      (orchGo (A := A) (fun _ => Timeout.RaceResult.timerFirst) times operation name
          timeout baseDelay attempt left ⟨f, lft, Breaker.BState.CLOSED, t, r⟩).result
        = Except.error (some (Timeout.JsError.timeoutError operation timeout)) := by
  intro left
  induction left with
  | zero => intro _ _ _ h _; omega
  | succ l ih =>
    intro attempt f lft _ hle
    cases l with
    | zero =>
      refine ⟨?_, ?_, ?_⟩ <;>
        simp [orchGo, Timeout.fetchWithTimeout, Breaker.execute, Breaker.runOp]
    | succ m =>
      have hnotrip : ¬ t ≤ f + 1 := by omega
      obtain ⟨h1, h2, h3⟩ := ih (attempt + 1) (f + 1) (times attempt) (by omega) (by omega)
      have hkeyH : (orchGo (A := A) (fun _ => Timeout.RaceResult.timerFirst) times operation name
            timeout baseDelay attempt (m + 1 + 1) ⟨f, lft, Breaker.BState.CLOSED, t, r⟩).hooks
          = 1 + (orchGo (A := A) (fun _ => Timeout.RaceResult.timerFirst) times operation name
            timeout baseDelay (attempt + 1) (m + 1)
            ⟨f + 1, times attempt, Breaker.BState.CLOSED, t, r⟩).hooks := by
        simp [orchGo, Timeout.fetchWithTimeout, Breaker.execute, Breaker.runOp,
          Breaker.onFailure, hnotrip]
      have hkeyA : (orchGo (A := A) (fun _ => Timeout.RaceResult.timerFirst) times operation name
            timeout baseDelay attempt (m + 1 + 1) ⟨f, lft, Breaker.BState.CLOSED, t, r⟩).attempts
          = (orchGo (A := A) (fun _ => Timeout.RaceResult.timerFirst) times operation name
            timeout baseDelay (attempt + 1) (m + 1)
            ⟨f + 1, times attempt, Breaker.BState.CLOSED, t, r⟩).attempts + 1 := by
        simp [orchGo, Timeout.fetchWithTimeout, Breaker.execute, Breaker.runOp,
          Breaker.onFailure, hnotrip]
      have hkeyR : (orchGo (A := A) (fun _ => Timeout.RaceResult.timerFirst) times operation name
            timeout baseDelay attempt (m + 1 + 1) ⟨f, lft, Breaker.BState.CLOSED, t, r⟩).result
          = (orchGo (A := A) (fun _ => Timeout.RaceResult.timerFirst) times operation name
            timeout baseDelay (attempt + 1) (m + 1)
            ⟨f + 1, times attempt, Breaker.BState.CLOSED, t, r⟩).result := by
        simp [orchGo, Timeout.fetchWithTimeout, Breaker.execute, Breaker.runOp,
          Breaker.onFailure, hnotrip]
      refine ⟨?_, ?_, ?_⟩
      · rw [hkeyH, h1]
        omega
      · rw [hkeyA, h2]
      · rw [hkeyR, h3]

/-- C1 counterexample: in the source the Perplexity call nests the circuit
breaker *inside* `retryWithBackoff`, so for a single orchestrated call whose
three attempts all time out against a fresh Perplexity breaker, the
breaker's failure hook runs three times — once per attempt — refuting the
claim that the breaker observes only the final outcome of the retried
sequence (one hook invocation per orchestrated call). -/
theorem composition_order_counterexample :
    (perplexityCall (A := Nat) (fun _ => Timeout.RaceResult.timerFirst)
        (fun _ => 0) circuitBreakers_perplexity).hooks = 3 ∧
    ¬ (perplexityCall (A := Nat) (fun _ => Timeout.RaceResult.timerFirst)
        (fun _ => 0) circuitBreakers_perplexity).hooks = 1 := by
  constructor <;> decide

/-- C1 amended: the orchestration composes retry outermost, circuit breaker
in the middle, timeout-bounded call innermost
(`retryWithBackoff(() => breaker.execute(() => fetchWithTimeout(...)))`),
so the breaker observes the outcome of every individual attempt: for an
upstream whose every attempt times out and `N ≤ failureThreshold` configured
attempts against a fresh breaker, the breaker hook fires exactly `N` times
(once per attempt, not once per orchestrated call), and the orchestrated
call finally raises the last attempt's timeout error. -/
theorem composition_order_amended {A : Type} (t r N timeout baseDelay : Nat)
    (times : Nat → Nat) (operation name : String) (hN : 1 ≤ N) (hNt : N ≤ t) :
    (orchGo (A := A) (fun _ => Timeout.RaceResult.timerFirst) times operation name
        timeout baseDelay 1 N (Breaker.mkBreaker t r)).hooks = N ∧
    (orchGo (A := A) (fun _ => Timeout.RaceResult.timerFirst) times operation name
        timeout baseDelay 1 N (Breaker.mkBreaker t r)).attempts = N ∧
    (orchGo (A := A) (fun _ => Timeout.RaceResult.timerFirst) times operation name
        timeout baseDelay 1 N (Breaker.mkBreaker t r)).result
      = Except.error (some (Timeout.JsError.timeoutError operation timeout)) :=
  orchGo_allTimeout times operation name timeout baseDelay t r N 1 0 0 hN (by omega)

/-- Witness for `composition_order_amended`: the concrete Perplexity
configuration (3 attempts, threshold 3, fresh breaker, every attempt timing
out at the 15000 ms AI deadline). -/
theorem composition_order_amended_witness :
    (orchGo (A := Nat) (fun _ => Timeout.RaceResult.timerFirst) (fun _ => 0)
        "perplexity-api" "Perplexity-AI" 15000 2000 1 3 (Breaker.mkBreaker 3 60000)).hooks = 3 ∧
    (orchGo (A := Nat) (fun _ => Timeout.RaceResult.timerFirst) (fun _ => 0)
        "perplexity-api" "Perplexity-AI" 15000 2000 1 3 (Breaker.mkBreaker 3 60000)).attempts
      = 3 ∧
    (orchGo (A := Nat) (fun _ => Timeout.RaceResult.timerFirst) (fun _ => 0)
        "perplexity-api" "Perplexity-AI" 15000 2000 1 3 (Breaker.mkBreaker 3 60000)).result
      = Except.error (some (Timeout.JsError.timeoutError "perplexity-api" 15000)) :=
  composition_order_amended (A := Nat) 3 60000 3 15000 2000 (fun _ => 0)
    "perplexity-api" "Perplexity-AI" (by decide) (by decide)

end Orchestration

/-- `toLowerCase`, character by character (the reduction-friendly form of
lowercasing a whole string). -/
def strLower (s : String) : String := String.mk (s.data.map Char.toLower)

namespace Pexels

/-- Image descriptor returned by the Pexels API (`PexelsImage` in
`src/app/utils/pexels.ts`); the resilience core consults `width` and
`height` for the minimum-resolution filter, the remaining fields are
carried as data. -/
structure PexelsImage where
  id : Nat
  width : Nat
  height : Nat
  url : String
  photographer : String
  deriving Repr, DecidableEq

/-- Body of a Pexels search response (`PexelsSearchResponse`). -/
structure PexelsSearchResponse where
  photos : List PexelsImage
  deriving Repr, DecidableEq

/-- One HTTP response as consumed by `fetchPexelsImage`: the `ok` flag, the
status code, and the outcome of `response.json()` (which itself can reject
on a malformed body). -/
structure HttpResponse where
  ok : Bool
  status : Nat
  body : Except Timeout.JsError PexelsSearchResponse

/-- Environment of a single `fetchPexelsImage` call: the configured API key
(absence models an unset `PEXELS_API_KEY`), the Pexels circuit breaker
state at call time together with the clock value it reads, the race outcome
of the inner `fetchWithTimeout`, and the `Math.random()` draw used for
image selection (taken modulo the candidate count). -/
structure CallEnv where
  apiKey : Option String
  breaker : Breaker.CircuitBreaker
  now : Nat
  race : Timeout.RaceResult HttpResponse
  rand : Nat

/-- The category-specific search-query adjustment of `fetchPexelsImage`. -/
def searchQueryFor (query : String) (category : Option String) : String :=
  match category with
  | some c =>
    if c = "restaurant" ∨ c = "food" then query ++ " restaurant food dining"
    else if c = "attraction" ∨ c = "landmark" then query ++ " landmark attraction tourist"
    else if c = "city" then query ++ " city skyline urban"
    else if c = "culture" then query ++ " culture traditional heritage"
    else query
  | none => query

/-- The body of `fetchPexelsImage` (everything inside its `try`): missing
API key resolves `null` with no network call; the breaker-gated
timeout-bounded fetch may throw (timeout, breaker-open, transport error,
malformed body — all modelled as `Except.error`); a non-2xx response
resolves `null`; from the top 5 photos those meeting the 800x600 minimum
resolution are kept, a random one of them is returned, or the first raw
photo when none qualifies; an empty photo list resolves `null`. -/
def fetchPexelsImageBody (env : CallEnv) : Except Timeout.JsError (Option PexelsImage) :=
  match env.apiKey with
  | none => Except.ok none
  | some _ =>
    let obs := Timeout.fetchWithTimeout "pexels-search" Timeout.TIMEOUTS_PEXELS env.race
    let out : Retry.Outcome Timeout.JsError HttpResponse :=
      match obs.result with
      | Except.ok r => Retry.Outcome.ok r
      | Except.error e => Retry.Outcome.fail e
    match (Breaker.execute env.breaker env.now out).1 with
    | Breaker.ExecResult.breakerOpen =>
        Except.error (Timeout.JsError.error "Error"
          "Circuit breaker Pexels-API is OPEN - too many failures")
    | Breaker.ExecResult.err e => Except.error e
    | Breaker.ExecResult.ok response =>
      if ¬ response.ok then Except.ok none
      else
        match response.body with
        | Except.error e => Except.error e
        | Except.ok data =>
          match data.photos with
          | [] => Except.ok none
          | p :: rest =>
            let validImages := ((p :: rest).take 5).filter
              (fun img => 800 ≤ img.width && 600 ≤ img.height)
            match validImages with
            | [] => Except.ok (some p)
            | v :: vs =>
              let randomIndex := env.rand % (v :: vs).length
              Except.ok (some ((v :: vs).getD randomIndex v))

/-- `fetchPexelsImage` as its callers observe it: the surrounding
`try/catch` converts every thrown error into a resolved `null`.  The
`Except` result type records that the settled promise never rejects. -/
def fetchPexelsImageSettled (env : CallEnv) : Except Timeout.JsError (Option PexelsImage) :=
  match fetchPexelsImageBody env with
  | Except.ok v => Except.ok v
  | Except.error _ => Except.ok none

/-- The resolved value of `fetchPexelsImage`. -/
def fetchPexelsImage (env : CallEnv) : Option PexelsImage :=
  match fetchPexelsImageSettled env with
  | Except.ok v => v
  | Except.error _ => none

/-- Substring test on character lists (JavaScript `String.includes`). -/
def leadsWith : List Char → List Char → Bool
  | [], _ => true
  | _ :: _, [] => false
  | p :: ps, c :: cs => p == c && leadsWith ps cs

def hasSubList (pat : List Char) : List Char → Bool
  | [] => leadsWith pat []
  | c :: cs => leadsWith pat (c :: cs) || hasSubList pat cs

def strIncludes (s pat : String) : Bool := hasSubList pat.data s.data

/-- The keyword-based categorization of `fetchDiverseLocationImages`:
category and category-specific fallback query list for one location name. -/
def categorizeLocation (locationName : String) : String × List String :=
  let lowerName := strLower locationName
  if strIncludes lowerName "restaurant" || strIncludes lowerName "cafe" ||
     strIncludes lowerName "bar" || strIncludes lowerName "dining" then
    ("restaurant", [locationName ++ " food", "restaurant interior", "fine dining"])
  else if strIncludes lowerName "museum" || strIncludes lowerName "gallery" then
    ("culture", [locationName ++ " art", "museum interior", "art gallery"])
  else if strIncludes lowerName "park" || strIncludes lowerName "garden" then
    ("nature", [locationName ++ " nature", "beautiful park", "garden landscape"])
  else if strIncludes lowerName "temple" || strIncludes lowerName "mosque" ||
     strIncludes lowerName "church" || strIncludes lowerName "shrine" then
    ("culture", [locationName ++ " architecture", "religious architecture", "temple interior"])
  else if strIncludes lowerName "palace" || strIncludes lowerName "fort" ||
     strIncludes lowerName "castle" then
    ("attraction", [locationName ++ " architecture", "historic palace", "ancient architecture"])
  else if strIncludes lowerName "market" || strIncludes lowerName "bazaar" then
    ("culture", [locationName ++ " market", "traditional market", "local bazaar"])
  else if strIncludes lowerName "beach" || strIncludes lowerName "lake" then
    ("nature", [locationName ++ " water", "beautiful beach", "scenic lake"])
  else
    ("attraction", [locationName ++ " landmark", locationName ++ " tourism", "city attraction"])

/-- One location's image search inside `fetchDiverseLocationImages`:
primary category-adjusted search first, then the category's fallback
queries in order.  `calls query category` supplies the environment of the
underlying `fetchPexelsImage` call for that query. -/
def fetchLocationImage (calls : String → String → CallEnv) (locationName : String) :
    Option PexelsImage :=
  let cat := categorizeLocation locationName
  match fetchPexelsImage (calls locationName cat.1) with
  | some img => some img
  | none => cat.2.findSome? (fun q => fetchPexelsImage (calls q cat.1))

/-- Body of `fetchDiverseLocationImages` (inside its `try`): either the
20000 ms collection deadline rejects first (`timedOut`), or every location
is processed and those with an image are collected, in order, into the
name-to-image mapping. -/
def fetchDiverseLocationImagesBody (locationNames : List String)
    (calls : String → String → CallEnv) (timedOut : Bool) :
    Except Timeout.JsError (List (String × PexelsImage)) :=
  if timedOut then
    Except.error (Timeout.JsError.timeoutError "diverse-images" Timeout.TIMEOUTS_IMAGES)
  else
    Except.ok (locationNames.filterMap
      (fun name => (fetchLocationImage calls name).map (fun img => (name, img))))

/-- `fetchDiverseLocationImages` as its callers observe it: the surrounding
`try/catch` converts every thrown error into a resolved empty mapping, so
the settled promise never rejects. -/
def fetchDiverseLocationImagesSettled (locationNames : List String)
    (calls : String → String → CallEnv) (timedOut : Bool) :
    Except Timeout.JsError (List (String × PexelsImage)) :=
  match fetchDiverseLocationImagesBody locationNames calls timedOut with
  | Except.ok m => Except.ok m
  | Except.error _ => Except.ok []

/-- The resolved value of `fetchDiverseLocationImages`. -/
def fetchDiverseLocationImages (locationNames : List String)
    (calls : String → String → CallEnv) (timedOut : Bool) :
    List (String × PexelsImage) :=
  match fetchDiverseLocationImagesSettled locationNames calls timedOut with
  | Except.ok m => m
  | Except.error _ => []

/-- Curated city images (`FALLBACK_CITY_IMAGES`): id, source url and
attribution of the static entries for mumbai, tokyo and delhi. -/
structure FallbackEntry where
  id : Nat
  url : String
  photographer : String
  deriving Repr, DecidableEq

def FALLBACK_CITY_IMAGES : List (String × FallbackEntry) :=
  [("mumbai", ⟨0, "https://images.pexels.com/photos/789750/pexels-photo-789750.jpeg",
      "Fallback Image"⟩),
   ("tokyo", ⟨0, "https://images.pexels.com/photos/2070033/pexels-photo-2070033.jpeg",
      "Fallback Image"⟩),
   ("delhi", ⟨0, "https://images.pexels.com/photos/1542620/pexels-photo-1542620.jpeg",
      "Fallback Image"⟩)]

/-- `getFallbackCityImage`: look the lower-cased city up in the curated
table and build a full 1200x800 image descriptor from it. -/
def getFallbackCityImage (cityName : String) : Option PexelsImage :=
  match (FALLBACK_CITY_IMAGES.find? (fun kv => kv.1 == strLower cityName)).map Prod.snd with
  | some e => some ⟨e.id, 1200, 800, e.url, e.photographer⟩
  | none => none

/-- C10: the single-image and diverse-image fetch functions are total at
their interface: for every environment (missing API key, timeout,
breaker-open rejection, non-2xx response, malformed body, collection
deadline expiry) the settled promise is a resolution — a possibly-`null`
image, resp. a possibly-empty location-to-image mapping — never a
rejection. -/
theorem imageFetch_total :
    (∀ env : CallEnv, ∃ v, fetchPexelsImageSettled env = Except.ok v) ∧
    (∀ (locationNames : List String) (calls : String → String → CallEnv) (timedOut : Bool),
      ∃ m, fetchDiverseLocationImagesSettled locationNames calls timedOut = Except.ok m) := by
  constructor
  · intro env
    unfold fetchPexelsImageSettled
    cases fetchPexelsImageBody env with
    | ok v => exact ⟨v, rfl⟩
    | error _ => exact ⟨none, rfl⟩
  · intro locationNames calls timedOut
    unfold fetchDiverseLocationImagesSettled
    cases fetchDiverseLocationImagesBody locationNames calls timedOut with
    | ok m => exact ⟨m, rfl⟩
    | error _ => exact ⟨[], rfl⟩

end Pexels

namespace Repair

/-- JSON values (`route.ts` lines 432-469 operate on the serialized text of
such values; strings and keys are kept as character lists to stay close to
the text-level repair passes). -/
inductive Json where
  | str (s : List Char)
  | num (n : Nat)
  | bool (b : Bool)
  | null
  | arr (elems : List Json)
  | obj (fields : List (List Char × Json))

/-- Decimal digit characters of a natural number, most significant first,
fuel-indexed on the digit count (any fuel above the digit count gives the
digits; `n + 1` always suffices). -/
def natCharsF : Nat → Nat → List Char
  | 0, _ => []
  | fuel + 1, n =>
    if n < 10 then [Char.ofNat (48 + n)]
    else natCharsF fuel (n / 10) ++ [Char.ofNat (48 + n % 10)]

/-- Decimal digit characters of a natural number, most significant first
(the JSON serialization of a natural number). -/
def natChars (n : Nat) : List Char := natCharsF (n + 1) n

mutual

/-- `JSON.stringify` of a JSON value: no inserted whitespace, keys and
strings quoted (the restricted string class needs no escape sequences). -/
def ser (j : Json) : List Char :=
  match j with
  | Json.str s => '\"' :: (s ++ ['\"'])
  | Json.num n => natChars n
  | Json.bool true => ['t', 'r', 'u', 'e']
  | Json.bool false => ['f', 'a', 'l', 's', 'e']
  | Json.null => ['n', 'u', 'l', 'l']
  | Json.arr xs => '[' :: (serList xs ++ [']'])
  | Json.obj fs => '{' :: (serFields fs ++ ['}'])
termination_by structural j

def serList (l : List Json) : List Char :=
  match l with
  | [] => []
  | [x] => ser x
  | x :: y :: rest => ser x ++ (',' :: serList (y :: rest))
termination_by structural l

def serFields (l : List (List Char × Json)) : List Char :=
  match l with
  | [] => []
  | [(k, v)] => '\"' :: (k ++ ('\"' :: ':' :: ser v))
  | (k, v) :: kv :: rest =>
      ('\"' :: (k ++ ('\"' :: ':' :: ser v))) ++ (',' :: serFields (kv :: rest))
termination_by structural l

end

/-- JavaScript regex whitespace (`\s`), restricted to the characters that
can occur here. -/
def isWs (c : Char) : Bool := c == ' ' || c == '\t' || c == '\n' || c == '\r'

/-- JavaScript regex word characters (`\w` = `[A-Za-z0-9_]`). -/
def isWordChar (c : Char) : Bool :=
  ('a' ≤ c && c ≤ 'z') || ('A' ≤ c && c ≤ 'Z') || ('0' ≤ c && c ≤ '9') || c == '_'

/-- Repair pass (a) of `route.ts` line 447: global replace of
`,(\s*[}\]])` by `$1` — remove a comma standing (up to whitespace) before a
closing brace or bracket, scanning left to right and continuing after each
replaced span.  Fuel-indexed (the scan consumes at least one character per
step, so fuel = input length suffices); the fuel-exhausted base case is
unreachable under the wrapper below. -/
def stripTrailingCommasF : Nat → List Char → List Char
  | 0, s => s
  | _ + 1, [] => []
  | fuel + 1, c :: rest =>
    if c = ',' then
      match rest.dropWhile (fun x => isWs x) with
      | b :: cs =>
        if b = '}' ∨ b = ']' then
          rest.takeWhile (fun x => isWs x) ++ (b :: stripTrailingCommasF fuel cs)
        else ',' :: stripTrailingCommasF fuel rest
      | [] => ',' :: stripTrailingCommasF fuel rest
    else c :: stripTrailingCommasF fuel rest

def stripTrailingCommas (s : List Char) : List Char := stripTrailingCommasF s.length s

/-- Repair pass (b) of `route.ts` line 448: global replace of
`([{\[,]\s*)(\w+):` by `$1"$2":` — quote an unquoted word standing between
an opening context character and a colon, continuing after the colon. -/
def quoteKeysF : Nat → List Char → List Char
  | 0, s => s
  | _ + 1, [] => []
  | fuel + 1, c :: rest =>
    if c = '{' ∨ c = '[' ∨ c = ',' then
      let ws := rest.takeWhile (fun x => isWs x)
      let r1 := rest.dropWhile (fun x => isWs x)
      let word := r1.takeWhile (fun x => isWordChar x)
      match r1.dropWhile (fun x => isWordChar x) with
      | ':' :: r3 =>
        if word.isEmpty then c :: quoteKeysF fuel rest
        else c :: (ws ++ ('\"' :: (word ++ ('\"' :: ':' :: quoteKeysF fuel r3))))
      | _ => c :: quoteKeysF fuel rest
    else c :: quoteKeysF fuel rest

def quoteKeys (s : List Char) : List Char := quoteKeysF s.length s

/-- Trailing-whitespace strip: the effect of the backtracking in
`[^,}\]]*[^,}\]\s]` on the greedy run. -/
def stripTrailingWs (l : List Char) : List Char :=
  (l.reverse.dropWhile (fun x => isWs x)).reverse

/-- The characters ending the greedy inner run of repair pass (c). -/
def isStop (c : Char) : Bool := c == ',' || c == '}' || c == ']'

/-- Repair pass (c) of `route.ts` line 449: global replace of
`:\s*([^",{\[\s][^,}\]]*[^,}\]\s])` by `: "$1"` — quote an unquoted scalar
after a colon.  The group needs at least two characters (first not in
`",{[` nor whitespace, last not a stop character nor whitespace); the
replacement inserts exactly one space after the colon; scanning continues
after the group, so whitespace excluded by backtracking stays in the
input. -/
def quoteValuesF : Nat → List Char → List Char
  | 0, s => s
  | _ + 1, [] => []
  | fuel + 1, c :: rest =>
    if c = ':' then
      match rest.dropWhile (fun x => isWs x) with
      | c0 :: r2 =>
        if c0 = '\"' ∨ c0 = ',' ∨ c0 = '{' ∨ c0 = '[' ∨ isWs c0 then
          ':' :: quoteValuesF fuel rest
        else
          let run := r2.takeWhile (fun x => !isStop x)
          let g := stripTrailingWs (c0 :: run)
          if 2 ≤ g.length then
            ':' :: ' ' :: '\"' :: (g ++ ('\"' ::
              quoteValuesF fuel (((c0 :: run).drop g.length) ++
                r2.dropWhile (fun x => !isStop x))))
          else ':' :: quoteValuesF fuel rest
      | [] => ':' :: quoteValuesF fuel rest
    else c :: quoteValuesF fuel rest

def quoteValues (s : List Char) : List Char := quoteValuesF s.length s

/-- The three repair passes in source order. -/
def repairPasses (s : List Char) : List Char :=
  quoteValues (quoteKeys (stripTrailingCommas s))

/-- Greedy brace-span extraction (`content.match(/\{[\s\S]*\}/)`): the span
from the first `{` to the last `}` when the latter lies strictly after the
former, otherwise no match. -/
def extractJsonSpan (content : List Char) : Option (List Char) :=
  let i := content.findIdx (fun c => c == '{')
  let jrev := content.reverse.findIdx (fun c => c == '}')
  if i < content.length ∧ jrev < content.length then
    let j := content.length - 1 - jrev
    if i < j then some ((content.drop i).take (j - i + 1)) else none
  else none

/-- Lazy global brace matches (`content.match(/\{[\s\S]*?\}/g)`): from each
unconsumed `{`, the span up to the nearest following `}`, continuing after
it. -/
def nonGreedySpansF : Nat → List Char → List (List Char)
  | 0, _ => []
  | _ + 1, [] => []
  | fuel + 1, c :: rest =>
    if c = '{' then
      match rest.dropWhile (fun x => !x == '}') with
      | '}' :: r2 =>
          ('{' :: (rest.takeWhile (fun x => !x == '}') ++ ['}'])) :: nonGreedySpansF fuel r2
      | _ => []
    else nonGreedySpansF fuel rest

def nonGreedySpans (s : List Char) : List (List Char) := nonGreedySpansF s.length s

/-- Digit-value accumulation for decimal numerals. -/
def charsToNat (ds : List Char) : Nat :=
  ds.foldl (fun acc c => acc * 10 + (c.toNat - 48)) 0

mutual

/-- Modelled from the spec: `JSON.parse`, the JavaScript builtin applied to
the repaired span (`route.ts` line 451) — missing from `src/` because it is
a host builtin.  Restricted to the value grammar exercised here: objects,
arrays, quoted strings without escape sequences, nonnegative integer
numerals, `true`/`false`/`null`, with interleaving whitespace.
Fuel-indexed recursive descent returning the parsed value and the
unconsumed remainder. -/
def parseV : Nat → List Char → Option (Json × List Char)
  | 0, _ => none
  | fuel + 1, s =>
    match s.dropWhile (fun x => isWs x) with
    | '\"' :: rest =>
      (match rest.dropWhile (fun x => !x == '\"') with
      | '\"' :: r => some (Json.str (rest.takeWhile (fun x => !x == '\"')), r)
      | _ => none)
    | '{' :: rest =>
      (match rest.dropWhile (fun x => isWs x) with
      | '}' :: r => some (Json.obj [], r)
      | _ =>
        match parseFields fuel rest with
        | some (fs, r) => some (Json.obj fs, r)
        | none => none)
    | '[' :: rest =>
      (match rest.dropWhile (fun x => isWs x) with
      | ']' :: r => some (Json.arr [], r)
      | _ =>
        match parseElems fuel rest with
        | some (es, r) => some (Json.arr es, r)
        | none => none)
    | 't' :: 'r' :: 'u' :: 'e' :: r => some (Json.bool true, r)
    | 'f' :: 'a' :: 'l' :: 's' :: 'e' :: r => some (Json.bool false, r)
    | 'n' :: 'u' :: 'l' :: 'l' :: r => some (Json.null, r)
    | c :: rest =>
      if c.isDigit then
        some (Json.num (charsToNat ((c :: rest).takeWhile Char.isDigit)),
          (c :: rest).dropWhile Char.isDigit)
      else none
    | [] => none

/-- Comma-separated JSON values up to the closing `]` (the nonempty-array
case of `parseV`). -/
def parseElems : Nat → List Char → Option (List Json × List Char)
  | 0, _ => none
  | fuel + 1, s =>
    match parseV fuel s with
    | none => none
    | some (v, r) =>
      match r.dropWhile (fun x => isWs x) with
      | ',' :: r2 =>
        (match parseElems fuel r2 with
        | some (vs, r3) => some (v :: vs, r3)
        | none => none)
      | ']' :: r2 => some ([v], r2)
      | _ => none

/-- Comma-separated `"key":value` members up to the closing `}` (the
nonempty-object case of `parseV`). -/
def parseFields : Nat → List Char → Option (List (List Char × Json) × List Char)
  | 0, _ => none
  | fuel + 1, s =>
    match s.dropWhile (fun x => isWs x) with
    | '\"' :: rest =>
      (match rest.dropWhile (fun x => !x == '\"') with
      | '\"' :: r =>
        (match r.dropWhile (fun x => isWs x) with
        | ':' :: r2 =>
          (match parseV fuel r2 with
          | some (v, r3) =>
            (match r3.dropWhile (fun x => isWs x) with
            | ',' :: r4 =>
              (match parseFields fuel r4 with
              | some (fs, r5) =>
                  some ((rest.takeWhile (fun x => !x == '\"'), v) :: fs, r5)
              | none => none)
            | '}' :: r4 => some ([(rest.takeWhile (fun x => !x == '\"'), v)], r4)
            | _ => none)
          | none => none)
        | _ => none)
      | _ => none)
    | _ => none

end

/-- `JSON.parse` on a whole string: a parse succeeds only when nothing but
whitespace remains. -/
def parseJson (s : List Char) : Option Json :=
  match parseV (s.length + 1) s with
  | some (j, r) => if r.dropWhile (fun x => isWs x) = [] then some j else none
  | none => none

/-- The candidate spans the parse loop of `route.ts` lines 439-469 tries in
order: the greedy span first, then (after each failure) the lazy global
match with index `parseAttempts - 1`, keeping the previous candidate when
that alternative does not exist; five attempts in total.  `none` models the
`throw` on `No valid JSON found in AI response`. -/
def candidateSpans (content : List Char) : Option (List (List Char)) :=
  match extractJsonSpan content with
  | none => none
  | some a0 =>
    let alts := nonGreedySpans content
    let l1 := alts.getD 0 a0
    let l2 := alts.getD 1 l1
    let l3 := alts.getD 2 l2
    let l4 := alts.getD 3 l3
    some [a0, l1, l2, l3, l4]

/-- The whole response-repair parser as its caller observes it: brace-span
extraction, then up to five parse attempts, each applying the three repair
passes and `JSON.parse` to the current candidate span; `none` models the
errors thrown after extraction or attempt exhaustion (which the caller
turns into deterministic fallback). -/
def repairParse (content : List Char) : Option Json :=
  match candidateSpans content with
  | none => none
  | some cands => cands.findSome? (fun sp => parseJson (repairPasses sp))

end Repair

namespace Itinerary

open Repair

/-- JavaScript truthiness of a JSON value. -/
def truthy : Json → Bool
  | Json.null => false
  | Json.bool b => b
  | Json.num n => n != 0
  | Json.str s => !s.isEmpty
  | _ => true

/-- Property read `value[key]` as the route's dynamic code performs it:
a field of an object (`JSON.parse` keeps the last duplicate key), undefined
(`none`) on anything else.  Reading a property of `null` is a separate,
throwing case handled at each call site. -/
def getField : Json → List Char → Option Json
  | Json.obj fs, k => (fs.reverse.find? (fun kv => kv.1 == k)).map (fun kv => kv.2)
  | _, _ => none

/-- Property write `obj[key] = v` on an object (replace or append). -/
def setField (j : Json) (k : List Char) (v : Json) : Json :=
  match j with
  | Json.obj fs =>
    if fs.any (fun kv => kv.1 == k) then
      Json.obj (fs.map (fun kv => if kv.1 == k then (kv.1, v) else kv))
    else Json.obj (fs ++ [(k, v)])
  | other => other

/-- String field shorthand. -/
def jstr (s : String) : Json := Json.str s.data

/-- Object field shorthand. -/
def jf (k : String) (v : Json) : List Char × Json := (k.data, v)

/-- `Except`-valued map, stopping at the first thrown error (the order in
which `forEach`/`for..of` bodies throw). -/
def mapE {α β ε : Type} (f : α → Except ε β) : List α → Except ε (List β)
  | [] => Except.ok []
  | x :: xs =>
    match f x with
    | Except.error e => Except.error e
    | Except.ok y =>
      match mapE f xs with
      | Except.error e => Except.error e
      | Except.ok ys => Except.ok (y :: ys)

/-- City-specific configuration (`CITY_CONFIGS` in `route.ts`): cultural
tips, weather info and the budget multiplier (stored in tenths: 1.0, 3.5
and 0.9). -/
structure CityConfig where
  currency : String
  culturalTips : List String
  weatherInfo : String
  budgetMultiplierTenths : Nat
  deriving Repr, DecidableEq

def CITY_CONFIGS : List (String × CityConfig) :=
  [("mumbai",
    { currency := "INR",
      culturalTips :=
        ["Mumbai locals are called \"Mumbaikars\" and are known for their fast-paced lifestyle",
         "The city never sleeps - street food and trains run almost 24/7",
         "Monsoon season (June-September) brings heavy rains but also a unique charm",
         "Local trains are the lifeline but can be crowded during peak hours",
         "Street food culture is huge - try vada pav, bhel puri, and dosa"],
      weatherInfo := "Tropical climate with three distinct seasons: monsoon (June-September), winter (October-February), and summer (March-May). Best time to visit is October to March.",
      budgetMultiplierTenths := 10 }),
   ("tokyo",
    { currency := "JPY",
      culturalTips :=
        ["Bowing is a traditional greeting - a slight nod is sufficient for tourists",
         "Remove shoes when entering homes, temples, and some restaurants",
         "Tipping is not customary and can sometimes be considered rude",
         "Public transportation is extremely punctual and efficient",
         "Cash is still king - many places do not accept cards"],
      weatherInfo := "Four distinct seasons. Cherry blossom (sakura) season in March-April. Hot humid summers, mild winters. Best times: March-May and September-November.",
      budgetMultiplierTenths := 35 }),
   ("delhi",
    { currency := "INR",
      culturalTips :=
        ["Delhi has both Old Delhi (historic) and New Delhi (modern capital)",
         "Respect religious sites - cover head and remove shoes at temples/mosques",
         "Haggling is common in markets but not in malls or restaurants",
         "The city has extreme weather - very hot summers and cool winters",
         "Try local specialties like chole bhature, paranthas, and chaat"],
      weatherInfo := "Semi-arid climate with extreme temperatures. Very hot summers (40 C plus), cool winters (5-20 C), monsoon (July-September). Best time: October-March.",
      budgetMultiplierTenths := 9 })]

def cityConfigFor (city : String) : Option CityConfig :=
  (CITY_CONFIGS.find? (fun kv => kv.1 == strLower city)).map (fun kv => kv.2)

/-- `parseFloat(budget.replace(/[^\d]/g, ''))` of the route, as a natural
number (an all-non-digit budget yields NaN in the source; that value only
flows into display strings, modelled as 0 here). -/
def parseBudgetDigits (budget : String) : Nat :=
  charsToNat (budget.data.filter Char.isDigit)

/-- A named place of the static tables (`getDaySpecificPlaces`,
`getFallbackPlace`, `getFallbackRestaurant`); numeric coordinates are
floating point in the source and are not modelled. -/
structure PlaceInfo where
  name : String
  address : String
  cuisine : Option String := none
  speciality : Option String := none
  deriving Repr, DecidableEq

/-- The six slots `getDaySpecificPlaces` fills for one day. -/
structure DayPlaces where
  morning : PlaceInfo
  afternoon : PlaceInfo
  evening : PlaceInfo
  breakfast : PlaceInfo
  lunch : PlaceInfo
  dinner : PlaceInfo
  deriving Repr, DecidableEq

def mumbaiDay1 : DayPlaces :=
  { morning := ⟨"Gateway of India", "Apollo Bandar, Colaba, Mumbai, Maharashtra 400001", none, none⟩,
    afternoon := ⟨"Colaba Causeway", "Colaba Causeway, Colaba, Mumbai, Maharashtra 400001", none, none⟩,
    evening := ⟨"Marine Drive", "Marine Drive, Mumbai, Maharashtra 400002", none, none⟩,
    breakfast := ⟨"Leopold Cafe", "Colaba Causeway, Colaba, Mumbai, Maharashtra 400001",
      some "Continental & Indian", some "Vada Pav & Coffee"⟩,
    lunch := ⟨"Bademiya", "Tulloch Road, Apollo Bunder, Colaba, Mumbai, Maharashtra 400001",
      some "Mughlai & Street Food", some "Seekh Kebab & Biryani"⟩,
    dinner := ⟨"Trishna", "Kala Ghoda, Fort, Mumbai, Maharashtra 400001",
      some "Seafood & Coastal", some "Crab Masala & Prawns"⟩ }

def mumbaiDay2 : DayPlaces :=
  { morning := ⟨"Elephanta Caves", "Elephanta Island, Mumbai, Maharashtra 400094", none, none⟩,
    afternoon := ⟨"Juhu Beach", "Juhu Beach, Juhu, Mumbai, Maharashtra 400049", none, none⟩,
    evening := ⟨"Bandra West", "Bandra West, Mumbai, Maharashtra 400050", none, none⟩,
    breakfast := ⟨"Cafe Madras", "King Circle, Matunga, Mumbai, Maharashtra 400019",
      some "South Indian", some "Masala Dosa & Filter Coffee"⟩,
    lunch := ⟨"The Bombay Canteen", "Kamala Mills, Lower Parel, Mumbai, Maharashtra 400013",
      some "Modern Indian", some "Regional Thalis & Cocktails"⟩,
    dinner := ⟨"Tresind Mumbai", "BKC, Mumbai, Maharashtra 400051",
      some "Fine Dining Indian", some "Tasting Menu & Wine Pairing"⟩ }

def mumbaiDay3 : DayPlaces :=
  { morning := ⟨"Taj Mahal Palace", "Apollo Bunder, Colaba, Mumbai, Maharashtra 400001", none, none⟩,
    afternoon := ⟨"Kala Ghoda Art District", "Kala Ghoda, Fort, Mumbai, Maharashtra 400001", none, none⟩,
    evening := ⟨"Worli Sea Face", "Worli, Mumbai, Maharashtra 400018", none, none⟩,
    breakfast := ⟨"K Rustom", "Churchgate, Mumbai, Maharashtra 400020",
      some "Parsi & Continental", some "Ice Cream & Sandwiches"⟩,
    lunch := ⟨"Gajalee", "Vile Parle, Mumbai, Maharashtra 400056",
      some "Seafood & Coastal", some "Pomfret Fry & Prawn Curry"⟩,
    dinner := ⟨"Masala Library", "BKC, Mumbai, Maharashtra 400051",
      some "Molecular Indian", some "Innovative Indian Cuisine"⟩ }

def delhiDay1 : DayPlaces :=
  { morning := ⟨"Red Fort", "Netaji Subhash Marg, Lal Qila, Old Delhi, New Delhi, Delhi 110006", none, none⟩,
    afternoon := ⟨"Chandni Chowk", "Chandni Chowk, Old Delhi, Delhi 110006", none, none⟩,
    evening := ⟨"India Gate", "Rajpath, New Delhi, Delhi 110001", none, none⟩,
    breakfast := ⟨"Paranthe Wali Gali", "Chandni Chowk, Old Delhi, Delhi 110006",
      some "North Indian", some "Stuffed Paranthas"⟩,
    lunch := ⟨"Karim", "Jama Masjid, Old Delhi, Delhi 110006",
      some "Mughlai", some "Mutton Korma & Biryani"⟩,
    dinner := ⟨"Bukhara", "ITC Maurya, New Delhi, Delhi 110037",
      some "North Indian", some "Dal Bukhara & Tandoori"⟩ }

def delhiDay2 : DayPlaces :=
  { morning := ⟨"Humayun Tomb", "Mathura Road, Nizamuddin, New Delhi, Delhi 110013", none, none⟩,
    afternoon := ⟨"Qutub Minar", "Mehrauli, New Delhi, Delhi 110030", none, none⟩,
    evening := ⟨"Lodhi Garden", "Lodhi Road, New Delhi, Delhi 110003", none, none⟩,
    breakfast := ⟨"Haldiram", "Connaught Place, New Delhi, Delhi 110001",
      some "North Indian", some "Chole Bhature & Samosa"⟩,
    lunch := ⟨"Pindi", "Pandara Road, New Delhi, Delhi 110011",
      some "Punjabi", some "Butter Chicken & Dal Makhani"⟩,
    dinner := ⟨"Indian Accent", "The Lodhi, New Delhi, Delhi 110003",
      some "Modern Indian", some "Tasting Menu & Wine Pairing"⟩ }

def delhiDay3 : DayPlaces :=
  { morning := ⟨"Akshardham Temple", "Noida Mor, New Delhi, Delhi 110092", none, none⟩,
    afternoon := ⟨"Lotus Temple", "Bahapur, New Delhi, Delhi 110019", none, none⟩,
    evening := ⟨"Connaught Place", "Connaught Place, New Delhi, Delhi 110001", none, none⟩,
    breakfast := ⟨"Bengali Sweet House", "Chandni Chowk, Old Delhi, Delhi 110006",
      some "Bengali", some "Rasgulla & Sandesh"⟩,
    lunch := ⟨"Dhaba", "Pandara Road, New Delhi, Delhi 110011",
      some "Punjabi Dhaba", some "Sarson da Saag & Makki di Roti"⟩,
    dinner := ⟨"Dum Pukht", "ITC Maurya, New Delhi, Delhi 110037",
      some "Awadhi", some "Dum Biryani & Kebabs"⟩ }

def tokyoDay1 : DayPlaces :=
  { morning := ⟨"Senso-ji Temple", "2-3-1 Asakusa, Taito City, Tokyo 111-0032, Japan", none, none⟩,
    afternoon := ⟨"Tokyo Skytree", "1-1-2 Oshiage, Sumida City, Tokyo 131-0045, Japan", none, none⟩,
    evening := ⟨"Asakusa District", "Asakusa, Taito City, Tokyo 111-0032, Japan", none, none⟩,
    breakfast := ⟨"Tsukiji Outer Market", "Tsukiji, Chuo City, Tokyo 104-0045, Japan",
      some "Japanese Street Food", some "Fresh Sushi & Tamago"⟩,
    lunch := ⟨"Ichiran Ramen", "Shibuya, Tokyo 150-0002, Japan",
      some "Ramen", some "Tonkotsu Ramen"⟩,
    dinner := ⟨"Sukiyabashi Jiro", "Ginza, Chuo City, Tokyo 104-0061, Japan",
      some "Sushi", some "Omakase Sushi"⟩ }

def tokyoDay2 : DayPlaces :=
  { morning := ⟨"Meiji Shrine", "1-1 Yoyogikamizonocho, Shibuya City, Tokyo 151-8557, Japan", none, none⟩,
    afternoon := ⟨"Shibuya Crossing", "Shibuya, Tokyo 150-0002, Japan", none, none⟩,
    evening := ⟨"Harajuku", "Harajuku, Shibuya City, Tokyo 150-0001, Japan", none, none⟩,
    breakfast := ⟨"Bills", "Omotesando, Shibuya City, Tokyo 150-0001, Japan",
      some "International", some "Ricotta Hotcakes"⟩,
    lunch := ⟨"Afuri Ramen", "Harajuku, Shibuya City, Tokyo 150-0001, Japan",
      some "Ramen", some "Yuzu Shio Ramen"⟩,
    dinner := ⟨"Narisawa", "Minato City, Tokyo 107-0062, Japan",
      some "French-Japanese Fusion", some "Seasonal Tasting Menu"⟩ }

def tokyoDay3 : DayPlaces :=
  { morning := ⟨"Imperial Palace", "1-1 Chiyoda, Chiyoda City, Tokyo 100-8111, Japan", none, none⟩,
    afternoon := ⟨"Ginza District", "Ginza, Chuo City, Tokyo 104-0061, Japan", none, none⟩,
    evening := ⟨"Roppongi Hills", "Roppongi, Minato City, Tokyo 106-0032, Japan", none, none⟩,
    breakfast := ⟨"Gonpachi", "Nishi-Azabu, Minato City, Tokyo 106-0031, Japan",
      some "Japanese", some "Soba & Tempura"⟩,
    lunch := ⟨"Sukiyabashi Jiro Honten", "Ginza, Chuo City, Tokyo 104-0061, Japan",
      some "Sushi", some "Premium Sushi"⟩,
    dinner := ⟨"Ryugin", "Roppongi, Minato City, Tokyo 106-0032, Japan",
      some "Kaiseki", some "Traditional Japanese"⟩ }

/-- Generic-city default of `getDaySpecificPlaces`. -/
def defaultDayPlaces (city : String) : DayPlaces :=
  { morning := ⟨"City Center", city, none, none⟩,
    afternoon := ⟨"Main Square", city, none, none⟩,
    evening := ⟨"Downtown", city, none, none⟩,
    breakfast := ⟨"Local Cafe", city, none, none⟩,
    lunch := ⟨"Local Restaurant", city, none, none⟩,
    dinner := ⟨"Local Dining", city, none, none⟩ }

/-- `getDaySpecificPlaces`: the per-day curated tables for Mumbai, Delhi
and Tokyo (days past 3 reuse day 1, as `table[day] || table[1]`), and the
generic defaults otherwise. -/
def getDaySpecificPlaces (city : String) (day : Nat) : DayPlaces :=
  let cityLower := strLower city
  if cityLower == "mumbai" then
    if day == 1 then mumbaiDay1 else if day == 2 then mumbaiDay2
    else if day == 3 then mumbaiDay3 else mumbaiDay1
  else if cityLower == "delhi" then
    if day == 1 then delhiDay1 else if day == 2 then delhiDay2
    else if day == 3 then delhiDay3 else delhiDay1
  else if cityLower == "tokyo" then
    if day == 1 then tokyoDay1 else if day == 2 then tokyoDay2
    else if day == 3 then tokyoDay3 else tokyoDay1
  else defaultDayPlaces city

/-- JSON object for one `PlaceInfo` as the fallback generator embeds it
(name, address, and the cuisine/speciality keys when present; the numeric
`coordinates` pair is floating point in the source and is not modelled). -/
def placeJson (p : PlaceInfo) : Json :=
  Json.obj ([jf "name" (jstr p.name), jf "address" (jstr p.address)] ++
    (match p.cuisine with
     | some cu => [jf "cuisine" (jstr cu)]
     | none => []) ++
    (match p.speciality with
     | some sp => [jf "speciality" (jstr sp)]
     | none => []))

/-- One activity entry of the fallback generator. -/
def fallbackActivity (time activity : String) (p : PlaceInfo)
    (description cost duration : String) : Json :=
  Json.obj [jf "time" (jstr time), jf "activity" (jstr activity),
    jf "location" (placeJson p), jf "description" (jstr description),
    jf "estimatedCost" (jstr cost), jf "duration" (jstr duration)]

/-- One dining entry of the fallback generator. -/
def fallbackMeal (meal : String) (p : PlaceInfo) (defaultCuisine : String)
    (price : String) (defaultSpeciality : String) (rating ambiance culturalNote : String) :
    Json :=
  Json.obj [jf "meal" (jstr meal), jf "restaurant" (jstr p.name),
    jf "cuisine" (jstr (p.cuisine.getD defaultCuisine)),
    jf "location" (placeJson p),
    jf "price" (jstr price),
    jf "speciality" (jstr (p.speciality.getD defaultSpeciality)),
    jf "rating" (jstr rating), jf "ambiance" (jstr ambiance),
    jf "culturalNote" (jstr culturalNote)]

/-- One day entry of `generateEnhancedFallbackItinerary` (the `date` field,
computed from the wall clock in the source, is not modelled). -/
def fallbackDay (city : String) (day : Nat) (p : DayPlaces) : Json :=
  Json.obj [jf "day" (Json.num day),
    jf "summary" (jstr ("Day " ++ toString day ++ ": Discover the best of " ++ city)),
    jf "weather" (jstr "Please check current weather conditions"),
    jf "morning" (Json.arr [fallbackActivity "9:00 AM"
      ("Morning exploration of " ++ p.morning.name) p.morning
      ("Start your day exploring the vibrant " ++ p.morning.name ++ " area of " ++ city)
      "₹200-500" "2-3 hours"]),
    jf "afternoon" (Json.arr [fallbackActivity "2:00 PM"
      ("Visit " ++ p.afternoon.name) p.afternoon
      ("Explore the must-see " ++ p.afternoon.name ++ " and its cultural significance")
      "₹300-800" "3-4 hours"]),
    jf "evening" (Json.arr [fallbackActivity "7:00 PM"
      ("Evening at " ++ p.evening.name) p.evening
      ("Experience the evening atmosphere and culture of " ++ p.evening.name)
      "₹400-1000" "2-3 hours"]),
    jf "dining" (Json.arr
      [fallbackMeal "Breakfast" p.breakfast "Local Cuisine" "₹200-400"
         "Traditional breakfast items" "4.0/5" "Casual and welcoming"
         ("Experience authentic " ++ city ++ " morning dining culture"),
       fallbackMeal "Lunch" p.lunch "Regional Specialties" "₹400-800"
         "Local lunch specialties" "4.2/5" "Family-friendly"
         ("Try authentic " ++ city ++ " regional dishes"),
       fallbackMeal "Dinner" p.dinner "Fine Dining" "₹800-1500"
         "Evening specialties and local delicacies" "4.3/5" "Elegant and sophisticated"
         ("Experience upscale " ++ city ++ " dining traditions")])]

/-- `Math.round(budgetNumber * fraction)` of the cost breakdown, with the
fraction in hundredths. -/
def roundFrac (n hundredths : Nat) : Nat := (n * hundredths + 50) / 100

/-- The summary block of `generateEnhancedFallbackItinerary`. -/
def fallbackSummary (city budget : String) (cfg : Option CityConfig) : Json :=
  let b := parseBudgetDigits budget
  Json.obj [jf "totalCost" (jstr ("₹" ++ budget)),
    jf "costBreakdown" (Json.obj
      [jf "accommodation" (jstr ("₹" ++ toString (roundFrac b 40))),
       jf "food" (jstr ("₹" ++ toString (roundFrac b 25))),
       jf "activities" (jstr ("₹" ++ toString (roundFrac b 25))),
       jf "transportation" (jstr ("₹" ++ toString (roundFrac b 10)))]),
    jf "highlights" (Json.arr [jstr ("Explore the heart of " ++ city),
      jstr "Experience local culture and cuisine",
      jstr "Visit top attractions and landmarks"]),
    jf "tips" (Json.arr [jstr "Plan your visits during off-peak hours",
      jstr "Try local transportation",
      jstr "Keep some cash handy for local vendors"]),
    jf "culturalTips" (match cfg with
      | some conf => Json.arr (conf.culturalTips.map jstr)
      | none => Json.arr [jstr ("Respect local customs and traditions in " ++ city)]),
    jf "bestTime" (match cfg with
      | some conf => jstr conf.weatherInfo
      | none => jstr ("Research the best time to visit " ++ city ++
          " based on weather and tourist seasons")),
    jf "weatherOverview" (match cfg with
      | some conf => jstr conf.weatherInfo
      | none => jstr ("Check current weather conditions for " ++ city)),
    jf "budgetingTips" (Json.arr [jstr "Book accommodations in advance for better rates",
      jstr "Eat at local restaurants for authentic and affordable meals"])]

/-- `generateEnhancedFallbackItinerary(city, days, budget, cityConfig)`:
one templated day entry per day number `1..days`, plus the summary block.
The deterministic terminal-success path of the fallback chain: pure
computation, no I/O. -/
def generateEnhancedFallbackItinerary (city : String) (days : Nat) (budget : String)
    (cfg : Option CityConfig) : Json :=
  Json.obj [jf "days" (Json.arr ((List.range days).map
      (fun i => fallbackDay city (i + 1) (getDaySpecificPlaces city (i + 1))))),
    jf "summary" (fallbackSummary city budget cfg)]

def requiredMeals : List String := ["Breakfast", "Lunch", "Dinner"]

/-- The synthetic meal `ensureAllMeals` inserts for a missing meal type. -/
def defaultMeal (mealType city : String) : Json :=
  Json.obj [jf "meal" (jstr mealType),
    jf "restaurant" (jstr (city ++ " " ++ mealType ++ " Place")),
    jf "cuisine" (jstr "Local Cuisine"),
    jf "location" (Json.obj [jf "name" (jstr (city ++ " " ++ mealType ++ " Restaurant")),
      jf "address" (jstr city)]),
    jf "price" (jstr (if mealType == "Breakfast" then "₹200-400"
      else if mealType == "Lunch" then "₹400-800" else "₹600-1200")),
    jf "speciality" (jstr ("Local " ++ strLower mealType ++ " specialty")),
    jf "rating" (jstr "4.0/5"),
    jf "ambiance" (jstr "Friendly and welcoming"),
    jf "culturalNote" (jstr ("Experience local " ++ strLower mealType ++ " culture"))]

def isNull : Json → Bool
  | Json.null => true
  | _ => false

/-- Whether a dining entry's `meal` property strictly equals the given meal
type (the `Map` key comparison in `ensureAllMeals`; a non-string or missing
`meal` never equals the string key). -/
def mealLabelMatches (m : Json) (mealType : String) : Bool :=
  match getField m "meal".data with
  | some (Json.str s) => s == mealType.data
  | _ => false

/-- `ensureAllMeals(existingMeals, city)`: build the meal map (last
duplicate wins) and return exactly Breakfast, Lunch, Dinner, taking the
existing entry when present and the synthetic default otherwise.  Reading
`meal.meal` of a `null` entry throws. -/
def ensureAllMeals (existingMeals : List Json) (city : String) :
    Except (List Char) (List Json) :=
  if existingMeals.any isNull then
    Except.error "TypeError: cannot read properties of null".data
  else
    Except.ok (requiredMeals.map (fun mt =>
      match existingMeals.reverse.find? (fun m => mealLabelMatches m mt) with
      | some m => m
      | none => defaultMeal mt city))

/-- The per-day body of `validateAndEnhanceItinerary`'s `forEach`:
`if (!day.dining || day.dining.length < 3) day.dining = ensureAllMeals(day.dining || [], city)`.
A dining list of length ≥ 3 — whatever its labels — and any truthy
non-array dining value are kept unchanged; a missing/falsy dining value is
replaced by the three synthetic meals; a truthy string shorter than 3
characters reaches `ensureAllMeals`, whose `.map` call throws on it.
A `null` day throws on the property read; a primitive day throws on the
strict-mode property write; an array day accepts the write, but the
created property is invisible to this JSON-document model (and to the
serialized response). -/
def repairDay (city : String) (day : Json) : Except (List Char) Json :=
  match day with
  | Json.obj _ =>
    (match getField day "dining".data with
    | some (Json.arr ms) =>
      if ms.length < 3 then
        match ensureAllMeals ms city with
        | Except.error e => Except.error e
        | Except.ok ms2 => Except.ok (setField day "dining".data (Json.arr ms2))
      else Except.ok day
    | some (Json.str s) =>
      if s.isEmpty then
        match ensureAllMeals [] city with
        | Except.error e => Except.error e
        | Except.ok ms2 => Except.ok (setField day "dining".data (Json.arr ms2))
      else if s.length < 3 then
        Except.error "TypeError: existingMeals.map is not a function".data
      else Except.ok day
    | some v =>
      if truthy v then Except.ok day
      else
        match ensureAllMeals [] city with
        | Except.error e => Except.error e
        | Except.ok ms2 => Except.ok (setField day "dining".data (Json.arr ms2))
    | none =>
      match ensureAllMeals [] city with
      | Except.error e => Except.error e
      | Except.ok ms2 => Except.ok (setField day "dining".data (Json.arr ms2)))
  | Json.arr xs => Except.ok (Json.arr xs)
  | Json.null => Except.error "TypeError: cannot read properties of null".data
  | _ => Except.error "TypeError: cannot create property on primitive".data

/-- The default summary `validateAndEnhanceItinerary` installs when the
summary block is missing or falsy. -/
def defaultSummary (city budget : String) : Json :=
  Json.obj [jf "totalCost" (jstr ("₹" ++ budget)),
    jf "highlights" (Json.arr [jstr ("Explore " ++ city),
      jstr "Experience local culture", jstr "Enjoy local cuisine"]),
    jf "tips" (Json.arr [jstr "Plan ahead", jstr "Stay hydrated",
      jstr "Respect local customs"]),
    jf "bestTime" (jstr "Year-round destination")]

/-- `validateAndEnhanceItinerary(itinerary, city, days, budget, cityConfig)`:
a falsy itinerary, a missing/falsy `days` property or a non-array `days`
is replaced wholesale by the deterministic fallback; otherwise the summary
is defaulted when missing and every day entry is repaired in place by
`repairDay` — notably, the AI-provided day count is kept as-is, and so is
any dining list that already has 3 or more entries. -/
def validateAndEnhanceItinerary (itinerary : Json) (city : String) (days : Nat)
    (budget : String) (cfg : Option CityConfig) : Except (List Char) Json :=
  if !truthy itinerary then
    Except.ok (generateEnhancedFallbackItinerary city days budget cfg)
  else
    match getField itinerary "days".data with
    | none => Except.ok (generateEnhancedFallbackItinerary city days budget cfg)
    | some d =>
      if !truthy d then Except.ok (generateEnhancedFallbackItinerary city days budget cfg)
      else
        match d with
        | Json.arr ds =>
          let it1 := if ((getField itinerary "summary".data).map truthy).getD false
            then itinerary
            else setField itinerary "summary".data (defaultSummary city budget)
          match mapE (repairDay city) ds with
          | Except.error e => Except.error e
          | Except.ok ds2 => Except.ok (setField it1 "days".data (Json.arr ds2))
        | _ => Except.ok (generateEnhancedFallbackItinerary city days budget cfg)

mutual

/-- Structural JSON equality (used for the `Set` dedup of location names;
the JavaScript `Set` compares strings by value — object identity for the
degenerate non-string case is approximated by structural equality). -/
def jsonBeq (a : Json) (b : Json) : Bool :=
  match a, b with
  | Json.str a1, Json.str b1 => a1 == b1
  | Json.num a1, Json.num b1 => a1 == b1
  | Json.bool a1, Json.bool b1 => a1 == b1
  | Json.null, Json.null => true
  | Json.arr xs, Json.arr ys => jsonBeqList xs ys
  | Json.obj xs, Json.obj ys => jsonBeqFields xs ys
  | _, _ => false
termination_by structural a

def jsonBeqList (l : List Json) (l2 : List Json) : Bool :=
  match l, l2 with
  | [], [] => true
  | x :: xs, y :: ys => jsonBeq x y && jsonBeqList xs ys
  | _, _ => false
termination_by structural l

def jsonBeqFields (l : List (List Char × Json)) (l2 : List (List Char × Json)) : Bool :=
  match l, l2 with
  | [], [] => true
  | (k1, v1) :: xs, (k2, v2) :: ys => k1 == k2 && jsonBeq v1 v2 && jsonBeqFields xs ys
  | _, _ => false
termination_by structural l

end

/-- `Set.add` with insertion order. -/
def addName (acc : List Json) (v : Json) : List Json :=
  if acc.any (fun w => jsonBeq w v) then acc else acc ++ [v]

/-- `value?.forEach(...)`'s receiver: `none`/`null` short-circuit to no
iterations, an array iterates, anything else (including truthy strings and
falsy non-nullish primitives) throws `forEach is not a function`. -/
def forEachItems (v : Option Json) : Except (List Char) (List Json) :=
  match v with
  | none => Except.ok []
  | some Json.null => Except.ok []
  | some (Json.arr xs) => Except.ok xs
  | some _ => Except.error "TypeError: forEach is not a function".data

/-- `entry.location?.name` for an activity or dining entry: throws on a
`null` entry, yields the name when the entry is an object with an object
`location` carrying a truthy `name`, and is undefined otherwise. -/
def entryLocName (a : Json) : Except (List Char) (Option Json) :=
  match a with
  | Json.null => Except.error "TypeError: cannot read properties of null".data
  | Json.obj _ =>
    (match getField a "location".data with
    | some (Json.obj fs) =>
      (match getField (Json.obj fs) "name".data with
      | some nm => Except.ok (if truthy nm then some nm else none)
      | none => Except.ok none)
    | _ => Except.ok none)
  | _ => Except.ok none

/-- Collect the truthy location names of a list of entries, left to
right. -/
def collectNames (acc : List Json) : List Json → Except (List Char) (List Json)
  | [] => Except.ok acc
  | a :: rest =>
    match entryLocName a with
    | Except.error e => Except.error e
    | Except.ok none => collectNames acc rest
    | Except.ok (some nm) => collectNames (addName acc nm) rest

def periodKeys : List String := ["morning", "afternoon", "evening"]

/-- The per-day body of `extractLocationNames`: the three period lists and
the dining list, each via `day[period]?.forEach`.  Reading a property of a
`null` day throws; a primitive or array day yields undefined reads and is
skipped. -/
def extractFromDay (acc : List Json) (day : Json) : Except (List Char) (List Json) :=
  match day with
  | Json.null => Except.error "TypeError: cannot read properties of null".data
  | Json.obj _ =>
    (match forEachItems (getField day "morning".data) with
    | Except.error e => Except.error e
    | Except.ok xs1 =>
      match collectNames acc xs1 with
      | Except.error e => Except.error e
      | Except.ok acc1 =>
        match forEachItems (getField day "afternoon".data) with
        | Except.error e => Except.error e
        | Except.ok xs2 =>
          match collectNames acc1 xs2 with
          | Except.error e => Except.error e
          | Except.ok acc2 =>
            match forEachItems (getField day "evening".data) with
            | Except.error e => Except.error e
            | Except.ok xs3 =>
              match collectNames acc2 xs3 with
              | Except.error e => Except.error e
              | Except.ok acc3 =>
                match forEachItems (getField day "dining".data) with
                | Except.error e => Except.error e
                | Except.ok ms =>
                  collectNames acc3 ms)
  | _ => Except.ok acc

def extractDays (acc : List Json) : List Json → Except (List Char) (List Json)
  | [] => Except.ok acc
  | d :: rest =>
    match extractFromDay acc d with
    | Except.error e => Except.error e
    | Except.ok acc2 => extractDays acc2 rest

/-- `extractLocationNames(itinerary, city)`: the city name first, then
every truthy `location.name` of every period activity and dining entry, in
document order, deduplicated with insertion order and capped at 20
(`Array.from(set).slice(0, 20)`). -/
def extractLocationNames (itinerary : Json) (city : List Char) :
    Except (List Char) (List Json) :=
  let init := [Json.str city]
  match getField itinerary "days".data with
  | none => Except.ok (init.take 20)
  | some Json.null => Except.ok (init.take 20)
  | some (Json.arr ds) =>
    (match extractDays init ds with
    | Except.error e => Except.error e
    | Except.ok names => Except.ok (names.take 20))
  | some _ => Except.error "TypeError: forEach is not a function".data

/-- A Google Places result as the enhancement step consumes it (name,
formatted address, place id; rating/types/geometry are inert data and not
modelled). -/
structure GooglePlace where
  name : List Char
  address : List Char
  placeId : List Char
  deriving Repr, DecidableEq

/-- Environment of the Google-Places enhancement: the configured API key
and the per-query outcome oracles.  `searchRealPlaces` catches every
internal failure (including the `.trim()` crash on a non-string query) and
returns `[]`, and `getPlaceDetails` catches everything and returns `null`,
so both oracles are total; the source's query normalization (generic-term
removal, city suffixing) only renames oracle keys and is folded into the
oracle. -/
structure EnhanceEnv where
  googleKey : Option String
  places : List Char → Option String → List GooglePlace
  details : List Char → Option Json

/-- `searchRealPlaces(query, city, type)`: no key — immediate `[]` without
a network call; otherwise the oracle's ranked results capped at 5. -/
def searchRealPlaces (env : EnhanceEnv) (query : List Char) (typ : Option String) :
    List GooglePlace :=
  match env.googleKey with
  | none => []
  | some _ => (env.places query typ).take 5

def mumbaiFallbackPlaces : List (String × PlaceInfo) :=
  [("gateway of india", ⟨"Gateway of India", "Apollo Bandar, Colaba, Mumbai, Maharashtra 400001", none, none⟩),
   ("marine drive", ⟨"Marine Drive", "Marine Drive, Mumbai, Maharashtra 400002", none, none⟩),
   ("colaba causeway", ⟨"Colaba Causeway", "Colaba Causeway, Colaba, Mumbai, Maharashtra 400001", none, none⟩),
   ("juhu beach", ⟨"Juhu Beach", "Juhu Beach, Juhu, Mumbai, Maharashtra 400049", none, none⟩),
   ("elephanta caves", ⟨"Elephanta Caves", "Elephanta Island, Mumbai, Maharashtra 400094", none, none⟩),
   ("taj mahal palace", ⟨"Taj Mahal Palace", "Apollo Bunder, Colaba, Mumbai, Maharashtra 400001", none, none⟩)]

def delhiFallbackPlaces : List (String × PlaceInfo) :=
  [("red fort", ⟨"Red Fort", "Netaji Subhash Marg, Lal Qila, Old Delhi, New Delhi, Delhi 110006", none, none⟩),
   ("india gate", ⟨"India Gate", "Rajpath, New Delhi, Delhi 110001", none, none⟩),
   ("humayun tomb", ⟨"Humayun Tomb", "Mathura Road, Nizamuddin, New Delhi, Delhi 110013", none, none⟩),
   ("qutub minar", ⟨"Qutub Minar", "Mehrauli, New Delhi, Delhi 110030", none, none⟩)]

def tokyoFallbackPlaces : List (String × PlaceInfo) :=
  [("senso ji", ⟨"Senso-ji Temple", "2-3-1 Asakusa, Taito City, Tokyo 111-0032, Japan", none, none⟩),
   ("tokyo skytree", ⟨"Tokyo Skytree", "1-1-2 Oshiage, Sumida City, Tokyo 131-0045, Japan", none, none⟩),
   ("shibuya crossing", ⟨"Shibuya Crossing", "Shibuya, Tokyo 150-0002, Japan", none, none⟩)]

/-- The substring matching of the fallback tables:
`name.includes(key) || key.includes(name)`, first match wins, table default
otherwise. -/
def tableLookup (table : List (String × PlaceInfo)) (dflt : PlaceInfo)
    (lowerName : String) : PlaceInfo :=
  match table.find? (fun kv => Pexels.strIncludes lowerName kv.1 ||
      Pexels.strIncludes kv.1 lowerName) with
  | some kv => kv.2
  | none => dflt

/-- `getFallbackPlace(originalName, city)`: curated fallback places for the
three table cities (with a per-city default), `null` otherwise. -/
def getFallbackPlace (originalName : List Char) (city : String) : Option PlaceInfo :=
  let cityLower := strLower city
  let lowerName := strLower (String.mk originalName)
  if cityLower == "mumbai" then
    some (tableLookup mumbaiFallbackPlaces
      ⟨"Gateway of India", "Apollo Bandar, Colaba, Mumbai, Maharashtra 400001", none, none⟩ lowerName)
  else if cityLower == "delhi" then
    some (tableLookup delhiFallbackPlaces
      ⟨"Red Fort", "Netaji Subhash Marg, Lal Qila, Old Delhi, New Delhi, Delhi 110006", none, none⟩ lowerName)
  else if cityLower == "tokyo" then
    some (tableLookup tokyoFallbackPlaces
      ⟨"Senso-ji Temple", "2-3-1 Asakusa, Taito City, Tokyo 111-0032, Japan", none, none⟩ lowerName)
  else none

def mumbaiFallbackRestaurants : List (String × PlaceInfo) :=
  [("leopold cafe", ⟨"Leopold Cafe", "Colaba Causeway, Colaba, Mumbai, Maharashtra 400001", none, none⟩),
   ("bademiya", ⟨"Bademiya", "Tulloch Road, Apollo Bunder, Colaba, Mumbai, Maharashtra 400001", none, none⟩),
   ("trishna", ⟨"Trishna", "Kala Ghoda, Fort, Mumbai, Maharashtra 400001", none, none⟩)]

/-- `getFallbackRestaurant(originalName, city)`: Mumbai only, `null` for
every other city. -/
def getFallbackRestaurant (originalName : List Char) (city : String) : Option PlaceInfo :=
  let cityLower := strLower city
  let lowerName := strLower (String.mk originalName)
  if cityLower == "mumbai" then
    some (tableLookup mumbaiFallbackRestaurants
      ⟨"Leopold Cafe", "Colaba Causeway, Colaba, Mumbai, Maharashtra 400001", none, none⟩ lowerName)
  else none

/-- `{...location, name, address, fallback: true}` — the spread keeps the
object's existing fields; spreading a primitive or `null` contributes
nothing (a fresh object results). -/
def spreadLoc (loc : Json) (p : PlaceInfo) : Json :=
  let base := match loc with
    | Json.obj fs => Json.obj fs
    | _ => Json.obj []
  setField (setField (setField base "name".data (jstr p.name))
    "address".data (jstr p.address)) "fallback".data (Json.bool true)

/-- The location object built from a live Google Places result. -/
def liveLoc (best : GooglePlace) : Json :=
  Json.obj [jf "name" (Json.str best.name), jf "address" (Json.str best.address),
    jf "placeId" (Json.str best.placeId)]

/-- `if (details?.opening_hours?.weekday_text) entry.currentStatus = {...}`
(the `todayHours` wall-clock lookup is inert data and not modelled beyond
the `openNow` flag). -/
def applyCurrentStatus (env : EnhanceEnv) (pid : List Char) (entry : Json) : Json :=
  match env.details pid with
  | some dj =>
    (match getField dj "opening_hours".data with
    | some oh =>
      (match getField oh "weekday_text".data with
      | some wt =>
        if truthy wt then
          setField entry "currentStatus".data (Json.obj
            [jf "openNow" (match getField oh "open_now".data with
              | some v => v
              | none => Json.null)])
        else entry
      | none => entry)
    | none => entry)
  | none => entry

/-- One activity of `enhanceWithRealPlaces`: replace its location with the
top live result, else with the curated fallback place; a `null` activity
throws on the `location` read; a non-string truthy name survives the
search (whose catch absorbs the `.trim` crash) but throws inside
`getFallbackPlace`'s `toLowerCase` for the three table cities. -/
def enhanceActivity (env : EnhanceEnv) (city : String) (a : Json) :
    Except (List Char) Json :=
  match a with
  | Json.null => Except.error "TypeError: cannot read properties of null".data
  | Json.obj _ =>
    (match getField a "location".data with
    | some (Json.obj lfs) =>
      (match getField (Json.obj lfs) "name".data with
      | some nm =>
        if truthy nm then
          match nm with
          | Json.str nmStr =>
            (match searchRealPlaces env nmStr (some "tourist_attraction") with
            | [] =>
              (match getFallbackPlace nmStr city with
              | some p => Except.ok (setField a "location".data (spreadLoc (Json.obj lfs) p))
              | none => Except.ok a)
            | best :: _ =>
              Except.ok (applyCurrentStatus env best.placeId
                (setField a "location".data (liveLoc best))))
          | _ =>
            if strLower city == "mumbai" || strLower city == "delhi" ||
                strLower city == "tokyo" then
              Except.error "TypeError: originalName.toLowerCase is not a function".data
            else Except.ok a
        else Except.ok a
      | none => Except.ok a)
    | _ => Except.ok a)
  | _ => Except.ok a

/-- One dining entry of `enhanceWithRealPlaces`: keyed by the
`restaurant` field; a `null` meal throws on the read; a non-string truthy
restaurant throws inside `getFallbackRestaurant` for Mumbai only. -/
def enhanceMeal (env : EnhanceEnv) (city : String) (m : Json) :
    Except (List Char) Json :=
  match m with
  | Json.null => Except.error "TypeError: cannot read properties of null".data
  | Json.obj _ =>
    (match getField m "restaurant".data with
    | some r =>
      if truthy r then
        match r with
        | Json.str rs =>
          (match searchRealPlaces env rs (some "restaurant") with
          | [] =>
            (match getFallbackRestaurant rs city with
            | some p =>
              let base := (getField m "location".data).getD Json.null
              Except.ok (setField m "location".data (spreadLoc base p))
            | none => Except.ok m)
          | best :: _ =>
            Except.ok (applyCurrentStatus env best.placeId
              (setField m "location".data (liveLoc best))))
        | _ =>
          if strLower city == "mumbai" then
            Except.error "TypeError: originalName.toLowerCase is not a function".data
          else Except.ok m
      else Except.ok m
    | none => Except.ok m)
  | _ => Except.ok m

/-- One period list of `enhanceWithRealPlaces`: `if (day[period])` skips
falsy values, `for..of` iterates an array (or the characters of a string,
none of which has a location) and throws on other truthy values. -/
def enhancePeriod (env : EnhanceEnv) (city : String) (day : Json) (key : String) :
    Except (List Char) Json :=
  match getField day key.data with
  | some v =>
    if truthy v then
      match v with
      | Json.arr acts =>
        (match mapE (enhanceActivity env city) acts with
        | Except.error e => Except.error e
        | Except.ok acts2 => Except.ok (setField day key.data (Json.arr acts2)))
      | Json.str _ => Except.ok day
      | _ => Except.error "TypeError: day[period] is not iterable".data
    else Except.ok day
  | none => Except.ok day

def enhanceDay (env : EnhanceEnv) (city : String) (day : Json) :
    Except (List Char) Json :=
  match day with
  | Json.null => Except.error "TypeError: cannot read properties of null".data
  | Json.obj _ =>
    (match enhancePeriod env city day "morning" with
    | Except.error e => Except.error e
    | Except.ok d1 =>
      match enhancePeriod env city d1 "afternoon" with
      | Except.error e => Except.error e
      | Except.ok d2 =>
        match enhancePeriod env city d2 "evening" with
        | Except.error e => Except.error e
        | Except.ok d3 =>
          match getField d3 "dining".data with
          | some v =>
            if truthy v then
              match v with
              | Json.arr ms =>
                (match mapE (enhanceMeal env city) ms with
                | Except.error e => Except.error e
                | Except.ok ms2 => Except.ok (setField d3 "dining".data (Json.arr ms2)))
              | Json.str _ => Except.ok d3
              | _ => Except.error "TypeError: day.dining is not iterable".data
            else Except.ok d3
          | none => Except.ok d3)
  | _ => Except.ok day

/-- `enhanceWithRealPlaces(itinerary, city)`: `if (!itinerary?.days)
return itinerary`, then the per-day enhancement; `for..of` over a truthy
non-array, non-string `days` throws. -/
def enhanceWithRealPlaces (env : EnhanceEnv) (city : String) (it : Json) :
    Except (List Char) Json :=
  match getField it "days".data with
  | none => Except.ok it
  | some d =>
    if !truthy d then Except.ok it
    else
      match d with
      | Json.arr ds =>
        (match mapE (enhanceDay env city) ds with
        | Except.error e => Except.error e
        | Except.ok ds2 => Except.ok (setField it "days".data (Json.arr ds2)))
      | Json.str _ => Except.ok it
      | _ => Except.error "TypeError: itinerary.days is not iterable".data

/-- Whether a value supports `.includes(...)` (strings and arrays do). -/
def hasIncludes : Json → Bool
  | Json.str _ => true
  | Json.arr _ => true
  | _ => false

/-- The crash surface of `validateRealTimeData` (its warnings are inert
metadata): per day, the `weather.includes` test on a truthy weather value
and, when any period is truthy, the `estimatedCost.includes` test per
activity via `day[period]?.forEach`. -/
def rtdActivity (a : Json) : Except (List Char) Unit :=
  match a with
  | Json.null => Except.error "TypeError: cannot read properties of null".data
  | Json.obj _ =>
    (match getField a "estimatedCost".data with
    | some ec =>
      if truthy ec then
        if hasIncludes ec then Except.ok () else
          Except.error "TypeError: includes is not a function".data
      else Except.ok ()
    | none => Except.ok ())
  | _ => Except.ok ()

def rtdPeriod (day : Json) (key : String) : Except (List Char) Unit :=
  match forEachItems (getField day key.data) with
  | Except.error e => Except.error e
  | Except.ok xs =>
    match mapE rtdActivity xs with
    | Except.error e => Except.error e
    | Except.ok _ => Except.ok ()

def rtdDay (day : Json) : Except (List Char) Unit :=
  match day with
  | Json.null => Except.error "TypeError: cannot read properties of null".data
  | Json.obj _ =>
    (match getField day "weather".data with
    | some w =>
      if truthy w && !hasIncludes w then
        Except.error "TypeError: includes is not a function".data
      else
        if ((getField day "morning".data).map truthy).getD false ||
            ((getField day "afternoon".data).map truthy).getD false ||
            ((getField day "evening".data).map truthy).getD false then
          match rtdPeriod day "morning" with
          | Except.error e => Except.error e
          | Except.ok _ =>
            match rtdPeriod day "afternoon" with
            | Except.error e => Except.error e
            | Except.ok _ => rtdPeriod day "evening"
        else Except.ok ()
    | none =>
      if ((getField day "morning".data).map truthy).getD false ||
          ((getField day "afternoon".data).map truthy).getD false ||
          ((getField day "evening".data).map truthy).getD false then
        match rtdPeriod day "morning" with
        | Except.error e => Except.error e
        | Except.ok _ =>
          match rtdPeriod day "afternoon" with
          | Except.error e => Except.error e
          | Except.ok _ => rtdPeriod day "evening"
      else Except.ok ())
  | _ => Except.ok ()

def validateRealTimeDataCheck (it : Json) : Except (List Char) Unit :=
  match forEachItems (getField it "days".data) with
  | Except.error e => Except.error e
  | Except.ok ds =>
    match mapE rtdDay ds with
    | Except.error e => Except.error e
    | Except.ok _ => Except.ok ()

/-- The crash surface of `countRealPlaces` (its count is inert metadata):
`activity.location?.placeId` / `meal.location?.placeId` per entry, with a
`null` entry throwing; `if (!itinerary?.days) return 0`, and a truthy
non-array `days` throws on the direct `.forEach`. -/
def crpEntry (a : Json) : Except (List Char) Unit :=
  match a with
  | Json.null => Except.error "TypeError: cannot read properties of null".data
  | _ => Except.ok ()

def crpDay (day : Json) : Except (List Char) Unit :=
  match day with
  | Json.null => Except.error "TypeError: cannot read properties of null".data
  | Json.obj _ =>
    (match forEachItems (getField day "morning".data) with
    | Except.error e => Except.error e
    | Except.ok xs1 =>
      match mapE crpEntry xs1 with
      | Except.error e => Except.error e
      | Except.ok _ =>
        match forEachItems (getField day "afternoon".data) with
        | Except.error e => Except.error e
        | Except.ok xs2 =>
          match mapE crpEntry xs2 with
          | Except.error e => Except.error e
          | Except.ok _ =>
            match forEachItems (getField day "evening".data) with
            | Except.error e => Except.error e
            | Except.ok xs3 =>
              match mapE crpEntry xs3 with
              | Except.error e => Except.error e
              | Except.ok _ =>
                match forEachItems (getField day "dining".data) with
                | Except.error e => Except.error e
                | Except.ok ms =>
                  match mapE crpEntry ms with
                  | Except.error e => Except.error e
                  | Except.ok _ => Except.ok ())
  | _ => Except.ok ()

def countRealPlacesCheck (it : Json) : Except (List Char) Unit :=
  match getField it "days".data with
  | none => Except.ok ()
  | some d =>
    if !truthy d then Except.ok ()
    else
      match d with
      | Json.arr ds =>
        (match mapE crpDay ds with
        | Except.error e => Except.error e
        | Except.ok _ => Except.ok ())
      | _ => Except.error "TypeError: forEach is not a function".data

/-- The parsed request body of the itinerary endpoint (`ItineraryRequest`).
`interests`, `includeWeather`, `includeCulturalTips` and `imageSize` only
shape the AI prompt and image sizing and are inert for the modelled
behaviour. -/
structure Req where
  city : String
  budget : String
  days : Int
  interests : List String

/-- The upstream AI HTTP response as the handler consumes it: the `ok`
flag, the status code, and the parsed JSON body (`none` when
`response.json()` rejects). -/
structure AiResponse where
  ok : Bool
  status : Nat
  jsonBody : Option Json

/-- `data.choices[0].message.content` together with the truthiness checks
`!data.choices || !data.choices[0] || !data.choices[0].message` and the
subsequent `content.match(...)` call, which only proceeds on a string
content; every non-conforming shape throws inside the handler's AI
`try` and is absorbed by its catch. -/
def aiContent (body : Json) : Option (List Char) :=
  match getField body "choices".data with
  | some (Json.arr (c0 :: _)) =>
    (match getField c0 "message".data with
    | some msg =>
      (match getField msg "content".data with
      | some (Json.str content) => some content
      | _ => none)
    | none => none)
  | _ => none

/-- The itinerary built by the handler's AI `catch` clause: the
deterministic fallback document plus a `metadata.fallbackReason` note
(`itinerary && !itinerary.metadata` always holds for the generator's
output; the recorded message text is the thrown error's message and is
inert data). -/
def fallbackWithMeta (city : String) (days : Nat) (budget : String)
    (cfg : Option CityConfig) : Json :=
  setField (generateEnhancedFallbackItinerary city days budget cfg) "metadata".data
    (Json.obj [jf "fallbackReason" (jstr "AI service error")])

/-- The full environment of one `POST` evaluation: the Perplexity
credential, the per-attempt AI race outcomes and clock values, the AI
breaker state, the Google-Places environment, the per-query Pexels call
environments, whether the image collection deadline inside
`fetchDiverseLocationImages` fires, and whether the handler's own
`Promise.race` image deadline fires first. -/
structure Env where
  perplexityKey : Option String
  aiRaces : Nat → Timeout.RaceResult AiResponse
  aiTimes : Nat → Nat
  perplexityBreaker : Breaker.CircuitBreaker
  enhance : EnhanceEnv
  pexelsCalls : String → String → Pexels.CallEnv
  imagesTimedOut : Bool
  outerImageTimerFirst : Bool

/-- The `itinerary` value after the handler's AI phase: the parsed and
repaired AI document when the orchestrated call succeeds with an `ok`
response whose body parses, has the expected `choices` shape, and whose
content yields a repairable JSON span; the metadata-annotated
deterministic fallback in every other case (orchestration error including
timeout and breaker-open, non-`ok` status, body parse failure, bad
structure, no repairable JSON). -/
def aiItinerary (req : Req) (env : Env) (cfg : Option CityConfig) (days : Nat) : Json :=
  let call : Orchestration.OrchOut AiResponse :=
    Orchestration.perplexityCall env.aiRaces env.aiTimes env.perplexityBreaker
  match call.result with
  | Except.error _ => fallbackWithMeta req.city days req.budget cfg
  | Except.ok resp =>
    if !resp.ok then fallbackWithMeta req.city days req.budget cfg
    else
      match resp.jsonBody with
      | none => fallbackWithMeta req.city days req.budget cfg
      | some body =>
        match aiContent body with
        | none => fallbackWithMeta req.city days req.budget cfg
        | some content =>
          match repairParse content with
          | some j => j
          | none => fallbackWithMeta req.city days req.budget cfg

/-- `locationNames.map` as `fetchDiverseLocationImages` consumes it: all
entries must be strings, since the first non-string crashes the
`toLowerCase` categorization inside the function's `try`, which its catch
turns into an empty mapping. -/
def allStrings : List Json → Option (List String)
  | [] => some []
  | Json.str s :: rest => (allStrings rest).map (fun t => String.mk s :: t)
  | _ => none

/-- The settled value of `fetchDiverseLocationImages(locationNames, ...)`
on the extracted (JSON-valued) names. -/
def diverseImagesFor (names : List Json) (env : Env) :
    List (String × Pexels.PexelsImage) :=
  match allStrings names with
  | some strs => Pexels.fetchDiverseLocationImages strs env.pexelsCalls env.imagesTimedOut
  | none => []

/-- The response body shape the handler serializes on success: the
itinerary document (spread into the body), the `locationImages` mapping,
and the `metadata.aiModel` marker distinguishing the AI path from the
no-credential fallback path.  The remaining metadata (timestamps, request
ids, counts) is inert. -/
structure ItinResponse where
  itinerary : Json
  locationImages : List (String × Pexels.PexelsImage)
  aiModel : String

/-- An HTTP response of the endpoint: status code, and the success body
when the status is 200. -/
structure HttpRes where
  status : Nat
  body : Option ItinResponse

/-- The `POST` handler of `src/app/api/itinerary/route.ts`.  Missing
fields and out-of-range `days` return 400.  Without a Perplexity
credential the deterministic fallback document is returned with images
fetched directly (the surrounding `catch` that would attach the curated
city image is dead code: `fetchDiverseLocationImages` never rejects).
With a credential, the AI phase produces the document (falling back
internally), which then flows through `validateAndEnhanceItinerary`,
`enhanceWithRealPlaces`, `validateRealTimeData`, `extractLocationNames`,
the image race (whose catch attaches the curated city image only when the
race itself rejects on the handler's own deadline), and the response
assembly including `countRealPlaces`; an uncaught TypeError in any of
these surfaces as a 500 through the outer catch. -/
def POST (req : Req) (env : Env) : HttpRes :=
  if req.city.isEmpty || req.budget.isEmpty || req.days == 0 then ⟨400, none⟩
  else if req.days < 1 || 14 < req.days then ⟨400, none⟩
  else
    let cfg := cityConfigFor req.city
    let days := req.days.toNat
    match env.perplexityKey with
    | none =>
      let fb := generateEnhancedFallbackItinerary req.city days req.budget cfg
      (match extractLocationNames fb req.city.data with
      | Except.error _ => ⟨500, none⟩
      | Except.ok names =>
        let locationImages := diverseImagesFor names env
        ⟨200, some ⟨fb, locationImages, "fallback-enhanced"⟩⟩)
    | some _ =>
      let it0 := aiItinerary req env cfg days
      match validateAndEnhanceItinerary it0 req.city days req.budget cfg with
      | Except.error _ => ⟨500, none⟩
      | Except.ok it1 =>
        match enhanceWithRealPlaces env.enhance req.city it1 with
        | Except.error _ => ⟨500, none⟩
        | Except.ok it2 =>
          match validateRealTimeDataCheck it2 with
          | Except.error _ => ⟨500, none⟩
          | Except.ok _ =>
            match extractLocationNames it2 req.city.data with
            | Except.error _ => ⟨500, none⟩
            | Except.ok names =>
              let locationImages :=
                if env.outerImageTimerFirst then
                  match Pexels.getFallbackCityImage req.city with
                  | some img => [(req.city, img)]
                  | none => []
                else diverseImagesFor names env
              match countRealPlacesCheck it2 with
              | Except.error _ => ⟨500, none⟩
              | Except.ok _ =>
                ⟨200, some ⟨it2, locationImages, "llama-3.1-sonar-small-128k-online"⟩⟩

/-- The day-entry list of a document (`[]` when `days` is not an array). -/
def dayEntries (j : Json) : List Json :=
  match getField j "days".data with
  | some (Json.arr ds) => ds
  | _ => []

/-- The dining list of a day entry (`[]` when `dining` is not an array). -/
def diningOf (d : Json) : List Json :=
  match getField d "dining".data with
  | some (Json.arr ms) => ms
  | _ => []

/-- A day entry carries exactly three dining entries whose meal labels
cover Breakfast, Lunch and Dinner. -/
def hasStandardDining (d : Json) : Bool :=
  match getField d "dining".data with
  | some (Json.arr ms) =>
    ms.length == 3 && requiredMeals.all (fun mt => ms.any (fun m => mealLabelMatches m mt))
  | _ => false

/-- Writing one key leaves every other key's value unchanged. -/
theorem getField_setField_ne (j : Json) (k k2 : List Char) (v : Json)
    (h : (k == k2) = false) : getField (setField j k v) k2 = getField j k2 := by
  cases j with
  | obj fs =>
    simp only [setField]
    by_cases hany : fs.any (fun kv => kv.1 == k)
    · simp only [hany, if_true, getField, ← List.map_reverse, List.find?_map]
      have hcomp : ((fun kv : List Char × Json => kv.1 == k2) ∘
          (fun kv : List Char × Json => if kv.1 == k then (kv.1, v) else kv)) =
          (fun kv : List Char × Json => kv.1 == k2) := by
        funext kv
        by_cases hk : (kv.1 == k) = true
        · simp [Function.comp, hk]
        · simp [Function.comp, hk]
      rw [hcomp]
      cases hfind : fs.reverse.find? (fun kv => kv.1 == k2) with
      | none => simp
      | some kv =>
        have hp : (kv.1 == k2) = true := by simpa using List.find?_some hfind
        have hk : (kv.1 == k) = false := by
          by_contra hc
          have hc2 : (kv.1 == k) = true := by
            cases hkk : (kv.1 == k)
            · exact absurd hkk hc
            · rfl
          have h1 : kv.1 = k := eq_of_beq hc2
          have h2 : kv.1 = k2 := eq_of_beq hp
          rw [← h1, h2] at h
          simp at h
        have hne : kv.1 ≠ k := by
          intro hcc
          rw [hcc] at hk
          simp at hk
        simp [hne]
    · rw [if_neg hany]
      simp only [getField]
      rw [List.reverse_append, List.reverse_singleton, List.singleton_append,
        List.find?]
      simp [h]
  | null => rfl
  | str s => rfl
  | num n => rfl
  | bool b => rfl
  | arr xs => rfl

/-- Writing a key on an object makes that key read back the written
value. -/
theorem getField_setField_self (fs : List (List Char × Json)) (k : List Char) (v : Json) :
    getField (setField (Json.obj fs) k v) k = some v := by
  simp only [setField]
  by_cases hany : fs.any (fun kv => kv.1 == k)
  · simp only [hany, if_true, getField, ← List.map_reverse, List.find?_map]
    have hcomp : ((fun kv : List Char × Json => kv.1 == k) ∘
        (fun kv : List Char × Json => if kv.1 == k then (kv.1, v) else kv)) =
        (fun kv : List Char × Json => kv.1 == k) := by
      funext kv
      by_cases hk : (kv.1 == k) = true
      · simp [Function.comp, hk]
      · simp [Function.comp, hk]
    rw [hcomp]
    have hsome : (fs.reverse.find? (fun kv => kv.1 == k)).isSome := by
      rw [List.find?_isSome]
      obtain ⟨kv, hmem, hp⟩ := List.any_eq_true.mp hany
      exact ⟨kv, List.mem_reverse.mpr hmem, hp⟩
    cases hfind : fs.reverse.find? (fun kv => kv.1 == k) with
    | none => rw [hfind] at hsome; simp at hsome
    | some kv =>
      have hp : (kv.1 == k) = true := by simpa using List.find?_some hfind
      simp [eq_of_beq hp]
  · rw [if_neg hany]
    simp only [getField]
    rw [List.reverse_append, List.reverse_singleton, List.singleton_append,
      List.find?]
    simp

/-- `setField` never changes the outer constructor: an object stays an
object. -/
theorem setField_obj (fs : List (List Char × Json)) (k : List Char) (v : Json) :
    ∃ fs2, setField (Json.obj fs) k v = Json.obj fs2 := by
  simp only [setField]
  split
  · exact ⟨_, rfl⟩
  · exact ⟨_, rfl⟩

/-- `mapE` of a function that is the identity on every element. -/
theorem mapE_ok_id {α ε : Type} (f : α → Except ε α) :
    ∀ l : List α, (∀ a ∈ l, f a = Except.ok a) → mapE f l = Except.ok l := by
  intro l
  induction l with
  | nil => intro _; rfl
  | cons a rest ih =>
    intro h
    have ha := h a (by simp)
    have hrest := ih (fun x hx => h x (by simp [hx]))
    simp only [mapE, ha, hrest]

/-- `mapE` of a function that succeeds, relating input and output
pointwise, on every element satisfying a precondition. -/
theorem mapE_forall2 {α β ε : Type} {p : α → Bool} {R : α → β → Prop}
    (f : α → Except ε β) (h : ∀ a, p a = true → ∃ b, f a = Except.ok b ∧ R a b) :
    ∀ l : List α, l.all p = true →
      ∃ l2, mapE f l = Except.ok l2 ∧ List.Forall₂ R l l2 := by
  intro l
  induction l with
  | nil => intro _; exact ⟨[], rfl, List.Forall₂.nil⟩
  | cons a rest ih =>
    intro hall
    have hpa : p a = true := by
      have := List.all_eq_true.mp hall a (by simp)
      exact this
    have hprest : rest.all p = true := by
      rw [List.all_eq_true]
      intro x hx
      exact List.all_eq_true.mp hall x (by simp [hx])
    obtain ⟨b, hfb, hR⟩ := h a hpa
    obtain ⟨l2, hmap, hF⟩ := ih hprest
    exact ⟨b :: l2, by simp only [mapE, hfb, hmap], List.Forall₂.cons hR hF⟩

/-- A location value whose `name`, when the location is an object, is a
string or falsy — the shapes on which the Google-Places enhancement cannot
crash in `getFallbackPlace`'s `toLowerCase`. -/
def locNameOk (loc : Json) : Bool :=
  match loc with
  | Json.obj _ =>
    (match getField loc "name".data with
     | some (Json.str _) => true
     | some v => !truthy v
     | none => true)
  | _ => true

def locValOk : Option Json → Bool
  | some l => locNameOk l
  | none => true

def restValOk : Option Json → Bool
  | some (Json.str _) => true
  | some v => !truthy v
  | none => true

/-- A value on which `.includes(...)` is safe to call when truthy. -/
def inclValOk : Option Json → Bool
  | some v => hasIncludes v || !truthy v
  | none => true

/-- A period-list value as consumed by `value?.forEach`: absent, `null`,
or an array of entries each satisfying `p`. -/
def periodValOk (p : Json → Bool) : Option Json → Bool
  | none => true
  | some Json.null => true
  | some (Json.arr xs) => xs.all p
  | some _ => false

/-- An activity or dining entry every pipeline stage traverses without
throwing: not `null`, location name a string (or falsy/absent), restaurant
a string (or falsy/absent), `estimatedCost` `includes`-safe. -/
def saneEntry (a : Json) : Bool :=
  !isNull a && locValOk (getField a "location".data) &&
    restValOk (getField a "restaurant".data) &&
    inclValOk (getField a "estimatedCost".data)

/-- A day entry every pipeline stage traverses without throwing: an object
whose three period lists and dining list are absent/null/arrays of sane
entries and whose `weather` is `includes`-safe. -/
def saneDay (d : Json) : Bool :=
  match d with
  | Json.obj _ =>
    periodValOk saneEntry (getField d "morning".data) &&
    periodValOk saneEntry (getField d "afternoon".data) &&
    periodValOk saneEntry (getField d "evening".data) &&
    periodValOk saneEntry (getField d "dining".data) &&
    inclValOk (getField d "weather".data)
  | _ => false

theorem locNameOk_liveLoc (best : GooglePlace) : locNameOk (liveLoc best) = true := rfl

theorem spreadLoc_shape (base : Json) (p : PlaceInfo) :
    (∃ fs, spreadLoc base p = Json.obj fs) ∧
    getField (spreadLoc base p) "name".data = some (jstr p.name) := by
  have hbase : ∃ fs0, (match base with
      | Json.obj fs => Json.obj fs
      | _ => Json.obj []) = Json.obj fs0 := by
    cases base <;> exact ⟨_, rfl⟩
  obtain ⟨fs0, hb⟩ := hbase
  simp only [spreadLoc, hb]
  obtain ⟨fs1, h1⟩ := setField_obj fs0 "name".data (jstr p.name)
  rw [h1]
  obtain ⟨fs2, h2⟩ := setField_obj fs1 "address".data (jstr p.address)
  rw [h2]
  obtain ⟨fs3, h3⟩ := setField_obj fs2 "fallback".data (Json.bool true)
  rw [h3]
  refine ⟨⟨fs3, rfl⟩, ?_⟩
  rw [← h3, getField_setField_ne _ _ _ _ (by decide), ← h2,
    getField_setField_ne _ _ _ _ (by decide), ← h1, getField_setField_self]

theorem locNameOk_spreadLoc (base : Json) (p : PlaceInfo) :
    locNameOk (spreadLoc base p) = true := by
  obtain ⟨⟨fs, hobj⟩, hname⟩ := spreadLoc_shape base p
  rw [hobj] at hname ⊢
  simp only [locNameOk, hname, jstr]

/-- Replacing the location of a sane object entry by a location with a
string-or-safe name keeps it sane and leaves the `meal` field unchanged. -/
theorem sane_setField_loc (fs : List (List Char × Json)) (loc2 : Json)
    (h : saneEntry (Json.obj fs) = true) (hl : locNameOk loc2 = true) :
    saneEntry (setField (Json.obj fs) "location".data loc2) = true ∧
    getField (setField (Json.obj fs) "location".data loc2) "meal".data =
      getField (Json.obj fs) "meal".data := by
  obtain ⟨fs2, hx⟩ := setField_obj fs "location".data loc2
  have hmeal : getField (setField (Json.obj fs) "location".data loc2) "meal".data =
      getField (Json.obj fs) "meal".data :=
    getField_setField_ne _ _ _ _ (by decide)
  refine ⟨?_, hmeal⟩
  have hrest : getField (setField (Json.obj fs) "location".data loc2) "restaurant".data =
      getField (Json.obj fs) "restaurant".data :=
    getField_setField_ne _ _ _ _ (by decide)
  have hcost : getField (setField (Json.obj fs) "location".data loc2)
      "estimatedCost".data = getField (Json.obj fs) "estimatedCost".data :=
    getField_setField_ne _ _ _ _ (by decide)
  have hloc : getField (setField (Json.obj fs) "location".data loc2) "location".data =
      some loc2 := getField_setField_self fs _ _
  have h' := h
  simp only [saneEntry, Bool.and_eq_true] at h' ⊢
  refine ⟨⟨⟨?_, ?_⟩, ?_⟩, ?_⟩
  · rw [hx]; rfl
  · rw [hloc]; simpa [locValOk] using hl
  · rw [hrest]; exact h'.1.2
  · rw [hcost]; exact h'.2

/-- `applyCurrentStatus` only ever touches the `currentStatus` key, and
keeps an object an object. -/
theorem applyCurrentStatus_pres (env : EnhanceEnv) (pid : List Char)
    (fs : List (List Char × Json)) (k : List Char)
    (hk : ("currentStatus".data == k) = false) :
    getField (applyCurrentStatus env pid (Json.obj fs)) k = getField (Json.obj fs) k ∧
    ∃ fs2, applyCurrentStatus env pid (Json.obj fs) = Json.obj fs2 := by
  simp only [applyCurrentStatus]
  split
  · split
    · split
      · split
        · exact ⟨getField_setField_ne _ _ _ _ hk, setField_obj _ _ _⟩
        · exact ⟨rfl, fs, rfl⟩
      · exact ⟨rfl, fs, rfl⟩
    · exact ⟨rfl, fs, rfl⟩
  · exact ⟨rfl, fs, rfl⟩

theorem saneEntry_congr (x y : Json) (hx : isNull x = isNull y)
    (hl : getField x "location".data = getField y "location".data)
    (hr : getField x "restaurant".data = getField y "restaurant".data)
    (hc : getField x "estimatedCost".data = getField y "estimatedCost".data) :
    saneEntry x = saneEntry y := by
  simp only [saneEntry, hx, hl, hr, hc]

/-- A sane entry with its location replaced by a live or curated location
and possibly a `currentStatus` annotation stays sane, and keeps its `meal`
field. -/
theorem sane_locUpdate_status (env : EnhanceEnv) (pid : List Char)
    (fs : List (List Char × Json)) (loc2 : Json)
    (h : saneEntry (Json.obj fs) = true) (hl : locNameOk loc2 = true) :
    saneEntry (applyCurrentStatus env pid (setField (Json.obj fs) "location".data loc2))
      = true ∧
    getField (applyCurrentStatus env pid (setField (Json.obj fs) "location".data loc2))
      "meal".data = getField (Json.obj fs) "meal".data := by
  obtain ⟨hs, hm⟩ := sane_setField_loc fs loc2 h hl
  obtain ⟨fs2, hx⟩ := setField_obj fs "location".data loc2
  rw [hx] at hs hm ⊢
  obtain ⟨hploc, ⟨fs3, hfs3⟩⟩ := applyCurrentStatus_pres env pid fs2 "location".data (by decide)
  obtain ⟨hprest, -⟩ := applyCurrentStatus_pres env pid fs2 "restaurant".data (by decide)
  obtain ⟨hpcost, -⟩ := applyCurrentStatus_pres env pid fs2 "estimatedCost".data (by decide)
  obtain ⟨hpmeal, -⟩ := applyCurrentStatus_pres env pid fs2 "meal".data (by decide)
  constructor
  · rw [saneEntry_congr _ (Json.obj fs2) ?_ hploc hprest hpcost]
    · exact hs
    · rw [hfs3]; rfl
  · rw [hpmeal]; exact hm

/-- One activity of the enhancement step never throws on a sane entry,
returns a sane entry, and keeps its `meal` field. -/
theorem enhanceActivity_sane (env : EnhanceEnv) (city : String) (a : Json)
    (h : saneEntry a = true) :
    ∃ a2, enhanceActivity env city a = Except.ok a2 ∧ saneEntry a2 = true ∧
      getField a2 "meal".data = getField a "meal".data := by
  cases a with
  | null => exact absurd h (by decide)
  | str s => exact ⟨_, rfl, h, rfl⟩
  | num n => exact ⟨_, rfl, h, rfl⟩
  | bool b => exact ⟨_, rfl, h, rfl⟩
  | arr xs => exact ⟨_, rfl, h, rfl⟩
  | obj fs =>
    simp only [enhanceActivity]
    split
    · rename_i lfs hloc
      split
      · rename_i nm hname
        by_cases ht : truthy nm = true
        · rw [if_pos ht]
          have hlocok : locNameOk (Json.obj lfs) = true := by
            have h2 : locValOk (getField (Json.obj fs) "location".data) = true := by
              simp only [saneEntry, Bool.and_eq_true] at h
              exact h.1.1.2
            rw [hloc] at h2
            exact h2
          split
          · rename_i nmStr
            cases hsearch : searchRealPlaces env nmStr (some "tourist_attraction") with
            | nil =>
              cases hfb : getFallbackPlace nmStr city with
              | none => exact ⟨_, rfl, h, rfl⟩
              | some p =>
                obtain ⟨hs, hm⟩ := sane_setField_loc fs (spreadLoc (Json.obj lfs) p) h
                  (locNameOk_spreadLoc (Json.obj lfs) p)
                exact ⟨_, rfl, hs, hm⟩
            | cons best rest =>
              obtain ⟨hs, hm⟩ := sane_locUpdate_status env best.placeId fs (liveLoc best) h
                (locNameOk_liveLoc best)
              exact ⟨_, rfl, hs, hm⟩
          · rename_i hne
            exfalso
            simp only [locNameOk, hname] at hlocok
            cases nm with
            | str nmStr => exact hne nmStr rfl
            | num n =>
              rw [Bool.not_eq_true'] at hlocok
              rw [hlocok] at ht
              simp at ht
            | bool b =>
              rw [Bool.not_eq_true'] at hlocok
              rw [hlocok] at ht
              simp at ht
            | null =>
              rw [Bool.not_eq_true'] at hlocok
              rw [hlocok] at ht
              simp at ht
            | arr xs =>
              rw [Bool.not_eq_true'] at hlocok
              rw [hlocok] at ht
              simp at ht
            | obj ofs =>
              rw [Bool.not_eq_true'] at hlocok
              rw [hlocok] at ht
              simp at ht
        · rw [if_neg ht]
          exact ⟨_, rfl, h, rfl⟩
      · exact ⟨_, rfl, h, rfl⟩
    · exact ⟨_, rfl, h, rfl⟩

/-- One dining entry of the enhancement step never throws on a sane entry,
returns a sane entry, and keeps its `meal` field. -/
theorem enhanceMeal_sane (env : EnhanceEnv) (city : String) (m : Json)
    (h : saneEntry m = true) :
    ∃ m2, enhanceMeal env city m = Except.ok m2 ∧ saneEntry m2 = true ∧
      getField m2 "meal".data = getField m "meal".data := by
  cases m with
  | null => exact absurd h (by decide)
  | str s => exact ⟨_, rfl, h, rfl⟩
  | num n => exact ⟨_, rfl, h, rfl⟩
  | bool b => exact ⟨_, rfl, h, rfl⟩
  | arr xs => exact ⟨_, rfl, h, rfl⟩
  | obj fs =>
    simp only [enhanceMeal]
    split
    · rename_i r hrest
      by_cases ht : truthy r = true
      · rw [if_pos ht]
        have hrok : restValOk (getField (Json.obj fs) "restaurant".data) = true := by
          simp only [saneEntry, Bool.and_eq_true] at h
          exact h.1.2
        rw [hrest] at hrok
        split
        · rename_i rs
          cases hsearch : searchRealPlaces env rs (some "restaurant") with
          | nil =>
            cases hfb : getFallbackRestaurant rs city with
            | none => exact ⟨_, rfl, h, rfl⟩
            | some p =>
              obtain ⟨hs, hm⟩ := sane_setField_loc fs
                (spreadLoc ((getField (Json.obj fs) "location".data).getD Json.null) p) h
                (locNameOk_spreadLoc _ p)
              exact ⟨_, rfl, hs, hm⟩
          | cons best rest =>
            obtain ⟨hs, hm⟩ := sane_locUpdate_status env best.placeId fs (liveLoc best) h
              (locNameOk_liveLoc best)
            exact ⟨_, rfl, hs, hm⟩
        · rename_i hne
          exfalso
          simp only [restValOk] at hrok
          cases r with
          | str rs => exact hne rs rfl
          | num n =>
            rw [Bool.not_eq_true'] at hrok
            rw [hrok] at ht
            simp at ht
          | bool b =>
            rw [Bool.not_eq_true'] at hrok
            rw [hrok] at ht
            simp at ht
          | null =>
            rw [Bool.not_eq_true'] at hrok
            rw [hrok] at ht
            simp at ht
          | arr xs =>
            rw [Bool.not_eq_true'] at hrok
            rw [hrok] at ht
            simp at ht
          | obj ofs =>
            rw [Bool.not_eq_true'] at hrok
            rw [hrok] at ht
            simp at ht
      · rw [if_neg ht]
        exact ⟨_, rfl, h, rfl⟩
    · exact ⟨_, rfl, h, rfl⟩

theorem forall2_right_all {α β : Type} {q : β → Bool} {l : List α} {l2 : List β}
    (h : List.Forall₂ (fun _ b => q b = true) l l2) : l2.all q = true := by
  induction h with
  | nil => rfl
  | cons hab _ ih => simp [hab, ih]

theorem forall2_label_any {ms ms2 : List Json}
    (h : List.Forall₂ (fun m m2 => getField m2 "meal".data = getField m "meal".data) ms ms2)
    (mt : String) :
    ms2.any (fun m => mealLabelMatches m mt) = ms.any (fun m => mealLabelMatches m mt) := by
  induction h with
  | nil => rfl
  | @cons m m2 l1 l2 hab htail ih =>
    have hl : mealLabelMatches m2 mt = mealLabelMatches m mt := by
      simp only [mealLabelMatches, hab]
    simp [hl, ih]

theorem hasStandardDining_congr (x y : Json)
    (h : getField x "dining".data = getField y "dining".data) :
    hasStandardDining x = hasStandardDining y := by
  simp only [hasStandardDining, h]

/-- One period of the enhancement step never throws when the period value
is sane, leaves every other key unchanged, and keeps the period value
sane. -/
theorem enhancePeriod_pres (env : EnhanceEnv) (city : String)
    (fs : List (List Char × Json)) (key : String)
    (hp : periodValOk saneEntry (getField (Json.obj fs) key.data) = true) :
    ∃ fs2, enhancePeriod env city (Json.obj fs) key = Except.ok (Json.obj fs2) ∧
      (∀ k2, (key.data == k2) = false →
        getField (Json.obj fs2) k2 = getField (Json.obj fs) k2) ∧
      periodValOk saneEntry (getField (Json.obj fs2) key.data) = true := by
  simp only [enhancePeriod]
  split
  · rename_i v hv
    rw [hv] at hp
    cases v with
    | null =>
      rw [if_neg (by decide)]
      exact ⟨fs, rfl, fun _ _ => rfl, by rw [hv]; rfl⟩
    | str s =>
      simp only [periodValOk] at hp
      exact absurd hp (by decide)
    | num n =>
      simp only [periodValOk] at hp
      exact absurd hp (by decide)
    | bool b =>
      simp only [periodValOk] at hp
      exact absurd hp (by decide)
    | obj ofs =>
      simp only [periodValOk] at hp
      exact absurd hp (by decide)
    | arr acts =>
      rw [if_pos (show truthy (Json.arr acts) = true from rfl)]
      dsimp only
      have hall : acts.all saneEntry = true := hp
      obtain ⟨acts2, hmap, hF⟩ := mapE_forall2 (p := saneEntry)
        (R := fun _ b => saneEntry b = true) (enhanceActivity env city)
        (fun a ha => by
          obtain ⟨a2, he, hs, _⟩ := enhanceActivity_sane env city a ha
          exact ⟨a2, he, hs⟩) acts hall
      rw [hmap]
      obtain ⟨fs2, hset⟩ := setField_obj fs key.data (Json.arr acts2)
      refine ⟨fs2, by dsimp only; rw [hset], ?_, ?_⟩
      · intro k2 hk2
        rw [← hset]
        exact getField_setField_ne _ _ _ _ hk2
      · rw [← hset, getField_setField_self]
        exact forall2_right_all hF
  · rename_i hv
    exact ⟨fs, rfl, fun _ _ => rfl, hp⟩

theorem saneDay_intro (fs : List (List Char × Json))
    (h1 : periodValOk saneEntry (getField (Json.obj fs) "morning".data) = true)
    (h2 : periodValOk saneEntry (getField (Json.obj fs) "afternoon".data) = true)
    (h3 : periodValOk saneEntry (getField (Json.obj fs) "evening".data) = true)
    (h4 : periodValOk saneEntry (getField (Json.obj fs) "dining".data) = true)
    (h5 : inclValOk (getField (Json.obj fs) "weather".data) = true) :
    saneDay (Json.obj fs) = true := by
  simp only [saneDay, h1, h2, h3, h4, h5, Bool.and_self]

/-- One day of the enhancement step never throws on a sane day, returns a
sane day, and does not change whether the day has the standard three-meal
dining list. -/
theorem enhanceDay_sane (env : EnhanceEnv) (city : String) (d : Json)
    (h : saneDay d = true) :
    ∃ d2, enhanceDay env city d = Except.ok d2 ∧ saneDay d2 = true ∧
      hasStandardDining d2 = hasStandardDining d := by
  cases d with
  | null => exact absurd h (by decide)
  | str s => exact absurd h (by simp [saneDay])
  | num n => exact absurd h (by simp [saneDay])
  | bool b => exact absurd h (by simp [saneDay])
  | arr xs => exact absurd h (by simp [saneDay])
  | obj fs =>
    have h' : ((((periodValOk saneEntry (getField (Json.obj fs) "morning".data) &&
        periodValOk saneEntry (getField (Json.obj fs) "afternoon".data)) &&
        periodValOk saneEntry (getField (Json.obj fs) "evening".data)) &&
        periodValOk saneEntry (getField (Json.obj fs) "dining".data)) &&
        inclValOk (getField (Json.obj fs) "weather".data)) = true := h
    simp only [Bool.and_eq_true] at h'
    obtain ⟨⟨⟨⟨hm0, ha0⟩, he0⟩, hd0⟩, hw0⟩ := h'
    obtain ⟨fsM, hM, hMpres, hMper⟩ := enhancePeriod_pres env city fs "morning" hm0
    have ha1 : periodValOk saneEntry (getField (Json.obj fsM) "afternoon".data) = true := by
      rw [hMpres _ (by decide)]; exact ha0
    obtain ⟨fsA, hA, hApres, hAper⟩ := enhancePeriod_pres env city fsM "afternoon" ha1
    have he1 : periodValOk saneEntry (getField (Json.obj fsA) "evening".data) = true := by
      rw [hApres _ (by decide), hMpres _ (by decide)]; exact he0
    obtain ⟨fsE, hE, hEpres, hEper⟩ := enhancePeriod_pres env city fsA "evening" he1
    have hmE : periodValOk saneEntry (getField (Json.obj fsE) "morning".data) = true := by
      rw [hEpres _ (by decide), hApres _ (by decide)]; exact hMper
    have haE : periodValOk saneEntry (getField (Json.obj fsE) "afternoon".data) = true := by
      rw [hEpres _ (by decide)]; exact hAper
    have hdE : getField (Json.obj fsE) "dining".data = getField (Json.obj fs) "dining".data := by
      rw [hEpres _ (by decide), hApres _ (by decide), hMpres _ (by decide)]
    have hwE : getField (Json.obj fsE) "weather".data = getField (Json.obj fs) "weather".data := by
      rw [hEpres _ (by decide), hApres _ (by decide), hMpres _ (by decide)]
    have hdval : periodValOk saneEntry (getField (Json.obj fsE) "dining".data) = true := by
      rw [hdE]; exact hd0
    have hwval : inclValOk (getField (Json.obj fsE) "weather".data) = true := by
      rw [hwE]; exact hw0
    simp only [enhanceDay]
    rw [hM]
    dsimp only
    rw [hA]
    dsimp only
    rw [hE]
    dsimp only
    split
    · rename_i v hv
      have hdvalv : periodValOk saneEntry (some v) = true := by rw [← hv]; exact hdval
      cases v with
      | null =>
        rw [if_neg (by decide)]
        refine ⟨Json.obj fsE, rfl, saneDay_intro fsE hmE haE hEper hdval hwval, ?_⟩
        exact hasStandardDining_congr _ _ hdE
      | str s =>
        simp only [periodValOk] at hdvalv
        exact absurd hdvalv (by decide)
      | num n =>
        simp only [periodValOk] at hdvalv
        exact absurd hdvalv (by decide)
      | bool b =>
        simp only [periodValOk] at hdvalv
        exact absurd hdvalv (by decide)
      | obj ofs =>
        simp only [periodValOk] at hdvalv
        exact absurd hdvalv (by decide)
      | arr ms =>
        rw [if_pos (show truthy (Json.arr ms) = true from rfl)]
        dsimp only
        have hall : ms.all saneEntry = true := hdvalv
        obtain ⟨ms2, hmapE, hF⟩ := mapE_forall2 (p := saneEntry)
          (R := fun m m2 => saneEntry m2 = true ∧
            getField m2 "meal".data = getField m "meal".data)
          (enhanceMeal env city)
          (fun m hm => by
            obtain ⟨m2, he2, hs2, hml⟩ := enhanceMeal_sane env city m hm
            exact ⟨m2, he2, hs2, hml⟩) ms hall
        rw [hmapE]
        dsimp only
        obtain ⟨fsD, hsetD⟩ := setField_obj fsE "dining".data (Json.arr ms2)
        refine ⟨Json.obj fsD, by rw [hsetD], ?_, ?_⟩
        · refine saneDay_intro fsD ?_ ?_ ?_ ?_ ?_
          · rw [← hsetD, getField_setField_ne _ _ _ _ (by decide)]; exact hmE
          · rw [← hsetD, getField_setField_ne _ _ _ _ (by decide)]; exact haE
          · rw [← hsetD, getField_setField_ne _ _ _ _ (by decide)]; exact hEper
          · rw [← hsetD, getField_setField_self]
            exact forall2_right_all (hF.imp (fun _ _ hx => hx.1))
          · rw [← hsetD, getField_setField_ne _ _ _ _ (by decide)]; exact hwval
        · have hL : getField (Json.obj fsD) "dining".data = some (Json.arr ms2) := by
            rw [← hsetD]; exact getField_setField_self fsE _ _
          have hR : getField (Json.obj fs) "dining".data = some (Json.arr ms) := by
            rw [← hdE, hv]
          simp only [hasStandardDining, hL, hR]
          have hlen : ms.length = ms2.length := hF.length_eq
          have hany : ∀ mt : String, (ms2.any fun m => mealLabelMatches m mt) =
              (ms.any fun m => mealLabelMatches m mt) :=
            fun mt => forall2_label_any (hF.imp (fun _ _ hx => hx.2)) mt
          rw [← hlen]
          have hfun : (fun mt => ms2.any fun m => mealLabelMatches m mt) =
              (fun mt => ms.any fun m => mealLabelMatches m mt) := funext hany
          rw [hfun]
    · rename_i hv
      refine ⟨Json.obj fsE, rfl, saneDay_intro fsE hmE haE hEper hdval hwval, ?_⟩
      exact hasStandardDining_congr _ _ hdE

/-- The whole Google-Places enhancement on a document whose `days` list
is an array of sane days: it never throws, and returns the document with
`days` replaced by an equally long list of sane days whose standard-dining
status is unchanged day by day. -/
theorem enhanceWithRealPlaces_sane (env : EnhanceEnv) (city : String)
    (it : Json) (ds : List Json)
    (hdays : getField it "days".data = some (Json.arr ds))
    (hsane : ds.all saneDay = true) :
    ∃ ds2, enhanceWithRealPlaces env city it =
        Except.ok (setField it "days".data (Json.arr ds2)) ∧
      ds2.all saneDay = true ∧
      List.Forall₂ (fun d d2 => hasStandardDining d2 = hasStandardDining d) ds ds2 := by
  obtain ⟨ds2, hmapE, hF⟩ := mapE_forall2 (p := saneDay)
    (R := fun d d2 => saneDay d2 = true ∧ hasStandardDining d2 = hasStandardDining d)
    (enhanceDay env city)
    (fun d hd => by
      obtain ⟨d2, he2, hs2, hsd⟩ := enhanceDay_sane env city d hd
      exact ⟨d2, he2, hs2, hsd⟩) ds hsane
  refine ⟨ds2, ?_, forall2_right_all (hF.imp (fun _ _ hx => hx.1)),
    hF.imp (fun _ _ hx => hx.2)⟩
  simp only [enhanceWithRealPlaces]
  rw [hdays]
  dsimp only
  rw [if_neg (by simp [truthy])]
  rw [hmapE]

theorem saneEntry_not_null (a : Json) (h : saneEntry a = true) : isNull a = false := by
  have h' : (((!isNull a && locValOk (getField a "location".data)) &&
      restValOk (getField a "restaurant".data)) &&
      inclValOk (getField a "estimatedCost".data)) = true := h
  simp only [Bool.and_eq_true] at h'
  have := h'.1.1.1
  rw [Bool.not_eq_true'] at this
  exact this

theorem forEachItems_ok {p : Json → Bool} (v : Option Json)
    (h : periodValOk p v = true) :
    ∃ xs, forEachItems v = Except.ok xs ∧ xs.all p = true := by
  match v with
  | none => exact ⟨[], rfl, rfl⟩
  | some Json.null => exact ⟨[], rfl, rfl⟩
  | some (Json.arr xs) => exact ⟨xs, rfl, h⟩
  | some (Json.str s) => exact absurd h (by simp [periodValOk])
  | some (Json.num n) => exact absurd h (by simp [periodValOk])
  | some (Json.bool b) => exact absurd h (by simp [periodValOk])
  | some (Json.obj fs) => exact absurd h (by simp [periodValOk])

theorem rtdActivity_ok (a : Json) (h : saneEntry a = true) :
    rtdActivity a = Except.ok () := by
  cases a with
  | null => exact absurd h (by decide)
  | str s => rfl
  | num n => rfl
  | bool b => rfl
  | arr xs => rfl
  | obj fs =>
    have h' : (((!isNull (Json.obj fs) && locValOk (getField (Json.obj fs) "location".data)) &&
        restValOk (getField (Json.obj fs) "restaurant".data)) &&
        inclValOk (getField (Json.obj fs) "estimatedCost".data)) = true := h
    simp only [Bool.and_eq_true] at h'
    have hincl := h'.2
    simp only [rtdActivity]
    split
    · rename_i ec hec
      rw [hec] at hincl
      by_cases ht : truthy ec = true
      · rw [if_pos ht]
        have hinc : hasIncludes ec = true := by
          cases hb : hasIncludes ec
          · simp only [inclValOk] at hincl
            rw [hb] at hincl
            simp at hincl
            rw [hincl] at ht
            simp at ht
          · rfl
        rw [if_pos hinc]
      · rw [if_neg ht]
    · rfl

theorem rtdPeriod_ok (fs : List (List Char × Json)) (key : String)
    (hp : periodValOk saneEntry (getField (Json.obj fs) key.data) = true) :
    rtdPeriod (Json.obj fs) key = Except.ok () := by
  obtain ⟨xs, hfe, hall⟩ := forEachItems_ok _ hp
  obtain ⟨l2, hm2, -⟩ := mapE_forall2 (p := saneEntry) (R := fun _ _ => True)
    rtdActivity (fun a ha => ⟨(), rtdActivity_ok a ha, trivial⟩) xs hall
  simp only [rtdPeriod]
  rw [hfe]
  dsimp only
  rw [hm2]

theorem rtdDay_ok (d : Json) (h : saneDay d = true) : rtdDay d = Except.ok () := by
  cases d with
  | null => exact absurd h (by decide)
  | str s => rfl
  | num n => rfl
  | bool b => rfl
  | arr xs => rfl
  | obj fs =>
    have h' : ((((periodValOk saneEntry (getField (Json.obj fs) "morning".data) &&
        periodValOk saneEntry (getField (Json.obj fs) "afternoon".data)) &&
        periodValOk saneEntry (getField (Json.obj fs) "evening".data)) &&
        periodValOk saneEntry (getField (Json.obj fs) "dining".data)) &&
        inclValOk (getField (Json.obj fs) "weather".data)) = true := h
    simp only [Bool.and_eq_true] at h'
    obtain ⟨⟨⟨⟨hm0, ha0⟩, he0⟩, hd0⟩, hw0⟩ := h'
    have hchain : (match rtdPeriod (Json.obj fs) "morning" with
        | Except.error e => Except.error e
        | Except.ok _ =>
          match rtdPeriod (Json.obj fs) "afternoon" with
          | Except.error e => Except.error e
          | Except.ok _ => rtdPeriod (Json.obj fs) "evening") = Except.ok () := by
      rw [rtdPeriod_ok fs "morning" hm0]
      dsimp only
      rw [rtdPeriod_ok fs "afternoon" ha0]
      dsimp only
      exact rtdPeriod_ok fs "evening" he0
    simp only [rtdDay]
    split
    · rename_i w hw
      rw [hw] at hw0
      have hcond : (truthy w && !hasIncludes w) = false := by
        cases hb : hasIncludes w
        · simp only [inclValOk] at hw0
          rw [hb] at hw0
          simp at hw0
          simp [hw0]
        · simp [hb]
      rw [if_neg (by rw [hcond]; simp)]
      by_cases hg : (((getField (Json.obj fs) "morning".data).map truthy).getD false ||
          ((getField (Json.obj fs) "afternoon".data).map truthy).getD false ||
          ((getField (Json.obj fs) "evening".data).map truthy).getD false) = true
      · rw [if_pos hg]
        exact hchain
      · rw [if_neg hg]
    · by_cases hg : (((getField (Json.obj fs) "morning".data).map truthy).getD false ||
          ((getField (Json.obj fs) "afternoon".data).map truthy).getD false ||
          ((getField (Json.obj fs) "evening".data).map truthy).getD false) = true
      · rw [if_pos hg]
        exact hchain
      · rw [if_neg hg]

theorem validateRealTimeDataCheck_ok (it : Json) (ds : List Json)
    (hdays : getField it "days".data = some (Json.arr ds))
    (hsane : ds.all saneDay = true) :
    validateRealTimeDataCheck it = Except.ok () := by
  obtain ⟨l2, hm2, -⟩ := mapE_forall2 (p := saneDay) (R := fun _ _ => True)
    rtdDay (fun d hd => ⟨(), rtdDay_ok d hd, trivial⟩) ds hsane
  simp only [validateRealTimeDataCheck]
  rw [hdays]
  dsimp only [forEachItems]
  rw [hm2]

theorem crpEntry_ok (a : Json) (h : isNull a = false) : crpEntry a = Except.ok () := by
  cases a with
  | null => simp [isNull] at h
  | str s => rfl
  | num n => rfl
  | bool b => rfl
  | arr xs => rfl
  | obj fs => rfl

theorem crpPeriodStep (fs : List (List Char × Json)) (key : String)
    (hp : periodValOk saneEntry (getField (Json.obj fs) key.data) = true) :
    ∃ xs ys, forEachItems (getField (Json.obj fs) key.data) = Except.ok xs ∧
      mapE crpEntry xs = Except.ok ys := by
  obtain ⟨xs, hfe, hall⟩ := forEachItems_ok _ hp
  obtain ⟨ys, hm, -⟩ := mapE_forall2 (p := saneEntry) (R := fun _ _ => True)
    crpEntry (fun a ha => ⟨(), crpEntry_ok a (saneEntry_not_null a ha), trivial⟩) xs hall
  exact ⟨xs, ys, hfe, hm⟩

theorem crpDay_ok (d : Json) (h : saneDay d = true) : crpDay d = Except.ok () := by
  cases d with
  | null => exact absurd h (by decide)
  | str s => rfl
  | num n => rfl
  | bool b => rfl
  | arr xs => rfl
  | obj fs =>
    have h' : ((((periodValOk saneEntry (getField (Json.obj fs) "morning".data) &&
        periodValOk saneEntry (getField (Json.obj fs) "afternoon".data)) &&
        periodValOk saneEntry (getField (Json.obj fs) "evening".data)) &&
        periodValOk saneEntry (getField (Json.obj fs) "dining".data)) &&
        inclValOk (getField (Json.obj fs) "weather".data)) = true := h
    simp only [Bool.and_eq_true] at h'
    obtain ⟨⟨⟨⟨hm0, ha0⟩, he0⟩, hd0⟩, hw0⟩ := h'
    obtain ⟨x1, y1, hf1, hm1⟩ := crpPeriodStep fs "morning" hm0
    obtain ⟨x2, y2, hf2, hm2⟩ := crpPeriodStep fs "afternoon" ha0
    obtain ⟨x3, y3, hf3, hm3⟩ := crpPeriodStep fs "evening" he0
    obtain ⟨x4, y4, hf4, hm4⟩ := crpPeriodStep fs "dining" hd0
    simp only [crpDay]
    rw [hf1]
    dsimp only
    rw [hm1]
    dsimp only
    rw [hf2]
    dsimp only
    rw [hm2]
    dsimp only
    rw [hf3]
    dsimp only
    rw [hm3]
    dsimp only
    rw [hf4]
    dsimp only
    rw [hm4]

theorem countRealPlacesCheck_ok (it : Json) (ds : List Json)
    (hdays : getField it "days".data = some (Json.arr ds))
    (hsane : ds.all saneDay = true) :
    countRealPlacesCheck it = Except.ok () := by
  obtain ⟨l2, hm2, -⟩ := mapE_forall2 (p := saneDay) (R := fun _ _ => True)
    crpDay (fun d hd => ⟨(), crpDay_ok d hd, trivial⟩) ds hsane
  simp only [countRealPlacesCheck]
  rw [hdays]
  dsimp only
  rw [if_neg (by simp [truthy])]
  rw [hm2]

theorem entryLocName_ok (a : Json) (h : isNull a = false) :
    ∃ r, entryLocName a = Except.ok r := by
  cases a with
  | null => simp [isNull] at h
  | str s => exact ⟨_, rfl⟩
  | num n => exact ⟨_, rfl⟩
  | bool b => exact ⟨_, rfl⟩
  | arr xs => exact ⟨_, rfl⟩
  | obj fs =>
    simp only [entryLocName]
    split
    · split
      · exact ⟨_, rfl⟩
      · exact ⟨_, rfl⟩
    · exact ⟨_, rfl⟩

theorem collectNames_ok (l : List Json) (h : ∀ a ∈ l, isNull a = false) :
    ∀ acc, ∃ acc2, collectNames acc l = Except.ok acc2 := by
  induction l with
  | nil => exact fun acc => ⟨acc, rfl⟩
  | cons a rest ih =>
    intro acc
    obtain ⟨r, hr⟩ := entryLocName_ok a (h a (by simp))
    have ih2 := ih (fun x hx => h x (by simp [hx]))
    simp only [collectNames]
    rw [hr]
    cases r with
    | none => exact ih2 acc
    | some nm => exact ih2 (addName acc nm)

theorem extractFromDay_ok (d : Json) (h : saneDay d = true) :
    ∀ acc, ∃ acc2, extractFromDay acc d = Except.ok acc2 := by
  cases d with
  | null => exact absurd h (by decide)
  | str s => exact fun acc => ⟨acc, rfl⟩
  | num n => exact fun acc => ⟨acc, rfl⟩
  | bool b => exact fun acc => ⟨acc, rfl⟩
  | arr xs => exact fun acc => ⟨acc, rfl⟩
  | obj fs =>
    have h' : ((((periodValOk saneEntry (getField (Json.obj fs) "morning".data) &&
        periodValOk saneEntry (getField (Json.obj fs) "afternoon".data)) &&
        periodValOk saneEntry (getField (Json.obj fs) "evening".data)) &&
        periodValOk saneEntry (getField (Json.obj fs) "dining".data)) &&
        inclValOk (getField (Json.obj fs) "weather".data)) = true := h
    simp only [Bool.and_eq_true] at h'
    obtain ⟨⟨⟨⟨hm0, ha0⟩, he0⟩, hd0⟩, hw0⟩ := h'
    obtain ⟨x1, hf1, hall1⟩ := forEachItems_ok _ hm0
    obtain ⟨x2, hf2, hall2⟩ := forEachItems_ok _ ha0
    obtain ⟨x3, hf3, hall3⟩ := forEachItems_ok _ he0
    obtain ⟨x4, hf4, hall4⟩ := forEachItems_ok _ hd0
    have hnn : ∀ (xs : List Json), xs.all saneEntry = true → ∀ a ∈ xs, isNull a = false :=
      fun xs hxs a ha => saneEntry_not_null a (List.all_eq_true.mp hxs a ha)
    intro acc
    obtain ⟨acc1, hc1⟩ := collectNames_ok x1 (hnn x1 hall1) acc
    obtain ⟨acc2, hc2⟩ := collectNames_ok x2 (hnn x2 hall2) acc1
    obtain ⟨acc3, hc3⟩ := collectNames_ok x3 (hnn x3 hall3) acc2
    obtain ⟨acc4, hc4⟩ := collectNames_ok x4 (hnn x4 hall4) acc3
    refine ⟨acc4, ?_⟩
    simp only [extractFromDay]
    rw [hf1]
    dsimp only
    rw [hc1]
    dsimp only
    rw [hf2]
    dsimp only
    rw [hc2]
    dsimp only
    rw [hf3]
    dsimp only
    rw [hc3]
    dsimp only
    rw [hf4]
    dsimp only
    rw [hc4]

theorem extractDays_ok (l : List Json) (h : l.all saneDay = true) :
    ∀ acc, ∃ acc2, extractDays acc l = Except.ok acc2 := by
  induction l with
  | nil => exact fun acc => ⟨acc, rfl⟩
  | cons d rest ih =>
    intro acc
    have hd : saneDay d = true := List.all_eq_true.mp h d (by simp)
    have hrest : rest.all saneDay = true := by
      rw [List.all_eq_true]
      exact fun x hx => List.all_eq_true.mp h x (by simp [hx])
    obtain ⟨acc1, hc1⟩ := extractFromDay_ok d hd acc
    obtain ⟨acc2, hc2⟩ := ih hrest acc1
    refine ⟨acc2, ?_⟩
    simp only [extractDays]
    rw [hc1]
    dsimp only
    exact hc2

theorem extractLocationNames_ok (it : Json) (city : List Char) (ds : List Json)
    (hdays : getField it "days".data = some (Json.arr ds))
    (hsane : ds.all saneDay = true) :
    ∃ names, extractLocationNames it city = Except.ok names := by
  obtain ⟨acc2, hc2⟩ := extractDays_ok ds hsane [Json.str city]
  refine ⟨acc2.take 20, ?_⟩
  simp only [extractLocationNames]
  rw [hdays]
  dsimp only
  rw [hc2]

theorem locNameOk_placeJson (p : PlaceInfo) : locNameOk (placeJson p) = true := by
  have hname : getField (placeJson p) "name".data = some (jstr p.name) := by
    simp only [placeJson]
    cases p.cuisine with
    | none =>
      cases p.speciality with
      | none => rfl
      | some sp => rfl
    | some cu =>
      cases p.speciality with
      | none => rfl
      | some sp => rfl
  have hobj : ∃ fs, placeJson p = Json.obj fs := by
    simp only [placeJson]
    exact ⟨_, rfl⟩
  obtain ⟨fs, hfs⟩ := hobj
  rw [hfs] at hname ⊢
  simp only [locNameOk, hname, jstr]

theorem saneEntry_fallbackActivity (t a : String) (q : PlaceInfo) (de co du : String) :
    saneEntry (fallbackActivity t a q de co du) = true := by
  have hl : getField (fallbackActivity t a q de co du) "location".data =
      some (placeJson q) := rfl
  have hr : getField (fallbackActivity t a q de co du) "restaurant".data = none := rfl
  have hc : getField (fallbackActivity t a q de co du) "estimatedCost".data =
      some (jstr co) := rfl
  have hn : isNull (fallbackActivity t a q de co du) = false := rfl
  simp only [saneEntry, hl, hr, hc, hn, locValOk, restValOk, inclValOk,
    locNameOk_placeJson, jstr, hasIncludes]
  simp

theorem saneEntry_fallbackMeal (meal : String) (q : PlaceInfo)
    (c1 pr sp r am cn : String) :
    saneEntry (fallbackMeal meal q c1 pr sp r am cn) = true := by
  have hl : getField (fallbackMeal meal q c1 pr sp r am cn) "location".data =
      some (placeJson q) := rfl
  have hr : getField (fallbackMeal meal q c1 pr sp r am cn) "restaurant".data =
      some (jstr q.name) := rfl
  have hc : getField (fallbackMeal meal q c1 pr sp r am cn) "estimatedCost".data =
      none := rfl
  have hn : isNull (fallbackMeal meal q c1 pr sp r am cn) = false := rfl
  simp only [saneEntry, hl, hr, hc, hn, locValOk, restValOk, inclValOk,
    locNameOk_placeJson, jstr]
  simp

theorem saneDay_fallbackDay (city : String) (d : Nat) (p : DayPlaces) :
    saneDay (fallbackDay city d p) = true := by
  have hm : ∃ a de, getField (fallbackDay city d p) "morning".data =
      some (Json.arr [fallbackActivity "9:00 AM" a p.morning de "₹200-500" "2-3 hours"]) :=
    ⟨_, _, rfl⟩
  have ha : ∃ a de, getField (fallbackDay city d p) "afternoon".data =
      some (Json.arr [fallbackActivity "2:00 PM" a p.afternoon de "₹300-800" "3-4 hours"]) :=
    ⟨_, _, rfl⟩
  have he : ∃ a de, getField (fallbackDay city d p) "evening".data =
      some (Json.arr [fallbackActivity "7:00 PM" a p.evening de "₹400-1000" "2-3 hours"]) :=
    ⟨_, _, rfl⟩
  have hd : ∃ c1 c2 c3, getField (fallbackDay city d p) "dining".data =
      some (Json.arr [fallbackMeal "Breakfast" p.breakfast "Local Cuisine" "₹200-400"
          "Traditional breakfast items" "4.0/5" "Casual and welcoming" c1,
        fallbackMeal "Lunch" p.lunch "Regional Specialties" "₹400-800"
          "Local lunch specialties" "4.2/5" "Family-friendly" c2,
        fallbackMeal "Dinner" p.dinner "Fine Dining" "₹800-1500"
          "Evening specialties and local delicacies" "4.3/5" "Elegant and sophisticated" c3]) :=
    ⟨_, _, _, rfl⟩
  have hw : getField (fallbackDay city d p) "weather".data =
      some (jstr "Please check current weather conditions") := rfl
  obtain ⟨a1, d1, hm⟩ := hm
  obtain ⟨a2, d2, ha⟩ := ha
  obtain ⟨a3, d3, he⟩ := he
  obtain ⟨c1, c2, c3, hd⟩ := hd
  have hobj : ∃ fs, fallbackDay city d p = Json.obj fs := ⟨_, rfl⟩
  obtain ⟨fs, hfs⟩ := hobj
  rw [hfs] at hm ha he hd hw ⊢
  simp only [saneDay, hm, ha, he, hd, hw, periodValOk, List.all_cons, List.all_nil,
    saneEntry_fallbackActivity, saneEntry_fallbackMeal, inclValOk, jstr, hasIncludes]
  simp

theorem hasStandardDining_fallbackDay (city : String) (d : Nat) (p : DayPlaces) :
    hasStandardDining (fallbackDay city d p) = true := rfl

/-- The `days` list of the deterministic fallback generator. -/
theorem gen_days (city : String) (n : Nat) (budget : String) (cfg : Option CityConfig) :
    getField (generateEnhancedFallbackItinerary city n budget cfg) "days".data =
      some (Json.arr ((List.range n).map
        (fun i => fallbackDay city (i + 1) (getDaySpecificPlaces city (i + 1))))) := rfl

theorem fallback_days_sane (city : String) (n : Nat) :
    ((List.range n).map
      (fun i => fallbackDay city (i + 1) (getDaySpecificPlaces city (i + 1)))).all
        saneDay = true := by
  rw [List.all_eq_true]
  intro d hd
  rw [List.mem_map] at hd
  obtain ⟨i, -, rfl⟩ := hd
  exact saneDay_fallbackDay city (i + 1) (getDaySpecificPlaces city (i + 1))

theorem fallback_days_dining (city : String) (n : Nat) :
    ((List.range n).map
      (fun i => fallbackDay city (i + 1) (getDaySpecificPlaces city (i + 1)))).all
        hasStandardDining = true := by
  rw [List.all_eq_true]
  intro d hd
  rw [List.mem_map] at hd
  obtain ⟨i, -, rfl⟩ := hd
  exact hasStandardDining_fallbackDay city (i + 1) (getDaySpecificPlaces city (i + 1))

/-- The `days` list of the AI-failure fallback (metadata-annotated). -/
theorem fbMeta_days (city : String) (n : Nat) (budget : String) (cfg : Option CityConfig) :
    getField (fallbackWithMeta city n budget cfg) "days".data =
      some (Json.arr ((List.range n).map
        (fun i => fallbackDay city (i + 1) (getDaySpecificPlaces city (i + 1))))) := rfl

/-- `validateAndEnhanceItinerary` is the identity on the AI-failure
fallback document: every generated day already has a 3-entry dining
list, so no repair fires. -/
theorem validate_fbMeta (city : String) (n : Nat) (budget : String)
    (cfg : Option CityConfig) :
    validateAndEnhanceItinerary (fallbackWithMeta city n budget cfg) city n budget cfg =
      Except.ok (fallbackWithMeta city n budget cfg) := by
  have hstep : validateAndEnhanceItinerary (fallbackWithMeta city n budget cfg)
      city n budget cfg =
      (match mapE (repairDay city) ((List.range n).map
          (fun i => fallbackDay city (i + 1) (getDaySpecificPlaces city (i + 1)))) with
       | Except.error e => Except.error e
       | Except.ok ds2 => Except.ok (setField (fallbackWithMeta city n budget cfg)
           "days".data (Json.arr ds2))) := rfl
  have hmap : mapE (repairDay city) ((List.range n).map
      (fun i => fallbackDay city (i + 1) (getDaySpecificPlaces city (i + 1)))) =
      Except.ok ((List.range n).map
        (fun i => fallbackDay city (i + 1) (getDaySpecificPlaces city (i + 1)))) := by
    refine mapE_ok_id _ _ ?_
    intro a ha
    rw [List.mem_map] at ha
    obtain ⟨i, -, rfl⟩ := ha
    rfl
  rw [hstep, hmap]
  rfl

theorem dayEntries_of_getField (it : Json) (ds : List Json)
    (h : getField it "days".data = some (Json.arr ds)) : dayEntries it = ds := by
  unfold dayEntries
  rw [h]

theorem forall2_all_transfer {f : Json → Bool} :
    ∀ {ds ds2 : List Json}, List.Forall₂ (fun d d2 => f d2 = f d) ds ds2 →
      ds.all f = true → ds2.all f = true := by
  intro ds ds2 h
  induction h with
  | nil => intro hx; exact hx
  | @cons a b l1 l2 hab htail ih =>
    intro hall
    simp only [List.all_cons, Bool.and_eq_true] at hall ⊢
    exact ⟨hab ▸ hall.1, ih hall.2⟩

/-- The AI upstream call failing as an upstream call can fail: the
orchestrated promise rejects (timeout on every retry attempt,
breaker-open rejection, transport error), or it resolves to a non-`ok`
HTTP response (the HTTP-500 scenario), or the response body does not
parse (`response.json()` rejects), or the parsed body lacks the
`choices[0].message.content` shape, or the content holds no repairable
JSON span. -/
def aiUpstreamFailure (env : Env) : Prop :=
  (∃ e, (Orchestration.perplexityCall (A := AiResponse) env.aiRaces env.aiTimes
      env.perplexityBreaker).result = Except.error e) ∨
  (∃ resp, (Orchestration.perplexityCall (A := AiResponse) env.aiRaces env.aiTimes
      env.perplexityBreaker).result = Except.ok resp ∧
    (resp.ok = false ∨ resp.jsonBody = none ∨
      (∃ body, resp.jsonBody = some body ∧ (aiContent body = none ∨
        (∃ content, aiContent body = some content ∧ repairParse content = none)))))

/-- Every upstream-failure mode lands in the handler AI catch clause: the
itinerary entering the pipeline is the metadata-annotated deterministic
fallback. -/
theorem aiItinerary_fallback (req : Req) (env : Env) (cfg : Option CityConfig)
    (days : Nat) (h : aiUpstreamFailure env) :
    aiItinerary req env cfg days = fallbackWithMeta req.city days req.budget cfg := by
  unfold aiUpstreamFailure at h
  simp only [aiItinerary]
  rcases h with ⟨e, he⟩ | ⟨resp, hr, hcase⟩
  · rw [he]
  · rw [hr]
    dsimp only
    rcases hcase with hok | hjson | ⟨body, hbody, hcont⟩
    · rw [hok]
      rfl
    · cases hro : resp.ok
      · rfl
      · rw [hjson]
        rfl
    · cases hro : resp.ok
      · rfl
      · rw [hbody]
        dsimp only
        rcases hcont with hnone | ⟨content, hcs, hrp⟩
        · rw [hnone]
          rfl
        · rw [hcs]
          dsimp only
          rw [hrp]
          rfl

/-- An environment with only its image-layer fields (the Pexels call
environments and the two image deadlines) replaced; everything the AI
phase, validation and enhancement read is untouched. -/
def imgEnv (env : Env) (pc : String → String → Pexels.CallEnv) (it ot : Bool) : Env :=
  { env with pexelsCalls := pc, imagesTimedOut := it, outerImageTimerFirst := ot }

/-- The status and the returned document of `POST` are a function of the
request and the non-image environment alone: no image-layer outcome can
turn a success into an HTTP error (or change the document). -/
theorem POST_image_pair (req : Req) (env : Env)
    (pc : String → String → Pexels.CallEnv) (it ot : Bool) :
    ((POST req (imgEnv env pc it ot)).status,
      ((POST req (imgEnv env pc it ot)).body).map ItinResponse.itinerary) =
    ((POST req env).status, ((POST req env).body).map ItinResponse.itinerary) := by
  have hkey : (imgEnv env pc it ot).perplexityKey = env.perplexityKey := rfl
  have henh : (imgEnv env pc it ot).enhance = env.enhance := rfl
  have hAI : aiItinerary req (imgEnv env pc it ot) (cityConfigFor req.city)
      req.days.toNat = aiItinerary req env (cityConfigFor req.city) req.days.toNat := rfl
  simp only [POST, hkey, henh, hAI]
  split
  · rfl
  split
  · rfl
  split
  · split
    · rfl
    · rfl
  · split
    · rfl
    split
    · rfl
    split
    · rfl
    split
    · rfl
    split
    · rfl
    rfl

/-- C4: for every valid request, no upstream-call failure surfaces as an
HTTP error.  (1) When the AI upstream call fails in any of its failure
modes — orchestrated rejection (timeout on every retry attempt,
breaker-open, transport error), non-`ok` HTTP status such as the
three-times-500 scenario, unparseable body, missing
`choices[0].message.content` structure, or content with no repairable
JSON — the endpoint still responds HTTP 200, and the returned document is
the complete deterministic fallback itinerary: exactly `days` day
entries, each carrying the standard three-meal dining list.
(2) Image-layer failures never surface either, also under AI success:
replacing the entire image environment (Pexels credentials, breaker
states, race outcomes, both image deadlines) changes neither the HTTP
status nor the returned document. -/
theorem upstreamFailure_no_httpError (req : Req) (env : Env)
    (hc : req.city.isEmpty = false) (hb : req.budget.isEmpty = false)
    (h1 : 1 ≤ req.days) (h14 : req.days ≤ 14) :
    (aiUpstreamFailure env →
      (POST req env).status = 200 ∧
      ∃ b, (POST req env).body = some b ∧
        (dayEntries b.itinerary).length = req.days.toNat ∧
        (dayEntries b.itinerary).all hasStandardDining = true) ∧
    (∀ (pc : String → String → Pexels.CallEnv) (it ot : Bool),
      (POST req (imgEnv env pc it ot)).status = (POST req env).status ∧
      ((POST req (imgEnv env pc it ot)).body).map ItinResponse.itinerary =
        ((POST req env).body).map ItinResponse.itinerary) := by
  constructor
  · intro hfail
    have hz : (req.days == 0) = false := beq_eq_false_iff_ne.mpr (by omega)
    simp only [POST]
    rw [if_neg (by simp [hc, hb, hz])]
    rw [if_neg (by
      simp only [Bool.or_eq_true, decide_eq_true_eq]
      omega)]
    cases hk : env.perplexityKey with
    | none =>
      obtain ⟨names, hnames⟩ := extractLocationNames_ok
        (generateEnhancedFallbackItinerary req.city req.days.toNat req.budget
          (cityConfigFor req.city)) req.city.data _
        (gen_days req.city req.days.toNat req.budget (cityConfigFor req.city))
        (fallback_days_sane req.city req.days.toNat)
      rw [hnames]
      dsimp only
      refine ⟨rfl, _, rfl, ?_, ?_⟩
      · rw [dayEntries_of_getField _ _
          (gen_days req.city req.days.toNat req.budget (cityConfigFor req.city))]
        simp
      · rw [dayEntries_of_getField _ _
          (gen_days req.city req.days.toNat req.budget (cityConfigFor req.city))]
        exact fallback_days_dining req.city req.days.toNat
    | some k =>
      have hit0 : aiItinerary req env (cityConfigFor req.city) req.days.toNat =
          fallbackWithMeta req.city req.days.toNat req.budget (cityConfigFor req.city) :=
        aiItinerary_fallback req env (cityConfigFor req.city) req.days.toNat hfail
      rw [hit0, validate_fbMeta]
      dsimp only
      obtain ⟨ds2, henh, hsane2, hF⟩ := enhanceWithRealPlaces_sane env.enhance req.city
        (fallbackWithMeta req.city req.days.toNat req.budget (cityConfigFor req.city)) _
        (fbMeta_days req.city req.days.toNat req.budget (cityConfigFor req.city))
        (fallback_days_sane req.city req.days.toNat)
      rw [henh]
      dsimp only
      have hobj : ∃ fs, fallbackWithMeta req.city req.days.toNat req.budget
          (cityConfigFor req.city) = Json.obj fs := ⟨_, rfl⟩
      obtain ⟨fsx, hfsx⟩ := hobj
      have hdays2 : getField (setField (fallbackWithMeta req.city req.days.toNat req.budget
          (cityConfigFor req.city)) "days".data (Json.arr ds2)) "days".data =
          some (Json.arr ds2) := by
        rw [hfsx]
        exact getField_setField_self _ _ _
      rw [validateRealTimeDataCheck_ok _ ds2 hdays2 hsane2]
      dsimp only
      obtain ⟨names, hnames⟩ := extractLocationNames_ok _ req.city.data ds2 hdays2 hsane2
      rw [hnames]
      dsimp only
      rw [countRealPlacesCheck_ok _ ds2 hdays2 hsane2]
      dsimp only
      refine ⟨rfl, _, rfl, ?_, ?_⟩
      · rw [dayEntries_of_getField _ _ hdays2]
        have hlen := hF.length_eq
        simp only [List.length_map, List.length_range] at hlen
        omega
      · rw [dayEntries_of_getField _ _ hdays2]
        exact forall2_all_transfer hF (fallback_days_dining req.city req.days.toNat)
  · intro pc it ot
    have hp := POST_image_pair req env pc it ot
    exact ⟨congrArg Prod.fst hp, congrArg Prod.snd hp⟩

/-- A concrete valid request for exercising `upstreamFailure_no_httpError`. -/
def reqW : Req := ⟨"Lisbon", "900", 2, []⟩

/-- A concrete environment in which every AI attempt times out, no Pexels
or Google credential is configured, and no image deadline fires. -/
def envW : Env where
  perplexityKey := some "k"
  aiRaces := fun _ => Timeout.RaceResult.timerFirst
  aiTimes := fun _ => 0
  perplexityBreaker := Orchestration.circuitBreakers_perplexity
  enhance := ⟨none, fun _ _ => [], fun _ => none⟩
  pexelsCalls := fun _ _ =>
    ⟨none, Orchestration.circuitBreakers_pexels, 0, Timeout.RaceResult.timerFirst, 0⟩
  imagesTimedOut := false
  outerImageTimerFirst := false

/-- A totally failing image layer: no Pexels key anywhere, every race lost
to its timer, both image deadlines firing. -/
def pexelsFailW : String → String → Pexels.CallEnv := fun _ _ =>
  ⟨none, Orchestration.circuitBreakers_pexels, 0, Timeout.RaceResult.timerFirst, 0⟩

theorem upstreamFailure_no_httpError_witness :
    ((POST reqW envW).status = 200 ∧
      ∃ b, (POST reqW envW).body = some b ∧
        (dayEntries b.itinerary).length = reqW.days.toNat ∧
        (dayEntries b.itinerary).all hasStandardDining = true) ∧
    ((POST reqW (imgEnv envW pexelsFailW true true)).status = (POST reqW envW).status ∧
      ((POST reqW (imgEnv envW pexelsFailW true true)).body).map ItinResponse.itinerary =
        ((POST reqW envW).body).map ItinResponse.itinerary) :=
  ⟨(upstreamFailure_no_httpError reqW envW rfl rfl (by decide) (by decide)).1
      (Or.inl ⟨some (Timeout.JsError.timeoutError "perplexity-api" 15000), rfl⟩),
   (upstreamFailure_no_httpError reqW envW rfl rfl (by decide) (by decide)).2
      pexelsFailW true true⟩

theorem mealLabelMatches_defaultMeal (mt city : String) :
    mealLabelMatches (defaultMeal mt city) mt = true := by
  have h : getField (defaultMeal mt city) "meal".data = some (Json.str mt.data) := rfl
  simp [mealLabelMatches, h]

/-- C3 (amended): what the code actually guarantees about day counts and
meals.  (1) The deterministic fallback document has exactly `days` day
entries, each with the standard three-meal dining list.  (2) The meal
repair, when it fires, produces exactly Breakfast, Lunch and Dinner,
reusing a matching existing entry and synthesizing the rest.  (3) But the
repair fires only on a day whose dining list has fewer than 3 entries: an
AI-provided dining list of length 3 or more is kept verbatim, whatever its
labels, and the AI-provided day count is never reconciled with the
requested `days`. -/
theorem mealsInvariant_amended :
    (∀ (city : String) (n : Nat) (budget : String) (cfg : Option CityConfig),
      (dayEntries (generateEnhancedFallbackItinerary city n budget cfg)).length = n ∧
      (dayEntries (generateEnhancedFallbackItinerary city n budget cfg)).all
        hasStandardDining = true) ∧
    (∀ (city : String) (ms : List Json), ms.any isNull = false →
      ∃ ms2, ensureAllMeals ms city = Except.ok ms2 ∧ ms2.length = 3 ∧
        ∀ mt ∈ requiredMeals, ms2.any (fun m => mealLabelMatches m mt) = true) ∧
    (∀ (city : String) (fs : List (List Char × Json)) (ms : List Json),
      getField (Json.obj fs) "dining".data = some (Json.arr ms) → 3 ≤ ms.length →
      repairDay city (Json.obj fs) = Except.ok (Json.obj fs)) := by
  refine ⟨?_, ?_, ?_⟩
  · intro city n budget cfg
    constructor
    · rw [dayEntries_of_getField _ _ (gen_days city n budget cfg)]
      simp
    · rw [dayEntries_of_getField _ _ (gen_days city n budget cfg)]
      exact fallback_days_dining city n
  · intro city ms hn
    refine ⟨requiredMeals.map (fun mt =>
      match ms.reverse.find? (fun m => mealLabelMatches m mt) with
      | some m => m
      | none => defaultMeal mt city), ?_, ?_, ?_⟩
    · simp only [ensureAllMeals]
      rw [if_neg (by simp [hn])]
    · rfl
    · intro mt hmt
      rw [List.any_eq_true]
      refine ⟨(match ms.reverse.find? (fun m => mealLabelMatches m mt) with
        | some m => m
        | none => defaultMeal mt city), List.mem_map.mpr ⟨mt, hmt, rfl⟩, ?_⟩
      cases hfind : ms.reverse.find? (fun m => mealLabelMatches m mt) with
      | some m => simpa using List.find?_some hfind
      | none => simpa using mealLabelMatches_defaultMeal mt city
  · intro city fs ms hdin hlen
    simp only [repairDay]
    rw [hdin]
    dsimp only
    rw [if_neg (by omega)]

/-- A witness instance of the amended C3 guarantees: the two-day fallback
document for Mumbai, a repair run on an empty dining list, and a day whose
three numeric dining entries are kept verbatim. -/
theorem mealsInvariant_amended_witness :
    ((dayEntries (generateEnhancedFallbackItinerary "Mumbai" 2 "50000"
        (cityConfigFor "Mumbai"))).length = 2 ∧
      (dayEntries (generateEnhancedFallbackItinerary "Mumbai" 2 "50000"
        (cityConfigFor "Mumbai"))).all hasStandardDining = true) ∧
    (∃ ms2, ensureAllMeals [] "Mumbai" = Except.ok ms2 ∧ ms2.length = 3 ∧
      ∀ mt ∈ requiredMeals, ms2.any (fun m => mealLabelMatches m mt) = true) ∧
    repairDay "Mumbai" (Json.obj [jf "dining"
        (Json.arr [Json.num 1, Json.num 2, Json.num 3])]) =
      Except.ok (Json.obj [jf "dining" (Json.arr [Json.num 1, Json.num 2, Json.num 3])]) :=
  ⟨mealsInvariant_amended.1 "Mumbai" 2 "50000" (cityConfigFor "Mumbai"),
   mealsInvariant_amended.2.1 "Mumbai" [] rfl,
   mealsInvariant_amended.2.2 "Mumbai" _ _ rfl (by decide)⟩

/-- The AI content of the C3/C2-style counterexample run: a syntactically
valid itinerary whose single day carries three dining entries with
non-standard labels. -/
def contentC3 : String :=
  "\x7b\"days\":[\x7b\"day\":1,\"dining\":[\x7b\"meal\":\"SnackA\"\x7d,\x7b\"meal\":\"SnackB\"\x7d,\x7b\"meal\":\"SnackC\"\x7d]\x7d]\x7d"

def reqC3 : Req := ⟨"Mumbai", "50000", 2, []⟩

/-- An environment in which the AI call succeeds on the first attempt and
returns `contentC3`, with no Google or Pexels credentials configured. -/
def envC3 : Env where
  perplexityKey := some "k"
  aiRaces := fun _ => Timeout.RaceResult.settledFirst (Except.ok
    ⟨true, 200, some (Json.obj [jf "choices" (Json.arr [Json.obj [jf "message"
      (Json.obj [jf "content" (Json.str contentC3.data)])]])])⟩)
  aiTimes := fun _ => 0
  perplexityBreaker := Orchestration.circuitBreakers_perplexity
  enhance := ⟨none, fun _ _ => [], fun _ => none⟩
  pexelsCalls := fun _ _ =>
    ⟨none, Orchestration.circuitBreakers_pexels, 0, Timeout.RaceResult.timerFirst, 0⟩
  imagesTimedOut := false
  outerImageTimerFirst := false

/-- C3 counterexample: a valid request for 2 days whose successfully
parsed AI output has 1 day with three Snack-labelled meals.  The endpoint
returns it as-is with HTTP 200: one day entry instead of two, and no
Breakfast/Lunch/Dinner labels — the claimed invariant fails on both
counts. -/
theorem mealsInvariant_counterexample :
    (POST reqC3 envC3).status = 200 ∧
    ((POST reqC3 envC3).body.map (fun b => (dayEntries b.itinerary).length)) = some 1 ∧
    reqC3.days.toNat = 2 ∧
    ((POST reqC3 envC3).body.map
      (fun b => (dayEntries b.itinerary).all hasStandardDining)) = some false := by
  decide

def reqC5 : Req := ⟨"Mumbai", "50000", 2, []⟩

/-- The C5 scenario environment: no AI credential, no Pexels credential
(so the image fetch yields no images at all), no deadline fires. -/
def envC5 : Env where
  perplexityKey := none
  aiRaces := fun _ => Timeout.RaceResult.timerFirst
  aiTimes := fun _ => 0
  perplexityBreaker := Orchestration.circuitBreakers_perplexity
  enhance := ⟨none, fun _ _ => [], fun _ => none⟩
  pexelsCalls := fun _ _ =>
    ⟨none, Orchestration.circuitBreakers_pexels, 0, Timeout.RaceResult.timerFirst, 0⟩
  imagesTimedOut := false
  outerImageTimerFirst := false

/-- C5: on total image-fetch failure the curated fallback image is NOT
attached.  For city Mumbai, budget 50000, days 2 with no AI credential,
the endpoint returns 200 with an EMPTY `locationImages` mapping — no
"Mumbai" key — even though a curated Mumbai image exists
(`getFallbackCityImage "Mumbai"` is defined): the `catch` that would
attach it is dead code, because `fetchDiverseLocationImages` resolves
with an empty mapping instead of rejecting on failure. -/
theorem curatedFallback_unreachable :
    (POST reqC5 envC5).status = 200 ∧
    ((POST reqC5 envC5).body.map (fun b => b.locationImages)) = some [] ∧
    (Pexels.getFallbackCityImage "Mumbai").isSome = true := by
  decide


end Itinerary

namespace Repair

/-- The character class over which the repair passes can be proven inert:
letters, digits, spaces, and basic punctuation that none of the three
regexes can match into.  Colons, commas, quotes, braces and brackets
inside string content are exactly what makes the passes corrupt clean
JSON. -/
def safeChar (c : Char) : Bool :=
  c.isAlphanum || c == ' ' || c == '.' || c == '-' || c == '/'

mutual

/-- A JSON value the repair passes provably leave alone in element
position (array elements and the document root): string content over the
safe alphabet, and object members constrained by `safeFields`. -/
def safeVal (j : Json) : Bool :=
  match j with
  | Json.str s => s.all safeChar
  | Json.num _ => true
  | Json.bool _ => true
  | Json.null => true
  | Json.arr xs => safeElems xs
  | Json.obj fs => safeFields fs
termination_by structural j

def safeElems (l : List Json) : Bool :=
  match l with
  | [] => true
  | x :: xs => safeVal x && safeElems xs
termination_by structural l

/-- Object members: safe keys, and values additionally constrained in
colon position — the value-quoting regex `:\s*([^",\x7b\[\s][^,\x7d\]]*[^,\x7d\]\s])`
rewrites any unquoted run of two or more characters after a colon, so
`true`, `false`, `null` and numbers of two or more digits are NOT safe as
object values (exactly the C2 counterexample), while strings, objects,
arrays and single-digit numbers are. -/
def safeFields (l : List (List Char × Json)) : Bool :=
  match l with
  | [] => true
  | (k, v) :: fs => k.all safeChar && safeColonVal v && safeFields fs
termination_by structural l

def safeColonVal (j : Json) : Bool :=
  match j with
  | Json.str s => s.all safeChar
  | Json.num n => n < 10
  | Json.bool _ => false
  | Json.null => false
  | Json.arr xs => safeElems xs
  | Json.obj fs => safeFields fs
termination_by structural j

end

mutual

/-- Node count of a JSON value — the fuel the recursive-descent parser
needs. -/
def jsize (j : Json) : Nat :=
  match j with
  | Json.str _ => 1
  | Json.num _ => 1
  | Json.bool _ => 1
  | Json.null => 1
  | Json.arr xs => esize xs + 1
  | Json.obj fs => fsize fs + 1
termination_by structural j

def esize (l : List Json) : Nat :=
  match l with
  | [] => 0
  | x :: xs => jsize x + esize xs + 1
termination_by structural l

def fsize (l : List (List Char × Json)) : Nat :=
  match l with
  | [] => 0
  | (_, v) :: fs => jsize v + fsize fs + 1
termination_by structural l

end

theorem digit_toNat (k : Nat) (h : k < 10) : (Char.ofNat (48 + k)).toNat = 48 + k := by
  interval_cases k <;> decide

theorem digit_isDigit (k : Nat) (h : k < 10) : (Char.ofNat (48 + k)).isDigit = true := by
  interval_cases k <;> decide

theorem natCharsF_digits (fuel : Nat) : ∀ n, (natCharsF fuel n).all Char.isDigit = true := by
  induction fuel with
  | zero => intro n; rfl
  | succ fuel ih =>
    intro n
    simp only [natCharsF]
    by_cases h : n < 10
    · rw [if_pos h]
      simp [digit_isDigit n h]
    · rw [if_neg h]
      rw [List.all_append]
      simp only [Bool.and_eq_true]
      refine ⟨ih (n / 10), ?_⟩
      simp [digit_isDigit (n % 10) (by omega)]

theorem charsToNat_append_digit (a : List Char) (d : Char) :
    charsToNat (a ++ [d]) = 10 * charsToNat a + (d.toNat - 48) := by
  simp [charsToNat, List.foldl_append]
  omega

theorem charsToNat_natCharsF (fuel : Nat) :
    ∀ n, n < 10 ^ fuel → charsToNat (natCharsF fuel n) = n := by
  induction fuel with
  | zero => intro n hn; interval_cases n; rfl
  | succ fuel ih =>
    intro n hn
    simp only [natCharsF]
    by_cases h : n < 10
    · rw [if_pos h]
      simp [charsToNat, digit_toNat n h]
    · rw [if_neg h]
      rw [charsToNat_append_digit, ih (n / 10) (by
        have h10 : (10 : Nat) ^ (fuel + 1) = 10 ^ fuel * 10 := by ring
        rw [h10] at hn
        omega), digit_toNat (n % 10) (by omega)]
      omega

theorem lt_ten_pow_succ (n : Nat) : n < 10 ^ (n + 1) := by
  induction n with
  | zero => decide
  | succ n ih =>
    have h2 : 10 ^ (n + 1) * 1 < 10 ^ (n + 1) * 10 := by
      have := Nat.pos_pow_of_pos (n + 1) (show 0 < 10 by decide)
      omega
    calc n + 1 < 10 ^ (n + 1) + 1 := by omega
    _ ≤ 10 ^ (n + 1) * 10 := by
        have := Nat.pos_pow_of_pos (n + 1) (show 0 < 10 by decide)
        omega
    _ = 10 ^ (n + 2) := by ring

theorem charsToNat_natChars (n : Nat) : charsToNat (natChars n) = n :=
  charsToNat_natCharsF (n + 1) n (lt_ten_pow_succ n)

theorem natChars_digits (n : Nat) : (natChars n).all Char.isDigit = true :=
  natCharsF_digits (n + 1) n

end Repair

namespace Repair

theorem dropWhile_append_all {p : Char → Bool} :
    ∀ (a b : List Char), a.all p = true → (a ++ b).dropWhile p = b.dropWhile p := by
  intro a
  induction a with
  | nil => intro b _; rfl
  | cons c t ih =>
    intro b h
    simp only [List.all_cons, Bool.and_eq_true] at h
    simp [List.dropWhile_cons, h.1, ih b h.2]

theorem takeWhile_append_all {p : Char → Bool} :
    ∀ (a b : List Char), a.all p = true → (a ++ b).takeWhile p = a ++ b.takeWhile p := by
  intro a
  induction a with
  | nil => intro b _; rfl
  | cons c t ih =>
    intro b h
    simp only [List.all_cons, Bool.and_eq_true] at h
    simp [List.takeWhile_cons, h.1, ih b h.2]

theorem dropWhile_cons_false {p : Char → Bool} {b : Char} (t : List Char)
    (h : p b = false) : (b :: t).dropWhile p = b :: t := by
  simp [List.dropWhile_cons, h]

/-- Whether an unquoted word run at the head is followed by a colon — the
lookahead of the key-quoting regex after an opening context character. -/
def colonAfterWords (rest : List Char) : Bool :=
  match rest.dropWhile (fun x => isWordChar x) with
  | ':' :: _ => true
  | _ => false

/-- Local safety at a comma: not followed by a closing character (the
trailing-comma regex cannot fire here). -/
def headOk1 : List Char → Bool
  | [] => true
  | c :: rest =>
    if c = ',' then
      match rest with
      | [] => true
      | b :: _ => !isWs b && !(b == '}') && !(b == ']')
    else true

/-- Local safety at an opening context character: no whitespace follows,
and no word-plus-colon follows (the key-quoting regex cannot fire). -/
def headOk2 : List Char → Bool
  | [] => true
  | c :: rest =>
    if c = '{' ∨ c = '[' ∨ c = ',' then
      (match rest with
       | [] => true
       | b :: _ => !isWs b) &&
      !colonAfterWords rest
    else true

/-- Local safety at a colon: the value starts with a quoting-exempt
character, or the quotable group is shorter than two characters (the
value-quoting regex cannot fire). -/
def headOk3 : List Char → Bool
  | [] => true
  | c :: rest =>
    if c = ':' then
      match rest with
      | [] => true
      | c0 :: r2 =>
        !isWs c0 &&
        (c0 == '\"' || c0 == ',' || c0 == '{' || c0 == '[' ||
         decide ((stripTrailingWs (c0 :: r2.takeWhile (fun x => !isStop x))).length < 2))
    else true

def headOk (s : List Char) : Bool := headOk1 s && headOk2 s && headOk3 s

/-- Every suffix of the string passes the local head conditions. -/
def suffOk (s : List Char) : Prop := ∀ t, t <:+ s → headOk t = true

theorem suffOk_tail {c : Char} {rest : List Char} (h : suffOk (c :: rest)) :
    suffOk rest :=
  fun t ht => h t (ht.trans (List.suffix_cons c rest))

theorem suffOk_head {s : List Char} (h : suffOk s) :
    headOk1 s = true ∧ headOk2 s = true ∧ headOk3 s = true := by
  have := h s (List.suffix_refl s)
  simp only [headOk, Bool.and_eq_true] at this
  exact ⟨this.1.1, this.1.2, this.2⟩

/-- On a string whose every suffix is locally safe, the trailing-comma
pass is the identity. -/
theorem stripTrailingCommasF_id :
    ∀ (fuel : Nat) (s : List Char), s.length ≤ fuel → suffOk s →
      stripTrailingCommasF fuel s = s := by
  intro fuel
  induction fuel with
  | zero =>
    intro s hlen _
    have hs : s = [] := List.length_eq_zero.mp (by omega)
    subst hs
    rfl
  | succ fuel ih =>
    intro s hlen hsuff
    match s with
    | [] => rfl
    | c :: rest =>
      have hrest := suffOk_tail hsuff
      have hlen2 : rest.length ≤ fuel := by simpa using hlen
      simp only [stripTrailingCommasF]
      by_cases hc : c = ','
      · subst hc
        rw [if_pos rfl]
        obtain ⟨h1, -, -⟩ := suffOk_head hsuff
        simp only [headOk1, if_true] at h1
        match rest with
        | [] =>
          show ',' :: stripTrailingCommasF fuel [] = [',']
          rw [ih [] (by simp) hrest]
        | b :: cs =>
          simp only [Bool.and_eq_true, Bool.not_eq_true'] at h1
          rw [dropWhile_cons_false cs h1.1.1]
          dsimp only
          have hbne : ¬(b = '}' ∨ b = ']') := by
            rintro (h2 | h2) <;> simp [h2] at h1
          rw [if_neg hbne]
          rw [ih (b :: cs) hlen2 hrest]
      · rw [if_neg hc]
        rw [ih rest hlen2 hrest]

/-- On a string whose every suffix is locally safe, the key-quoting pass
is the identity. -/
theorem quoteKeysF_id :
    ∀ (fuel : Nat) (s : List Char), s.length ≤ fuel → suffOk s →
      quoteKeysF fuel s = s := by
  intro fuel
  induction fuel with
  | zero =>
    intro s hlen _
    have hs : s = [] := List.length_eq_zero.mp (by omega)
    subst hs
    rfl
  | succ fuel ih =>
    intro s hlen hsuff
    match s with
    | [] => rfl
    | c :: rest =>
      have hrest := suffOk_tail hsuff
      have hlen2 : rest.length ≤ fuel := by simpa using hlen
      simp only [quoteKeysF]
      by_cases hc : c = '{' ∨ c = '[' ∨ c = ','
      · rw [if_pos hc]
        obtain ⟨-, h2, -⟩ := suffOk_head hsuff
        simp only [headOk2] at h2
        rw [if_pos hc] at h2
        simp only [Bool.and_eq_true, Bool.not_eq_true'] at h2
        have hr1 : rest.dropWhile (fun x => isWs x) = rest := by
          match rest with
          | [] => rfl
          | b :: cs => exact dropWhile_cons_false cs (by simpa using h2.1)
        rw [hr1]
        have hcol := h2.2
        unfold colonAfterWords at hcol
        split
        · rename_i r3 heq
          rw [heq] at hcol
          simp at hcol
        · rw [ih rest hlen2 hrest]
      · rw [if_neg hc]
        rw [ih rest hlen2 hrest]

/-- On a string whose every suffix is locally safe, the value-quoting pass
is the identity. -/
theorem quoteValuesF_id :
    ∀ (fuel : Nat) (s : List Char), s.length ≤ fuel → suffOk s →
      quoteValuesF fuel s = s := by
  intro fuel
  induction fuel with
  | zero =>
    intro s hlen _
    have hs : s = [] := List.length_eq_zero.mp (by omega)
    subst hs
    rfl
  | succ fuel ih =>
    intro s hlen hsuff
    match s with
    | [] => rfl
    | c :: rest =>
      have hrest := suffOk_tail hsuff
      have hlen2 : rest.length ≤ fuel := by simpa using hlen
      simp only [quoteValuesF]
      by_cases hc : c = ':'
      · subst hc
        rw [if_pos rfl]
        obtain ⟨-, -, h3⟩ := suffOk_head hsuff
        simp only [headOk3, if_true] at h3
        match rest with
        | [] =>
          show ':' :: quoteValuesF fuel [] = [':']
          rw [ih [] (by simp) hrest]
        | c0 :: r2 =>
          simp only [Bool.and_eq_true, Bool.not_eq_true'] at h3
          rw [dropWhile_cons_false r2 h3.1]
          dsimp only
          have hdis := h3.2
          by_cases hex : c0 = '\"' ∨ c0 = ',' ∨ c0 = '{' ∨ c0 = '[' ∨ isWs c0 = true
          · rw [if_pos hex]
            rw [ih (c0 :: r2) hlen2 hrest]
          · rw [if_neg hex]
            have hb1 : (c0 == '\"') = false :=
              beq_eq_false_iff_ne.mpr (fun h => hex (Or.inl h))
            have hb2 : (c0 == ',') = false :=
              beq_eq_false_iff_ne.mpr (fun h => hex (Or.inr (Or.inl h)))
            have hb3 : (c0 == '{') = false :=
              beq_eq_false_iff_ne.mpr (fun h => hex (Or.inr (Or.inr (Or.inl h))))
            have hb4 : (c0 == '[') = false :=
              beq_eq_false_iff_ne.mpr (fun h => hex (Or.inr (Or.inr (Or.inr (Or.inl h)))))
            rw [hb1, hb2, hb3, hb4] at hdis
            simp only [Bool.false_or] at hdis
            have hlt : (stripTrailingWs (c0 :: r2.takeWhile (fun x => !isStop x))).length < 2 :=
              of_decide_eq_true hdis
            rw [if_neg (by omega)]
            rw [ih (c0 :: r2) hlen2 hrest]
      · rw [if_neg hc]
        rw [ih rest hlen2 hrest]

/-- On a string whose every suffix is locally safe, all three repair
passes are the identity. -/
theorem repairPasses_id (s : List Char) (h : suffOk s) : repairPasses s = s := by
  unfold repairPasses stripTrailingCommas quoteKeys quoteValues
  rw [stripTrailingCommasF_id s.length s (le_refl _) h,
    quoteKeysF_id s.length s (le_refl _) h,
    quoteValuesF_id s.length s (le_refl _) h]

end Repair

namespace Repair

/-- A head character that is none of the four trigger characters passes
every local condition whatever follows. -/
theorem headOk_nontrigger (c : Char) (h1 : (c == ',') = false)
    (h2 : (c == '{') = false) (h3 : (c == '[') = false) (h4 : (c == ':') = false)
    (rest : List Char) : headOk (c :: rest) = true := by
  have e1 : ¬(c = ',') := by simpa using h1
  have e2 : ¬(c = '{') := by simpa using h2
  have e3 : ¬(c = '[') := by simpa using h3
  have e4 : ¬(c = ':') := by simpa using h4
  simp only [headOk, headOk1, headOk2, headOk3]
  rw [if_neg e1, if_neg (by rintro (h | h | h) <;> [exact e2 h; exact e3 h; exact e1 h]),
    if_neg e4]
  rfl

theorem not_char_of_pred {p : Char → Bool} (c x : Char) (hd : p c = true)
    (hx : p x = false) : (c == x) = false := by
  rw [beq_eq_false_iff_ne]
  intro he
  rw [he] at hd
  rw [hd] at hx
  exact absurd hx (by decide)

theorem safeChar_facts (c : Char) (h : safeChar c = true) :
    (c == ',') = false ∧ (c == '{') = false ∧ (c == '[') = false ∧
    (c == ':') = false ∧ (c == '}') = false ∧ (c == ']') = false ∧
    (c == '\"') = false := by
  refine ⟨not_char_of_pred c _ h (by decide), not_char_of_pred c _ h (by decide),
    not_char_of_pred c _ h (by decide), not_char_of_pred c _ h (by decide),
    not_char_of_pred c _ h (by decide), not_char_of_pred c _ h (by decide),
    not_char_of_pred c _ h (by decide)⟩

theorem digit_facts (c : Char) (h : c.isDigit = true) :
    isWs c = false ∧ (c == ',') = false ∧ (c == '{') = false ∧ (c == '[') = false ∧
    (c == ':') = false ∧ (c == '}') = false ∧ (c == ']') = false := by
  have hws : isWs c = false := by
    unfold isWs
    rw [not_char_of_pred c _ h (by decide), not_char_of_pred c _ h (by decide),
      not_char_of_pred c _ h (by decide), not_char_of_pred c _ h (by decide)]
    rfl
  exact ⟨hws, not_char_of_pred c _ h (by decide), not_char_of_pred c _ h (by decide),
    not_char_of_pred c _ h (by decide), not_char_of_pred c _ h (by decide),
    not_char_of_pred c _ h (by decide), not_char_of_pred c _ h (by decide)⟩

theorem isDigit_isWordChar (c : Char) (h : c.isDigit = true) : isWordChar c = true := by
  unfold isWordChar
  have hd : ('0' ≤ c && c ≤ '9') = true := by
    unfold Char.isDigit at h
    simpa using h
  simp only [Bool.and_eq_true, decide_eq_true_eq] at hd
  simp only [Bool.or_eq_true, Bool.and_eq_true, decide_eq_true_eq]
  exact Or.inl (Or.inr ⟨hd.1, hd.2⟩)

theorem natChars_ne_nil (n : Nat) : natChars n ≠ [] := by
  unfold natChars natCharsF
  by_cases h : n < 10
  · rw [if_pos h]; simp
  · rw [if_neg h]; simp

theorem natChars_head_digit (n : Nat) :
    ∃ c t, natChars n = c :: t ∧ c.isDigit = true := by
  have hd := natChars_digits n
  match hnc : natChars n with
  | [] => exact absurd hnc (natChars_ne_nil n)
  | c :: t =>
    rw [hnc] at hd
    simp only [List.all_cons, Bool.and_eq_true] at hd
    exact ⟨c, t, rfl, hd.1⟩

/-- A serialized safe value starts with a character that is not
whitespace, not a closing character, and not a colon. -/
theorem ser_head (j : Json) :
    ∃ c t, ser j = c :: t ∧ isWs c = false ∧ (c == '}') = false ∧
      (c == ']') = false ∧ (c == ':') = false := by
  match j with
  | Json.str s => exact ⟨'\"', _, rfl, by decide, by decide, by decide, by decide⟩
  | Json.num n =>
    obtain ⟨c, t, hnc, hd⟩ := natChars_head_digit n
    obtain ⟨hws, -, -, -, hcol, hbr, hbk⟩ := digit_facts c hd
    exact ⟨c, t, hnc, hws, hbr, hbk, hcol⟩
  | Json.bool true => exact ⟨'t', _, rfl, by decide, by decide, by decide, by decide⟩
  | Json.bool false => exact ⟨'f', _, rfl, by decide, by decide, by decide, by decide⟩
  | Json.null => exact ⟨'n', _, rfl, by decide, by decide, by decide, by decide⟩
  | Json.arr xs => exact ⟨'[', _, rfl, by decide, by decide, by decide, by decide⟩
  | Json.obj fs => exact ⟨'{', _, rfl, by decide, by decide, by decide, by decide⟩

/-- The continuations a serialized fragment can be followed by: nothing,
or a separator / closing character. -/
def contHead : List Char → Prop
  | [] => True
  | c :: _ => c = ',' ∨ c = '}' ∨ c = ']'

theorem colonAfterWords_cons_false (c : Char) (t : List Char)
    (hw : isWordChar c = false) (hc : (c == ':') = false) :
    colonAfterWords (c :: t) = false := by
  unfold colonAfterWords
  rw [dropWhile_cons_false t hw]
  split
  · rename_i r3 heq
    cases heq
    simp at hc
  · rfl

theorem colonAfterWords_contHead (cont : List Char) (h : contHead cont) :
    colonAfterWords cont = false := by
  match cont with
  | [] => rfl
  | c :: t =>
    rcases h with h | h | h <;> subst h <;>
      exact colonAfterWords_cons_false _ t (by decide) (by decide)

/-- After a serialized safe value, the word-run lookahead of the
key-quoting regex never ends at a colon. -/
theorem ser_wordOk (j : Json) (cont : List Char) (hch : contHead cont) :
    colonAfterWords (ser j ++ cont) = false := by
  match j with
  | Json.str s => exact colonAfterWords_cons_false _ _ (by decide) (by decide)
  | Json.num n =>
    unfold colonAfterWords
    rw [show ser (Json.num n) = natChars n from rfl]
    rw [dropWhile_append_all _ _ (by
      have hd := natChars_digits n
      rw [List.all_eq_true] at hd ⊢
      exact fun x hx => isDigit_isWordChar x (hd x hx))]
    have h2 := colonAfterWords_contHead cont hch
    unfold colonAfterWords at h2
    exact h2
  | Json.bool true =>
    unfold colonAfterWords
    rw [show ser (Json.bool true) = ['t', 'r', 'u', 'e'] from rfl]
    rw [dropWhile_append_all _ _ (by decide)]
    have h2 := colonAfterWords_contHead cont hch
    unfold colonAfterWords at h2
    exact h2
  | Json.bool false =>
    unfold colonAfterWords
    rw [show ser (Json.bool false) = ['f', 'a', 'l', 's', 'e'] from rfl]
    rw [dropWhile_append_all _ _ (by decide)]
    have h2 := colonAfterWords_contHead cont hch
    unfold colonAfterWords at h2
    exact h2
  | Json.null =>
    unfold colonAfterWords
    rw [show ser Json.null = ['n', 'u', 'l', 'l'] from rfl]
    rw [dropWhile_append_all _ _ (by decide)]
    have h2 := colonAfterWords_contHead cont hch
    unfold colonAfterWords at h2
    exact h2
  | Json.arr xs => exact colonAfterWords_cons_false _ _ (by decide) (by decide)
  | Json.obj fs => exact colonAfterWords_cons_false _ _ (by decide) (by decide)

theorem ser_num_single (n : Nat) (h : n < 10) :
    ser (Json.num n) = [Char.ofNat (48 + n)] := by
  show natChars n = _
  unfold natChars natCharsF
  rw [if_pos h]

theorem suffix_append_split {t a b : List Char} (h : t <:+ a ++ b) :
    t <:+ b ∨ ∃ ta, ta <:+ a ∧ ta ≠ [] ∧ t = ta ++ b := by
  obtain ⟨u, hu⟩ := h
  have ht : t = (a ++ b).drop u.length := by
    rw [← hu, List.drop_left]
  by_cases hl : a.length ≤ u.length
  · left
    rw [ht, List.drop_append_eq_append_drop, List.drop_eq_nil_of_le hl, List.nil_append]
    exact List.drop_suffix _ b
  · right
    refine ⟨a.drop u.length, List.drop_suffix _ a, ?_, ?_⟩
    · intro hnil
      have := congrArg List.length hnil
      simp only [List.length_drop, List.length_nil] at this
      omega
    · rw [ht, List.drop_append_eq_append_drop, Nat.sub_eq_zero_of_le (by omega),
        List.drop_zero]

theorem suffOk_cons (c : Char) (rest : List Char) (hh : headOk (c :: rest) = true)
    (hr : suffOk rest) : suffOk (c :: rest) := by
  intro t ht
  rcases List.suffix_cons_iff.mp ht with h | h
  · rw [h]; exact hh
  · exact hr t h

theorem suffOk_nil : suffOk [] := by
  intro t ht
  rw [List.suffix_nil.mp ht]
  rfl

end Repair

namespace Repair

theorem jsize_pos (j : Json) : 1 ≤ jsize j := by
  cases j <;> simp [jsize]

theorem esize_mem : ∀ (xs : List Json) (x : Json), x ∈ xs → jsize x ≤ esize xs := by
  intro xs
  induction xs with
  | nil => intro x hx; cases hx
  | cons a t ih =>
    intro x hx
    rcases List.mem_cons.mp hx with h | h
    · subst h
      simp only [esize]
      omega
    · have := ih x h
      simp only [esize]
      omega

theorem fsize_mem : ∀ (fs : List (List Char × Json)) (kv : List Char × Json),
    kv ∈ fs → jsize kv.2 ≤ fsize fs := by
  intro fs
  induction fs with
  | nil => intro kv hkv; cases hkv
  | cons a t ih =>
    obtain ⟨k, v⟩ := a
    intro kv hkv
    rcases List.mem_cons.mp hkv with h | h
    · subst h
      simp only [fsize]
      omega
    · have := ih kv h
      simp only [fsize]
      omega

theorem safeColonVal_safeVal (v : Json) (h : safeColonVal v = true) :
    safeVal v = true := by
  cases v <;> simp_all [safeColonVal, safeVal]

/-- A run of safe characters preserves suffix safety. -/
theorem suffOk_safeList : ∀ (l : List Char) (rest : List Char),
    l.all safeChar = true → suffOk rest → suffOk (l ++ rest) := by
  intro l
  induction l with
  | nil => intro rest _ h; exact h
  | cons a t ih =>
    intro rest hall hrest
    simp only [List.all_cons, Bool.and_eq_true] at hall
    obtain ⟨hc1, hc2, hc3, hc4, -⟩ := safeChar_facts a hall.1
    exact suffOk_cons _ _ (headOk_nontrigger a hc1 hc2 hc3 hc4 _) (ih rest hall.2 hrest)

theorem serFields_head (kv : List Char × Json) (t : List (List Char × Json)) :
    ∃ tl, serFields (kv :: t) = '\"' :: tl := by
  match kv, t with
  | (k, v), [] => exact ⟨_, rfl⟩
  | (k, v), kv2 :: t2 => exact ⟨_, rfl⟩

theorem headOk_comma (b : Char) (t : List Char)
    (hws : isWs b = false) (hbr : (b == '}') = false) (hbk : (b == ']') = false)
    (hcol : colonAfterWords (b :: t) = false) :
    headOk (',' :: b :: t) = true := by
  simp only [headOk, headOk1, headOk2, headOk3]
  simp [hws, hbr, hbk, hcol]

theorem headOk_open (c : Char) (hc : c = '{' ∨ c = '[') (b : Char) (t : List Char)
    (hws : isWs b = false) (hcol : colonAfterWords (b :: t) = false) :
    headOk (c :: b :: t) = true := by
  have hne1 : ¬(c = ',') := by rcases hc with h | h <;> subst h <;> decide
  have hne2 : ¬(c = ':') := by rcases hc with h | h <;> subst h <;> decide
  simp only [headOk, headOk1, headOk2, headOk3]
  rw [if_neg hne1, if_pos (by rcases hc with h | h; exacts [Or.inl h, Or.inr (Or.inl h)]),
    if_neg hne2]
  simp [hws, hcol]

theorem headOk_colon_excl (c0 : Char) (r2 : List Char)
    (hws : isWs c0 = false)
    (hex : (c0 == '\"') = true ∨ (c0 == '{') = true ∨ (c0 == '[') = true) :
    headOk (':' :: c0 :: r2) = true := by
  simp only [headOk, headOk1, headOk2, headOk3]
  rcases hex with h | h | h <;> simp [hws, h]

theorem headOk_colon_short (c0 : Char) (r2 : List Char)
    (hws : isWs c0 = false)
    (hlen : (stripTrailingWs (c0 :: r2.takeWhile (fun x => !isStop x))).length < 2) :
    headOk (':' :: c0 :: r2) = true := by
  simp only [headOk, headOk1, headOk2, headOk3]
  simp [hws, hlen]

theorem contHead_takeWhile_stop (cont : List Char) (h : contHead cont) :
    cont.takeWhile (fun x => !isStop x) = [] := by
  match cont with
  | [] => rfl
  | c :: t =>
    rcases h with h | h | h <;> subst h <;> rfl

theorem stripTrailingWs_single (d : Char) (h : isWs d = false) :
    stripTrailingWs [d] = [d] := by
  unfold stripTrailingWs
  simp [dropWhile_cons_false, h]

end Repair

namespace Repair

/-- Serializing a safe value and following it with a separator-or-closing
continuation yields a string every suffix of which is locally safe for the
three repair regexes.  This is the heart of the no-op direction of the C2
analysis: the repair passes cannot fire anywhere inside clean serialized
JSON over the safe alphabet. -/
theorem ser_suffOk_main :
    ∀ (N : Nat) (j : Json), jsize j ≤ N → safeVal j = true →
      ∀ cont, contHead cont → suffOk cont → suffOk (ser j ++ cont) := by
  intro N
  induction N with
  | zero =>
    intro j hj
    have := jsize_pos j
    omega
  | succ N ih =>
    intro j hjsize hsafe cont hch hcont
    match j with
    | Json.str s =>
      have hser : ser (Json.str s) ++ cont = '\"' :: (s ++ ('\"' :: cont)) := by
        show ('\"' :: (s ++ ['\"'])) ++ cont = _
        simp [List.append_assoc]
      rw [hser]
      have h1 : suffOk ('\"' :: cont) := suffOk_cons _ _
        (headOk_nontrigger _ (by decide) (by decide) (by decide) (by decide) _) hcont
      have h2 : suffOk (s ++ ('\"' :: cont)) := suffOk_safeList s _ hsafe h1
      exact suffOk_cons _ _
        (headOk_nontrigger _ (by decide) (by decide) (by decide) (by decide) _) h2
    | Json.num n =>
      show suffOk (natChars n ++ cont)
      have hd := natChars_digits n
      have hgen : ∀ (ds : List Char), ds.all Char.isDigit = true →
          suffOk (ds ++ cont) := by
        intro ds
        induction ds with
        | nil => intro _; exact hcont
        | cons a t iht =>
          intro hall
          simp only [List.all_cons, Bool.and_eq_true] at hall
          obtain ⟨-, hc1, hc2, hc3, hc4, -, -⟩ := digit_facts a hall.1
          exact suffOk_cons _ _ (headOk_nontrigger a hc1 hc2 hc3 hc4 _) (iht hall.2)
      exact hgen (natChars n) hd
    | Json.bool true =>
      show suffOk (['t', 'r', 'u', 'e'] ++ cont)
      refine suffOk_cons _ _ (headOk_nontrigger _ (by decide) (by decide) (by decide) (by decide) _) ?_
      refine suffOk_cons _ _ (headOk_nontrigger _ (by decide) (by decide) (by decide) (by decide) _) ?_
      refine suffOk_cons _ _ (headOk_nontrigger _ (by decide) (by decide) (by decide) (by decide) _) ?_
      exact suffOk_cons _ _ (headOk_nontrigger _ (by decide) (by decide) (by decide) (by decide) _) hcont
    | Json.bool false =>
      show suffOk (['f', 'a', 'l', 's', 'e'] ++ cont)
      refine suffOk_cons _ _ (headOk_nontrigger _ (by decide) (by decide) (by decide) (by decide) _) ?_
      refine suffOk_cons _ _ (headOk_nontrigger _ (by decide) (by decide) (by decide) (by decide) _) ?_
      refine suffOk_cons _ _ (headOk_nontrigger _ (by decide) (by decide) (by decide) (by decide) _) ?_
      refine suffOk_cons _ _ (headOk_nontrigger _ (by decide) (by decide) (by decide) (by decide) _) ?_
      exact suffOk_cons _ _ (headOk_nontrigger _ (by decide) (by decide) (by decide) (by decide) _) hcont
    | Json.null =>
      show suffOk (['n', 'u', 'l', 'l'] ++ cont)
      refine suffOk_cons _ _ (headOk_nontrigger _ (by decide) (by decide) (by decide) (by decide) _) ?_
      refine suffOk_cons _ _ (headOk_nontrigger _ (by decide) (by decide) (by decide) (by decide) _) ?_
      refine suffOk_cons _ _ (headOk_nontrigger _ (by decide) (by decide) (by decide) (by decide) _) ?_
      exact suffOk_cons _ _ (headOk_nontrigger _ (by decide) (by decide) (by decide) (by decide) _) hcont
    | Json.arr xs =>
      have hsz : ∀ x ∈ xs, jsize x ≤ N := by
        intro x hx
        have h1 := esize_mem xs x hx
        have h2 : jsize (Json.arr xs) = esize xs + 1 := by simp [jsize]
        omega
      have hsafe' : safeElems xs = true := hsafe
      have hclose : suffOk (']' :: cont) := suffOk_cons _ _
        (headOk_nontrigger _ (by decide) (by decide) (by decide) (by decide) _) hcont
      have SL : ∀ (l : List Json), (∀ x ∈ l, jsize x ≤ N) → safeElems l = true →
          ∀ c2, contHead c2 → suffOk c2 → suffOk (serList l ++ c2) := by
        intro l
        induction l with
        | nil => intro _ _ c2 _ hs2; exact hs2
        | cons x t ihl =>
          intro hszl hsafel c2 hch2 hs2
          have hsl : safeVal x = true ∧ safeElems t = true := by
            have : (safeVal x && safeElems t) = true := hsafel
            simpa [Bool.and_eq_true] using this
          match t with
          | [] => exact ih x (hszl x (by simp)) hsl.1 c2 hch2 hs2
          | y :: t2 =>
            have heq : serList (x :: y :: t2) ++ c2 =
                ser x ++ (',' :: (serList (y :: t2) ++ c2)) := by
              show (ser x ++ (',' :: serList (y :: t2))) ++ c2 = _
              simp [List.append_assoc]
            rw [heq]
            have htail : suffOk (serList (y :: t2) ++ c2) :=
              ihl (fun z hz => hszl z (List.mem_cons_of_mem _ hz)) hsl.2 c2 hch2 hs2
            have hdecomp : ∃ cont3, serList (y :: t2) ++ c2 = ser y ++ cont3 ∧
                contHead cont3 := by
              match t2 with
              | [] => exact ⟨c2, rfl, hch2⟩
              | z :: t3 =>
                refine ⟨',' :: (serList (z :: t3) ++ c2), ?_, Or.inl rfl⟩
                show (ser y ++ (',' :: serList (z :: t3))) ++ c2 = _
                simp [List.append_assoc]
            obtain ⟨cont3, hdec, hch3⟩ := hdecomp
            have hhead : headOk (',' :: (serList (y :: t2) ++ c2)) = true := by
              rw [hdec]
              obtain ⟨ch, ct, hserY, hws, hbr, hbk, -⟩ := ser_head y
              have hcolAW : colonAfterWords (ser y ++ cont3) = false :=
                ser_wordOk y cont3 hch3
              rw [hserY, List.cons_append] at hcolAW ⊢
              exact headOk_comma ch (ct ++ cont3) hws hbr hbk hcolAW
            exact ih x (hszl x (by simp)) hsl.1 _ (Or.inl rfl)
              (suffOk_cons _ _ hhead htail)
      have hbody : suffOk (serList xs ++ (']' :: cont)) :=
        SL xs hsz hsafe' _ (Or.inr (Or.inr rfl)) hclose
      have hser : ser (Json.arr xs) ++ cont = '[' :: (serList xs ++ (']' :: cont)) := by
        show ('[' :: (serList xs ++ [']'])) ++ cont = _
        simp [List.append_assoc]
      rw [hser]
      refine suffOk_cons _ _ ?_ hbody
      match xs with
      | [] =>
        show headOk ('[' :: (']' :: cont)) = true
        exact headOk_open '[' (Or.inr rfl) ']' cont (by decide)
          (colonAfterWords_cons_false _ _ (by decide) (by decide))
      | x :: t =>
        have hdecomp : ∃ cont3, serList (x :: t) ++ (']' :: cont) = ser x ++ cont3 ∧
            contHead cont3 := by
          match t with
          | [] => exact ⟨']' :: cont, rfl, Or.inr (Or.inr rfl)⟩
          | z :: t3 =>
            refine ⟨',' :: (serList (z :: t3) ++ (']' :: cont)), ?_, Or.inl rfl⟩
            show (ser x ++ (',' :: serList (z :: t3))) ++ (']' :: cont) = _
            simp [List.append_assoc]
        obtain ⟨cont3, hdec, hch3⟩ := hdecomp
        rw [hdec]
        obtain ⟨ch, ct, hserX, hws, -, -, -⟩ := ser_head x
        have hcolAW : colonAfterWords (ser x ++ cont3) = false :=
          ser_wordOk x cont3 hch3
        rw [hserX, List.cons_append] at hcolAW ⊢
        exact headOk_open '[' (Or.inr rfl) ch (ct ++ cont3) hws hcolAW
    | Json.obj fs =>
      have hsz : ∀ kv ∈ fs, jsize (Prod.snd kv) ≤ N := by
        intro kv hkv
        have h1 := fsize_mem fs kv hkv
        have h2 : jsize (Json.obj fs) = fsize fs + 1 := by simp [jsize]
        omega
      have hsafe' : safeFields fs = true := hsafe
      have hclose : suffOk ('}' :: cont) := suffOk_cons _ _
        (headOk_nontrigger _ (by decide) (by decide) (by decide) (by decide) _) hcont
      have FL : ∀ (l : List (List Char × Json)), (∀ kv ∈ l, jsize (Prod.snd kv) ≤ N) →
          safeFields l = true →
          ∀ c2, contHead c2 → suffOk c2 → suffOk (serFields l ++ c2) := by
        intro l
        induction l with
        | nil => intro _ _ c2 _ hs2; exact hs2
        | cons kv t ihl =>
          obtain ⟨k, v⟩ := kv
          intro hszl hsafel c2 hch2 hs2
          have hparts : k.all safeChar = true ∧ safeColonVal v = true ∧
              safeFields t = true := by
            have : ((k.all safeChar && safeColonVal v) && safeFields t) = true := hsafel
            simp only [Bool.and_eq_true] at this
            exact ⟨this.1.1, this.1.2, this.2⟩
          have hdecomp : ∃ cont3, serFields ((k, v) :: t) ++ c2 =
              '\"' :: (k ++ ('\"' :: ':' :: (ser v ++ cont3))) ∧
              contHead cont3 ∧ suffOk cont3 := by
            match t with
            | [] =>
              refine ⟨c2, ?_, hch2, hs2⟩
              show ('\"' :: (k ++ ('\"' :: ':' :: ser v))) ++ c2 = _
              simp [List.append_assoc]
            | kv2 :: t2 =>
              have htail : suffOk (serFields (kv2 :: t2) ++ c2) :=
                ihl (fun z hz => hszl z (List.mem_cons_of_mem _ hz)) hparts.2.2 c2 hch2 hs2
              have hheadC : headOk (',' :: (serFields (kv2 :: t2) ++ c2)) = true := by
                obtain ⟨tl, htl⟩ := serFields_head kv2 t2
                rw [htl, List.cons_append]
                exact headOk_comma '\"' (tl ++ c2) (by decide) (by decide) (by decide)
                  (colonAfterWords_cons_false _ _ (by decide) (by decide))
              refine ⟨',' :: (serFields (kv2 :: t2) ++ c2), ?_, Or.inl rfl,
                suffOk_cons _ _ hheadC htail⟩
              show (('\"' :: (k ++ ('\"' :: ':' :: ser v))) ++
                (',' :: serFields (kv2 :: t2))) ++ c2 = _
              simp [List.append_assoc]
          obtain ⟨cont3, hdec, hch3, hs3⟩ := hdecomp
          rw [hdec]
          have hv' : safeVal v = true := safeColonVal_safeVal v hparts.2.1
          have hSerV : suffOk (ser v ++ cont3) :=
            ih v (hszl (k, v) (by simp)) hv' cont3 hch3 hs3
          have hColon : headOk (':' :: (ser v ++ cont3)) = true := by
            match v, hparts.2.1 with
            | Json.str s, _ =>
              exact headOk_colon_excl '\"' _ (by decide) (Or.inl (by decide))
            | Json.obj fs2, _ =>
              exact headOk_colon_excl '{' _ (by decide) (Or.inr (Or.inl (by decide)))
            | Json.arr xs2, _ =>
              exact headOk_colon_excl '[' _ (by decide) (Or.inr (Or.inr (by decide)))
            | Json.num n, hn =>
              have hn10 : n < 10 := by simpa [safeColonVal] using hn
              rw [ser_num_single n hn10, List.cons_append, List.nil_append]
              obtain ⟨hwsd, -, -, -, -, -, -⟩ := digit_facts (Char.ofNat (48 + n))
                (digit_isDigit n hn10)
              refine headOk_colon_short _ _ hwsd ?_
              rw [contHead_takeWhile_stop cont3 hch3]
              rw [stripTrailingWs_single _ hwsd]
              simp
          have hQ2 : suffOk (':' :: (ser v ++ cont3)) := suffOk_cons _ _ hColon hSerV
          have hQ1 : suffOk ('\"' :: ':' :: (ser v ++ cont3)) := suffOk_cons _ _
            (headOk_nontrigger _ (by decide) (by decide) (by decide) (by decide) _) hQ2
          have hK : suffOk (k ++ ('\"' :: ':' :: (ser v ++ cont3))) :=
            suffOk_safeList k _ hparts.1 hQ1
          exact suffOk_cons _ _
            (headOk_nontrigger _ (by decide) (by decide) (by decide) (by decide) _) hK
      have hbody : suffOk (serFields fs ++ ('}' :: cont)) :=
        FL fs hsz hsafe' _ (Or.inr (Or.inl rfl)) hclose
      have hser : ser (Json.obj fs) ++ cont = '{' :: (serFields fs ++ ('}' :: cont)) := by
        show ('{' :: (serFields fs ++ ['}'])) ++ cont = _
        simp [List.append_assoc]
      rw [hser]
      refine suffOk_cons _ _ ?_ hbody
      match fs with
      | [] =>
        show headOk ('{' :: ('}' :: cont)) = true
        exact headOk_open '{' (Or.inl rfl) '}' cont (by decide)
          (colonAfterWords_cons_false _ _ (by decide) (by decide))
      | kv :: t =>
        obtain ⟨tl, htl⟩ := serFields_head kv t
        rw [htl, List.cons_append]
        exact headOk_open '{' (Or.inl rfl) '\"' (tl ++ ('}' :: cont)) (by decide)
          (colonAfterWords_cons_false _ _ (by decide) (by decide))

/-- Every suffix of a serialized safe document is locally safe. -/
theorem ser_suffOk (j : Json) (h : safeVal j = true) : suffOk (ser j) := by
  have := ser_suffOk_main (jsize j) j (le_refl _) h [] trivial suffOk_nil
  simpa using this

/-- The three repair passes leave a serialized safe document unchanged. -/
theorem repairPasses_ser (j : Json) (h : safeVal j = true) :
    repairPasses (ser j) = ser j :=
  repairPasses_id (ser j) (ser_suffOk j h)

end Repair

namespace Repair

theorem esize_pos_of_ne_nil (l : List Json) (h : l ≠ []) : 1 ≤ esize l := by
  match l with
  | [] => exact absurd rfl h
  | x :: t => simp only [esize]; omega

theorem fsize_pos_of_ne_nil (l : List (List Char × Json)) (h : l ≠ []) :
    1 ≤ fsize l := by
  match l with
  | [] => exact absurd rfl h
  | (k, v) :: t => simp only [fsize]; omega

theorem serList_length_bound :
    ∀ (N : Nat), (∀ j, jsize j ≤ N → jsize j ≤ (ser j).length) →
      ∀ l, esize l ≤ N + 1 → (∀ x ∈ l, jsize x ≤ N) →
        esize l ≤ (serList l).length + 1 := by
  intro N ihj l
  induction l with
  | nil => intro _ _; simp [esize, serList]
  | cons x t iht =>
    intro hsz hmem
    have hx : jsize x ≤ (ser x).length := ihj x (hmem x (by simp))
    match t with
    | [] =>
      show jsize x + esize [] + 1 ≤ (ser x).length + 1
      simp only [esize]
      omega
    | y :: t2 =>
      have ht : esize (y :: t2) ≤ (serList (y :: t2)).length + 1 := by
        refine iht ?_ (fun z hz => hmem z (List.mem_cons_of_mem _ hz))
        simp only [esize] at hsz ⊢
        have := jsize_pos x
        omega
      show jsize x + esize (y :: t2) + 1 ≤ (ser x ++ (',' :: serList (y :: t2))).length + 1
      simp only [List.length_append, List.length_cons]
      omega

theorem serFields_length_bound :
    ∀ (N : Nat), (∀ j, jsize j ≤ N → jsize j ≤ (ser j).length) →
      ∀ l, fsize l ≤ N + 1 → (∀ kv ∈ l, jsize (Prod.snd kv) ≤ N) →
        fsize l ≤ (serFields l).length + 1 := by
  intro N ihj l
  induction l with
  | nil => intro _ _; simp [fsize, serFields]
  | cons kv t iht =>
    obtain ⟨k, v⟩ := kv
    intro hsz hmem
    have hv : jsize v ≤ (ser v).length := ihj v (hmem (k, v) (by simp))
    match t with
    | [] =>
      show jsize v + fsize [] + 1 ≤ ('\"' :: (k ++ ('\"' :: ':' :: ser v))).length + 1
      simp only [fsize, List.length_cons, List.length_append]
      omega
    | kv2 :: t2 =>
      have ht : fsize (kv2 :: t2) ≤ (serFields (kv2 :: t2)).length + 1 := by
        refine iht ?_ (fun z hz => hmem z (List.mem_cons_of_mem _ hz))
        simp only [fsize] at hsz ⊢
        have := jsize_pos v
        omega
      show jsize v + fsize (kv2 :: t2) + 1 ≤
        (('\"' :: (k ++ ('\"' :: ':' :: ser v))) ++ (',' :: serFields (kv2 :: t2))).length + 1
      simp only [List.length_append, List.length_cons]
      omega

/-- A value costs at least one serialized character per node. -/
theorem jsize_le_ser : ∀ (N : Nat) (j : Json), jsize j ≤ N → jsize j ≤ (ser j).length := by
  intro N
  induction N with
  | zero =>
    intro j hj
    have := jsize_pos j
    omega
  | succ N ih =>
    intro j hjsize
    match j with
    | Json.str s => simp [jsize, ser]
    | Json.num n =>
      have h1 : 1 ≤ (natChars n).length := by
        have := natChars_ne_nil n
        cases hnc : natChars n with
        | nil => exact absurd hnc this
        | cons a t => simp
      simpa [jsize] using h1
    | Json.bool true => simp [jsize, ser]
    | Json.bool false => simp [jsize, ser]
    | Json.null => simp [jsize, ser]
    | Json.arr xs =>
      have hmem : ∀ x ∈ xs, jsize x ≤ N := by
        intro x hx
        have h1 := esize_mem xs x hx
        simp only [jsize] at hjsize
        omega
      have hb := serList_length_bound N ih xs (by simp only [jsize] at hjsize; omega) hmem
      show esize xs + 1 ≤ ('[' :: (serList xs ++ [']'])).length
      simp only [List.length_cons, List.length_append]
      omega
    | Json.obj fs =>
      have hmem : ∀ kv ∈ fs, jsize (Prod.snd kv) ≤ N := by
        intro kv hkv
        have h1 := fsize_mem fs kv hkv
        simp only [jsize] at hjsize
        omega
      have hb := serFields_length_bound N ih fs (by simp only [jsize] at hjsize; omega) hmem
      show fsize fs + 1 ≤ ('{' :: (serFields fs ++ ['}'])).length
      simp only [List.length_cons, List.length_append]
      omega

end Repair

namespace Repair

theorem safe_no_quote (k : List Char) (hk : k.all safeChar = true) :
    k.all (fun x => !x == '\"') = true := by
  rw [List.all_eq_true] at hk ⊢
  intro x hx
  have := (safeChar_facts x (hk x hx)).2.2.2.2.2.2
  simp [this]

/-- Scanning for the closing quote over safe string content. -/
theorem quoteScan (k z : List Char) (hk : k.all safeChar = true) :
    (k ++ ('\"' :: z)).dropWhile (fun x => !x == '\"') = '\"' :: z ∧
    (k ++ ('\"' :: z)).takeWhile (fun x => !x == '\"') = k := by
  have hall := safe_no_quote k hk
  constructor
  · rw [dropWhile_append_all _ _ hall]
    exact dropWhile_cons_false z (by decide)
  · rw [takeWhile_append_all _ _ hall]
    simp [List.takeWhile_cons]

theorem contHead_not_digit (r : List Char) (h : contHead r) :
    r.takeWhile Char.isDigit = [] ∧ r.dropWhile Char.isDigit = r := by
  match r with
  | [] => exact ⟨rfl, rfl⟩
  | c :: t => rcases h with h | h | h <;> subst h <;> exact ⟨rfl, rfl⟩

/-- Scanning a serialized numeral followed by a separator. -/
theorem digitScan (n : Nat) (r : List Char) (h : contHead r) :
    (natChars n ++ r).takeWhile Char.isDigit = natChars n ∧
    (natChars n ++ r).dropWhile Char.isDigit = r := by
  have hd := natChars_digits n
  obtain ⟨ht, hdr⟩ := contHead_not_digit r h
  constructor
  · rw [takeWhile_append_all _ _ hd, ht, List.append_nil]
  · rw [dropWhile_append_all _ _ hd, hdr]

theorem contHead_head_not_ws (c : Char) (t : List Char) (h : contHead (c :: t)) :
    isWs c = false := by
  rcases h with h | h | h <;> subst h <;> decide

end Repair

namespace Repair

theorem serList_cons_head (x : Json) (t : List Json) :
    ∃ c tl, serList (x :: t) = c :: tl ∧ isWs c = false ∧ (c == '}') = false ∧
      (c == ']') = false := by
  obtain ⟨c, ct, hx, hws, hbr, hbk, -⟩ := ser_head x
  match t with
  | [] => exact ⟨c, ct, by show ser x = _; rw [hx], hws, hbr, hbk⟩
  | y :: t2 =>
    refine ⟨c, ct ++ (',' :: serList (y :: t2)), ?_, hws, hbr, hbk⟩
    show ser x ++ _ = _
    rw [hx]
    rfl

theorem parse_inversion : ∀ (fuel : Nat),
    (∀ (j : Json) (r : List Char), jsize j ≤ fuel → safeVal j = true → contHead r →
      parseV fuel (ser j ++ r) = some (j, r)) ∧
    (∀ (l : List Json) (r : List Char), l ≠ [] → esize l ≤ fuel →
      safeElems l = true → contHead r →
      parseElems fuel (serList l ++ (']' :: r)) = some (l, r)) ∧
    (∀ (l : List (List Char × Json)) (r : List Char), l ≠ [] → fsize l ≤ fuel →
      safeFields l = true → contHead r →
      parseFields fuel (serFields l ++ ('}' :: r)) = some (l, r)) := by
  intro fuel
  induction fuel with
  | zero =>
    refine ⟨?_, ?_, ?_⟩
    · intro j r hj _ _
      have := jsize_pos j
      omega
    · intro l r hne hl _ _
      have := esize_pos_of_ne_nil l hne
      omega
    · intro l r hne hl _ _
      have := fsize_pos_of_ne_nil l hne
      omega
  | succ fuel ih =>
    obtain ⟨ihV, ihE, ihF⟩ := ih
    refine ⟨?_, ?_, ?_⟩
    · intro j r hjsize hsafe hch
      cases j with
      | str s0 =>
        simp only [safeVal] at hsafe
        have hshape : ser (Json.str s0) ++ r = '\"' :: (s0 ++ ('\"' :: r)) := by
          show ('\"' :: (s0 ++ ['\"'])) ++ r = _
          simp [List.append_assoc]
        rw [hshape]
        simp only [parseV]
        rw [dropWhile_cons_false _ (by decide)]
        obtain ⟨hdq, htq⟩ := quoteScan s0 r hsafe
        split
        · rename_i rest heq
          injection heq with h1 h2
          subst h2
          rw [hdq]
          split
          · rename_i r2 heq2
            injection heq2 with h3 h4
            subst h4
            rw [htq]
          · rename_i heq2
            exact absurd rfl (heq2 r)
        · rename_i rest heq
          injection heq with h1 h2
          exact absurd h1 (by decide)
        · rename_i rest heq
          injection heq with h1 h2
          exact absurd h1 (by decide)
        · rename_i r2 heq
          injection heq with h1 h2
          exact absurd h1 (by decide)
        · rename_i r2 heq
          injection heq with h1 h2
          exact absurd h1 (by decide)
        · rename_i r2 heq
          injection heq with h1 h2
          exact absurd h1 (by decide)
        · rename_i c rest hne1 hne2 hne3 hne4 hne5 hne6 heq
          injection heq with h1 h2
          exact (hne1 h1.symm).elim
        · rename_i heq
          cases heq
      | num n =>
        obtain ⟨c0, t0, hnc, hd0⟩ := natChars_head_digit n
        have hshape : ser (Json.num n) ++ r = c0 :: (t0 ++ r) := by
          show natChars n ++ r = _
          rw [hnc]
          rfl
        obtain ⟨htake, hdrop⟩ := digitScan n r hch
        have hnr : natChars n ++ r = c0 :: (t0 ++ r) := by rw [hnc]; rfl
        rw [hnr] at htake hdrop
        rw [hshape]
        have hws : isWs c0 = false := (digit_facts c0 hd0).1
        simp only [parseV]
        rw [dropWhile_cons_false _ hws]
        split
        · rename_i rest heq
          injection heq with h1 h2
          rw [h1] at hd0
          exact absurd hd0 (by decide)
        · rename_i rest heq
          injection heq with h1 h2
          rw [h1] at hd0
          exact absurd hd0 (by decide)
        · rename_i rest heq
          injection heq with h1 h2
          rw [h1] at hd0
          exact absurd hd0 (by decide)
        · rename_i r2 heq
          injection heq with h1 h2
          rw [h1] at hd0
          exact absurd hd0 (by decide)
        · rename_i r2 heq
          injection heq with h1 h2
          rw [h1] at hd0
          exact absurd hd0 (by decide)
        · rename_i r2 heq
          injection heq with h1 h2
          rw [h1] at hd0
          exact absurd hd0 (by decide)
        · rename_i c rest hne1 hne2 hne3 hne4 hne5 hne6 heq
          injection heq with h1 h2
          subst h1
          subst h2
          rw [if_pos hd0]
          rw [htake, hdrop, charsToNat_natChars]
        · rename_i heq
          cases heq
      | bool b => cases b <;> rfl
      | null => rfl
      | arr xs =>
        cases xs with
        | nil => rfl
        | cons x t =>
          simp only [safeVal] at hsafe
          simp only [jsize] at hjsize
          have hesize : esize (x :: t) ≤ fuel := by omega
          have hshape : ser (Json.arr (x :: t)) ++ r =
              '[' :: (serList (x :: t) ++ (']' :: r)) := by
            show ('[' :: (serList (x :: t) ++ [']'])) ++ r = _
            simp [List.append_assoc]
          rw [hshape]
          simp only [parseV]
          rw [dropWhile_cons_false _ (by decide)]
          split
          · rename_i rest heq
            injection heq with h1 h2
            exact absurd h1 (by decide)
          · rename_i rest heq
            injection heq with h1 h2
            exact absurd h1 (by decide)
          · rename_i rest heq
            injection heq with h1 h2
            subst h2
            obtain ⟨c, tl, hsl, hws, hbr, hbk⟩ := serList_cons_head x t
            have hdw : (serList (x :: t) ++ (']' :: r)).dropWhile (fun x => isWs x) =
                c :: (tl ++ (']' :: r)) := by
              rw [hsl]
              exact dropWhile_cons_false _ hws
            rw [hdw]
            split
            · rename_i r2 heq2
              injection heq2 with h3 h4
              rw [h3] at hbk
              simp at hbk
            · rename_i heq2
              have hE := ihE (x :: t) r (by simp) hesize hsafe hch
              rw [hE]
          · rename_i r2 heq
            injection heq with h1 h2
            exact absurd h1 (by decide)
          · rename_i r2 heq
            injection heq with h1 h2
            exact absurd h1 (by decide)
          · rename_i r2 heq
            injection heq with h1 h2
            exact absurd h1 (by decide)
          · rename_i c rest hne1 hne2 hne3 hne4 hne5 hne6 heq
            injection heq with h1 h2
            exact (hne3 h1.symm).elim
          · rename_i heq
            cases heq
      | obj fs =>
        cases fs with
        | nil => rfl
        | cons kv t =>
          simp only [safeVal] at hsafe
          simp only [jsize] at hjsize
          have hfsize : fsize (kv :: t) ≤ fuel := by omega
          have hshape : ser (Json.obj (kv :: t)) ++ r =
              '{' :: (serFields (kv :: t) ++ ('}' :: r)) := by
            show ('{' :: (serFields (kv :: t) ++ ['}'])) ++ r = _
            simp [List.append_assoc]
          rw [hshape]
          simp only [parseV]
          rw [dropWhile_cons_false _ (by decide)]
          split
          · rename_i rest heq
            injection heq with h1 h2
            exact absurd h1 (by decide)
          · rename_i rest heq
            injection heq with h1 h2
            subst h2
            obtain ⟨tl, hsf⟩ := serFields_head kv t
            have hdw : (serFields (kv :: t) ++ ('}' :: r)).dropWhile (fun x => isWs x) =
                '\"' :: (tl ++ ('}' :: r)) := by
              rw [hsf]
              exact dropWhile_cons_false _ (by decide)
            rw [hdw]
            split
            · rename_i r2 heq2
              injection heq2 with h3 h4
              exact absurd h3 (by decide)
            · rename_i heq2
              have hF := ihF (kv :: t) r (by simp) hfsize hsafe hch
              rw [hF]
          · rename_i rest heq
            injection heq with h1 h2
            exact absurd h1 (by decide)
          · rename_i r2 heq
            injection heq with h1 h2
            exact absurd h1 (by decide)
          · rename_i r2 heq
            injection heq with h1 h2
            exact absurd h1 (by decide)
          · rename_i r2 heq
            injection heq with h1 h2
            exact absurd h1 (by decide)
          · rename_i c rest hne1 hne2 hne3 hne4 hne5 hne6 heq
            injection heq with h1 h2
            exact (hne2 h1.symm).elim
          · rename_i heq
            cases heq
    · intro l r hne hesz hsafe hch
      cases l with
      | nil => exact absurd rfl hne
      | cons x t =>
        simp only [safeElems] at hsafe
        rw [Bool.and_eq_true] at hsafe
        simp only [esize] at hesz
        cases t with
        | nil =>
          have hjx : jsize x ≤ fuel := by
            simp only [esize] at hesz
            omega
          have hshape : serList [x] ++ (']' :: r) = ser x ++ (']' :: r) := rfl
          rw [hshape]
          have hV := ihV x (']' :: r) hjx hsafe.1 (Or.inr (Or.inr rfl))
          simp only [parseElems]
          rw [hV]
          rfl
        | cons y t2 =>
          have hjx : jsize x ≤ fuel := by
            have := esize_pos_of_ne_nil (y :: t2) (by simp)
            omega
          have hey : esize (y :: t2) ≤ fuel := by
            have := jsize_pos x
            omega
          have hshape : serList (x :: y :: t2) ++ (']' :: r) =
              ser x ++ (',' :: (serList (y :: t2) ++ (']' :: r))) := by
            show (ser x ++ (',' :: serList (y :: t2))) ++ (']' :: r) = _
            simp [List.append_assoc]
          rw [hshape]
          have hV := ihV x (',' :: (serList (y :: t2) ++ (']' :: r))) hjx hsafe.1
            (Or.inl rfl)
          simp only [parseElems]
          rw [hV]
          dsimp only
          rw [dropWhile_cons_false _ (by decide)]
          split
          · rename_i r2 heq
            injection heq with h1 h2
            subst h2
            have hE := ihE (y :: t2) r (by simp) hey hsafe.2 hch
            rw [hE]
          · rename_i r2 heq
            injection heq with h1 h2
            exact absurd h1 (by decide)
          · rename_i x0 hneComma hneBracket
            exact (hneComma _ rfl).elim
    · intro l r hne hfsz hsafe hch
      cases l with
      | nil => exact absurd rfl hne
      | cons kv t =>
        obtain ⟨k, v⟩ := kv
        simp only [safeFields] at hsafe
        rw [Bool.and_eq_true, Bool.and_eq_true] at hsafe
        obtain ⟨⟨hk, hcv⟩, ht⟩ := hsafe
        have hsv : safeVal v = true := safeColonVal_safeVal v hcv
        simp only [fsize] at hfsz
        cases t with
        | nil =>
          have hjv : jsize v ≤ fuel := by
            simp only [fsize] at hfsz
            omega
          have hshape : serFields [(k, v)] ++ ('}' :: r) =
              '\"' :: (k ++ ('\"' :: (':' :: (ser v ++ ('}' :: r))))) := by
            show ('\"' :: (k ++ ('\"' :: ':' :: ser v))) ++ ('}' :: r) = _
            simp [List.append_assoc]
          rw [hshape]
          simp only [parseFields]
          rw [dropWhile_cons_false _ (by decide)]
          obtain ⟨hdq, htq⟩ := quoteScan k (':' :: (ser v ++ ('}' :: r))) hk
          split
          · rename_i rest heq
            injection heq with h1 h2
            subst h2
            rw [hdq]
            split
            · rename_i r1 heq2
              injection heq2 with h3 h4
              subst h4
              rw [dropWhile_cons_false _ (by decide)]
              split
              · rename_i r2 heq3
                injection heq3 with h5 h6
                subst h6
                have hV := ihV v ('}' :: r) hjv hsv (Or.inr (Or.inl rfl))
                rw [hV]
                dsimp only
                rw [dropWhile_cons_false _ (by decide)]
                split
                · rename_i r4 heq4
                  injection heq4 with h7 h8
                  exact absurd h7 (by decide)
                · rename_i r4 heq4
                  injection heq4 with h7 h8
                  subst h8
                  rw [htq]
                · rename_i x0 hneComma hneBrace
                  exact (hneBrace _ rfl).elim
              · rename_i heq3
                exact (heq3 _ rfl).elim
            · rename_i heq2
              exact (heq2 _ rfl).elim
          · rename_i heq
            exact (heq _ rfl).elim
        | cons kv2 t2 =>
          have hjv : jsize v ≤ fuel := by
            obtain ⟨k2, v2⟩ := kv2
            have : 1 ≤ fsize ((k2, v2) :: t2) := fsize_pos_of_ne_nil _ (by simp)
            omega
          have hft : fsize (kv2 :: t2) ≤ fuel := by
            have := jsize_pos v
            omega
          have hshape : serFields ((k, v) :: kv2 :: t2) ++ ('}' :: r) =
              '\"' :: (k ++ ('\"' :: (':' :: (ser v ++
                (',' :: (serFields (kv2 :: t2) ++ ('}' :: r))))))) := by
            show (('\"' :: (k ++ ('\"' :: ':' :: ser v))) ++
              (',' :: serFields (kv2 :: t2))) ++ ('}' :: r) = _
            simp [List.append_assoc]
          rw [hshape]
          simp only [parseFields]
          rw [dropWhile_cons_false _ (by decide)]
          obtain ⟨hdq, htq⟩ := quoteScan k
            (':' :: (ser v ++ (',' :: (serFields (kv2 :: t2) ++ ('}' :: r))))) hk
          split
          · rename_i rest heq
            injection heq with h1 h2
            subst h2
            rw [hdq]
            split
            · rename_i r1 heq2
              injection heq2 with h3 h4
              subst h4
              rw [dropWhile_cons_false _ (by decide)]
              split
              · rename_i r2 heq3
                injection heq3 with h5 h6
                subst h6
                have hV := ihV v (',' :: (serFields (kv2 :: t2) ++ ('}' :: r))) hjv hsv
                  (Or.inl rfl)
                rw [hV]
                dsimp only
                rw [dropWhile_cons_false _ (by decide)]
                split
                · rename_i r4 heq4
                  injection heq4 with h7 h8
                  subst h8
                  have hF := ihF (kv2 :: t2) r (by simp) hft ht hch
                  rw [hF]
                  dsimp only
                  rw [htq]
                · rename_i r4 heq4
                  injection heq4 with h7 h8
                  exact absurd h7 (by decide)
                · rename_i x0 hneComma hneBrace
                  exact (hneComma _ rfl).elim
              · rename_i heq3
                exact (heq3 _ rfl).elim
            · rename_i heq2
              exact absurd rfl (heq2 _)
          · rename_i heq
            exact (heq _ rfl).elim

end Repair

namespace Repair

theorem parseJson_ser (j : Json) (h : safeVal j = true) : parseJson (ser j) = some j := by
  have hfv : jsize j ≤ (ser j).length + 1 := by
    have := jsize_le_ser (jsize j) j (le_refl _)
    omega
  have h1 := (parse_inversion ((ser j).length + 1)).1 j [] hfv h trivial
  rw [List.append_nil] at h1
  unfold parseJson
  rw [h1]
  rfl

/-- Prose with no brace characters on either side of the embedded span. -/
def braceFree (p : List Char) : Bool := p.all (fun c => !(c == '{') && !(c == '}'))

theorem findIdx_append_none (p : Char → Bool) :
    ∀ (l1 l2 : List Char), l1.all (fun c => !p c) = true →
      (l1 ++ l2).findIdx p = l1.length + l2.findIdx p := by
  intro l1
  induction l1 with
  | nil => intro l2 _; simp
  | cons a t ih =>
    intro l2 h
    simp only [List.all_cons, Bool.and_eq_true] at h
    have ha : p a = false := by
      cases hpa : p a
      · rfl
      · rw [hpa] at h; simp at h
    simp only [List.cons_append, List.findIdx_cons, ha, cond_false, ih l2 h.2,
      List.length_cons]
    omega

theorem braceFree_no_open (p : List Char) (h : braceFree p = true) :
    p.all (fun c => !(c == '{')) = true := by
  unfold braceFree at h
  rw [List.all_eq_true] at h ⊢
  intro x hx
  have := h x hx
  rw [Bool.and_eq_true] at this
  exact this.1

theorem braceFree_no_close (p : List Char) (h : braceFree p = true) :
    p.all (fun c => !(c == '}')) = true := by
  unfold braceFree at h
  rw [List.all_eq_true] at h ⊢
  intro x hx
  have := h x hx
  rw [Bool.and_eq_true] at this
  exact this.2

theorem extractJsonSpan_embedded (fs : List (List Char × Json)) (p1 p2 : List Char)
    (h1 : braceFree p1 = true) (h2 : braceFree p2 = true) :
    extractJsonSpan (p1 ++ (ser (Json.obj fs) ++ p2)) = some (ser (Json.obj fs)) := by
  have hser : ser (Json.obj fs) = '{' :: (serFields fs ++ ['}']) := rfl
  have hL : 2 ≤ (ser (Json.obj fs)).length := by
    rw [hser]
    simp [List.length_append]
  have hfi : (p1 ++ (ser (Json.obj fs) ++ p2)).findIdx (fun c => c == '{') = p1.length := by
    rw [findIdx_append_none _ p1 _ (braceFree_no_open p1 h1)]
    rw [hser]
    simp [List.findIdx_cons]
  have hrev : (p1 ++ (ser (Json.obj fs) ++ p2)).reverse =
      p2.reverse ++ (('}' :: ((serFields fs).reverse ++ ['{'])) ++ p1.reverse) := by
    rw [hser]
    simp [List.reverse_append]
  have hfj : (p1 ++ (ser (Json.obj fs) ++ p2)).reverse.findIdx (fun c => c == '}') =
      p2.length := by
    rw [hrev, findIdx_append_none _ _ _ (by
      rw [List.all_reverse]
      exact braceFree_no_close p2 h2)]
    simp [List.findIdx_cons]
  have hlen : (p1 ++ (ser (Json.obj fs) ++ p2)).length =
      p1.length + ((ser (Json.obj fs)).length + p2.length) := by
    simp [List.length_append]
  unfold extractJsonSpan
  rw [hfi, hfj, hlen]
  rw [if_pos (by omega)]
  rw [if_pos (by omega)]
  have harith : p1.length + ((ser (Json.obj fs)).length + p2.length) - 1 - p2.length -
      p1.length + 1 = (ser (Json.obj fs)).length := by omega
  rw [harith]
  rw [List.drop_left]
  rw [show ser (Json.obj fs) ++ p2 = ser (Json.obj fs) ++ p2 from rfl]
  rw [List.take_left]

theorem repairParse_embedded (fs : List (List Char × Json)) (p1 p2 : List Char)
    (hfs : safeFields fs = true) (h1 : braceFree p1 = true) (h2 : braceFree p2 = true) :
    repairParse (p1 ++ (ser (Json.obj fs) ++ p2)) = some (Json.obj fs) := by
  have hsafe : safeVal (Json.obj fs) = true := by
    simp only [safeVal]
    exact hfs
  have hext := extractJsonSpan_embedded fs p1 p2 h1 h2
  have hfirst : parseJson (repairPasses (ser (Json.obj fs))) = some (Json.obj fs) := by
    rw [repairPasses_ser _ hsafe, parseJson_ser _ hsafe]
  unfold repairParse candidateSpans
  rw [hext]
  dsimp only
  simp only [List.findSome?]
  rw [hfirst]

def docC2 : Json :=
  Json.obj [(String.data "days",
    Json.arr [Json.obj [(String.data "day", Json.num 12)]])]

def docC2q : Json :=
  Json.obj [(String.data "days",
    Json.arr [Json.obj [(String.data "day", Json.str (String.data "12"))]])]

end Repair

namespace Repair

/-- C2 (amended): the round trip the response-repair parser actually
guarantees.  For a document over the safe alphabet (alphanumerics, space,
`.`, `-`, `/` in strings and keys) whose object members in colon position
are strings, objects, arrays or single-digit numbers, the three repair
passes leave the serialization unchanged, and embedding the serialization
in any brace-free prose and running brace-span extraction, the repair
passes and `JSON.parse` returns exactly the original document.  The
restriction is necessary: the value-quoting pass rewrites any unquoted
run of two or more characters after a colon, so booleans, `null` and
multi-digit numbers in object-value position are mutated — see the
counterexample. -/
theorem responseRepair_roundTrip_amended (fs : List (List Char × Json))
    (p1 p2 : List Char) (hfs : safeFields fs = true)
    (h1 : braceFree p1 = true) (h2 : braceFree p2 = true) :
    repairPasses (ser (Json.obj fs)) = ser (Json.obj fs) ∧
    repairParse (p1 ++ (ser (Json.obj fs) ++ p2)) = some (Json.obj fs) :=
  ⟨repairPasses_ser (Json.obj fs) (by simp only [safeVal]; exact hfs),
   repairParse_embedded fs p1 p2 hfs h1 h2⟩

/-- Safe example document for the round-trip witness. -/
def docFieldsW : List (List Char × Json) :=
  [(String.data "days",
     Json.arr [Json.obj [(String.data "day", Json.num 1),
       (String.data "city", Json.str (String.data "Mumbai"))]]),
   (String.data "summary", Json.str (String.data "One day in Mumbai"))]

theorem responseRepair_roundTrip_amended_witness :
    repairPasses (ser (Json.obj docFieldsW)) = ser (Json.obj docFieldsW) ∧
    repairParse (String.data "Here is the itinerary. " ++
      (ser (Json.obj docFieldsW) ++ String.data " Enjoy the trip.")) =
      some (Json.obj docFieldsW) :=
  responseRepair_roundTrip_amended docFieldsW
    (String.data "Here is the itinerary. ") (String.data " Enjoy the trip.")
    (by decide) (by decide) (by decide)

/-- C2: counterexample to the unrestricted round-trip claim.  `docC2` is an
itinerary-shaped document — a `days` array of day objects with a numeric
`day` field — and it is embedded in no prose at all; yet the value-quoting
repair pass mutates its serialization (`"day":12` becomes `"day": "12"`),
so the repair passes are not no-ops on clean JSON, and the parser returns
a document that is not deep-equal to the original: the day number comes
back as the string `"12"` (the document `docC2q`). -/
theorem responseRepair_roundTrip_counterexample :
    repairPasses (ser docC2) ≠ ser docC2 ∧
    (repairParse (ser docC2)).map (fun x => Itinerary.jsonBeq x docC2) = some false ∧
    (repairParse (ser docC2)).map (fun x => Itinerary.jsonBeq x docC2q) = some true := by
  decide

end Repair
